import Mathlib

/-!
# CarbonPasture: ledger contract and gateway, embedded in Lean

A shallow embedding of `chaincode/lib/assetTransfer.js` (the asset contract), of the
session construction and REST helpers of `application-gateway/src/app.js`, of the token
cache of `application-gateway/token.js` and of `application-gateway/middleware/roleAuth.js`.

* The world state reached through `ctx.stub` is a finite map from keys to stored values,
  kept as a list of pairs in strictly ascending key order.  Keys and values are Lean
  strings (well-formed Unicode text; a stored Buffer is identified with its UTF-8 text).
* Contract methods take the ledger and return their outcome together with the ledger
  after the call; a thrown JavaScript error is `Except.error`.
* The JavaScript built-ins the contract calls (`parseInt`, `JSON.stringify`, `JSON.parse`,
  `||`, property access) are embedded as executable functions over `JSValue`.
* A Number is a double: `JSNumber.fin q` carries the exact rational value of a finite
  double, integers are rounded to nearest (ties to even) by `roundNat`, and
  `Number::toString` prints the shortest digits that read back as the same double.

Choices and limits of the embedding:

* The ledger capability is the one the contract is written against: `getState` may find
  nothing or find an empty value (`ReadAsset` and `AssetExists` test for both), and
  `putState` accepts every key and every value.  A peer keeps no empty value (writing one
  deletes the key) and the contract writes none, so the theorem on the range scan of
  `GetAllAssets` is stated for the ledgers without one; the range scan yields the keys in
  ascending order, which is how the world state is kept.
* A String value is a list of Unicode scalar values and lone surrogates (`JSString`):
  `JSON.parse` keeps a lone surrogate written as a `\uXXXX` escape and `JSON.stringify`
  writes it back as that escape.  Keys, stored values and arguments are well-formed text.
* The arithmetic of the token cache rounds every result to the nearest double.
* The bytes a ledger call returns are well-formed text; `utf8Decoder.decode` leaves out a
  leading byte order mark.
* `parseInt` is exact on arbitrarily long digit strings, where ECMAScript allows an
  approximation after the twentieth significant digit.
* In the gateway helpers the two `close` calls of the `finally` block do not throw.
-/

namespace CarbonPasture

set_option maxRecDepth 100000

/-! ## World state -/

/-- Strictly ascending key order on stored pairs. -/
abbrev KeyLt (a b : String × String) : Prop := a.1 < b.1

/-- The world state: stored (key, value) pairs in strictly ascending key order. -/
structure Ledger where
  entries : List (String × String)
  sorted : entries.Pairwise KeyLt

/-- Value lookup in a list of stored pairs. -/
def lookupKey (k : String) : List (String × String) → Option String
  | [] => none
  | (k', v) :: t => if k = k' then some v else lookupKey k t

/-- Ordered insertion of a pair, replacing the pair already stored under the key. -/
def insertKey (k v : String) : List (String × String) → List (String × String)
  | [] => [(k, v)]
  | (k', v') :: t =>
    if k < k' then (k, v) :: (k', v') :: t
    else if k = k' then (k, v) :: t
    else (k', v') :: insertKey k v t

/-- Removal of the pair stored under a key. -/
def eraseKey (k : String) : List (String × String) → List (String × String)
  | [] => []
  | (k', v') :: t => if k = k' then eraseKey k t else (k', v') :: eraseKey k t

theorem insertKey_fst_mem (k v : String) (l : List (String × String)) (p : String × String)
    (hp : p ∈ insertKey k v l) : p.1 = k ∨ p ∈ l := by
  induction l with
  | nil => simp [insertKey] at hp; left; rw [hp]
  | cons a t ih =>
    obtain ⟨k', v'⟩ := a
    simp only [insertKey] at hp
    split at hp
    · rcases List.mem_cons.1 hp with h | h
      · left; rw [h]
      · right; exact h
    · split at hp
      · rcases List.mem_cons.1 hp with h | h
        · left; rw [h]
        · right; exact List.mem_cons_of_mem _ h
      · rcases List.mem_cons.1 hp with h | h
        · right; rw [h]; exact List.mem_cons_self _ _
        · rcases ih h with h' | h'
          · left; exact h'
          · right; exact List.mem_cons_of_mem _ h'

theorem insertKey_sorted (k v : String) (l : List (String × String))
    (hl : l.Pairwise KeyLt) : (insertKey k v l).Pairwise KeyLt := by
  induction l with
  | nil => simp [insertKey]
  | cons a t ih =>
    obtain ⟨k', v'⟩ := a
    have ht := (List.pairwise_cons.1 hl).2
    have ha := (List.pairwise_cons.1 hl).1
    simp only [insertKey]
    split
    · rename_i hlt
      refine List.pairwise_cons.2 ⟨?_, hl⟩
      intro p hp
      rcases List.mem_cons.1 hp with h | h
      · rw [h]; exact hlt
      · exact lt_trans hlt (ha p h)
    · split
      · rename_i _ heq
        refine List.pairwise_cons.2 ⟨?_, ht⟩
        intro p hp
        have := ha p hp
        show k < p.1
        rw [heq]; exact this
      · rename_i hnlt hne
        refine List.pairwise_cons.2 ⟨?_, ih ht⟩
        intro p hp
        rcases insertKey_fst_mem k v t p hp with h | h
        · show k' < p.1
          rw [h]
          exact lt_of_le_of_ne (not_lt.1 hnlt) (fun e => hne e.symm)
        · exact ha p h

theorem eraseKey_sublist (k : String) (l : List (String × String)) :
    (eraseKey k l).Sublist l := by
  induction l with
  | nil => exact List.Sublist.slnil
  | cons a t ih =>
    obtain ⟨k', v'⟩ := a
    simp only [eraseKey]
    split
    · exact List.Sublist.cons _ ih
    · exact List.Sublist.cons₂ _ ih

theorem eraseKey_sorted (k : String) (l : List (String × String))
    (hl : l.Pairwise KeyLt) : (eraseKey k l).Pairwise KeyLt :=
  List.Pairwise.sublist (eraseKey_sublist k l) hl

/-- The empty world state. -/
def Ledger.empty : Ledger := ⟨[], List.Pairwise.nil⟩

/-- Capability `stub.getState(key)`: the stored value, `none` when nothing is stored. -/
def getState (ctx : Ledger) (key : String) : Option String :=
  lookupKey key ctx.entries

/-- Capability `stub.putState(key, value)`. -/
def putState (ctx : Ledger) (key value : String) : Ledger :=
  ⟨insertKey key value ctx.entries, insertKey_sorted key value ctx.entries ctx.sorted⟩

/-- Capability `stub.deleteState(key)`. -/
def deleteState (ctx : Ledger) (key : String) : Ledger :=
  ⟨eraseKey key ctx.entries, eraseKey_sorted key ctx.entries ctx.sorted⟩

/-- Capability `stub.getStateByRange('', '')`: every stored pair, in key order. -/
def getStateByRange (ctx : Ledger) : List (String × String) :=
  ctx.entries

/-! ## JavaScript numbers -/

/-- A JavaScript Number: `fin q` is the finite double with exact value `q` (`fin 0` is +0). -/
inductive JSNumber
  | nan
  | posInf
  | negInf
  | negZero
  | fin (q : ℚ)
  deriving DecidableEq

/-- Number of binary digits of `n`, computed with `fuel` halvings. -/
def bitLengthAux : Nat → Nat → Nat
  | 0, _ => 0
  | fuel + 1, n => if n = 0 then 0 else bitLengthAux fuel (n / 2) + 1

/-- Number of binary digits of `n` (`0` for `0`). -/
def bitLength (n : Nat) : Nat := bitLengthAux n n

/-- The bound `2 ^ 1024`: a rounded magnitude that reaches it overflows to infinity. -/
def overflowBound : Nat := (2 ^ 256) ^ 4

/-- Nearest double to a natural number, ties to even; a result of `2 ^ 1024` or more
stands for overflow. -/
def roundNat (n : Nat) : Nat :=
  if n < 2 ^ 53 then n
  else
    let sh := bitLength n - 53
    let q := n / 2 ^ sh
    let r := n % 2 ^ sh
    let half := 2 ^ (sh - 1)
    let m := if r < half then q else if half < r then q + 1 else if q % 2 = 0 then q else q + 1
    m * 2 ^ sh

/-- The Number value of a signed mathematical integer `±n`. -/
def ofMathInt (neg : Bool) (n : Nat) : JSNumber :=
  if n = 0 then (if neg then .negZero else .fin 0)
  else
    let y := roundNat n
    if overflowBound ≤ y then (if neg then .negInf else .posInf)
    else .fin (if neg then -(y : ℚ) else (y : ℚ))

/-- Floor of the binary logarithm of a positive rational. -/
def floorLog2 (q : ℚ) : Int :=
  let e0 : Int := (bitLength q.num.natAbs : Int) - (bitLength q.den : Int)
  if (2 : ℚ) ^ e0 ≤ q then e0 else e0 - 1

/-- Nearest natural number to a non-negative rational, ties to even. -/
def roundHalfEven (t : ℚ) : Nat :=
  let f := t.floor.toNat
  let r := t - (f : ℚ)
  if r < 1 / 2 then f else if 1 / 2 < r then f + 1 else if f % 2 = 0 then f else f + 1

/-- Nearest double to a positive rational (subnormals included), ties to even. -/
def roundRat (q : ℚ) : ℚ :=
  let e := max (floorLog2 q) (-1022)
  let ulp : ℚ := (2 : ℚ) ^ (e - 52)
  (roundHalfEven (q / ulp) : ℚ) * ulp

/-- The Number value of a signed non-negative rational `±q`. -/
def ofMathRat (neg : Bool) (q : ℚ) : JSNumber :=
  if q.den = 1 then ofMathInt neg q.num.natAbs
  else
    let y := roundRat q
    if y = 0 then (if neg then .negZero else .fin 0)
    else if (overflowBound : ℚ) ≤ y then (if neg then .negInf else .posInf)
    else .fin (if neg then -y else y)

/-- The Number value of the decimal numeral `±m × 10 ^ e`. -/
def decToNumber (neg : Bool) (m : Nat) (e : Int) : JSNumber :=
  if 0 ≤ e then ofMathInt neg (m * 10 ^ e.toNat)
  else ofMathRat neg ((m : ℚ) / (10 : ℚ) ^ (-e).toNat)

/-! ### `Number::toString` -/

/-- Number of places the decimal point of `x < 1` moves right to reach `[1, 10)`. -/
def fracShift : Nat → ℚ → Nat → Nat
  | 0, _, j => j
  | fuel + 1, x, j => if 1 ≤ x then j else fracShift fuel (x * 10) (j + 1)

/-- Decimal exponent `n` of a positive rational: `10 ^ (n - 1) ≤ x < 10 ^ n`. -/
def decExp (x : ℚ) : Int :=
  if 1 ≤ x then ((Nat.toDigits 10 x.floor.toNat).length : Int)
  else 1 - (fracShift 400 x 0 : Int)

/-- The two `k`-digit candidates `(s, n)` around `x`, nearest first (ties: even first). -/
def candidatesAt (x : ℚ) (n0 : Int) (k : Nat) : List (Nat × Int) :=
  let scale : ℚ := (10 : ℚ) ^ ((k : Int) - n0)
  let t := x * scale
  let lo := t.floor.toNat
  let hi : Nat × Int := if lo + 1 = 10 ^ k then (10 ^ (k - 1), n0 + 1) else (lo + 1, n0)
  let r := t - (lo : ℚ)
  if r < 1 / 2 then [(lo, n0), hi]
  else if 1 / 2 < r then [hi, (lo, n0)]
  else if lo % 2 = 0 then [(lo, n0), hi] else [hi, (lo, n0)]

/-- A candidate `(s, n)` denotes `s × 10 ^ (n - k)`, `k` the digit count of `s`; it is
valid for the finite non-zero `q` when that numeral, with the sign of `q`, reads back
as `q`. -/
def validDigits (q : ℚ) (c : Nat × Int) : Bool :=
  decide (c.1 ≠ 0) &&
    decide (decToNumber (decide (q < 0)) c.1 (c.2 - ((Nat.toDigits 10 c.1).length : Int)) = .fin q)

/-- The digits `s` and exponent `n` of `Number::toString` for `|q|`: the shortest valid
candidate. -/
def shortestDigits (q : ℚ) : Nat × Int :=
  let x := |q|
  let n0 := decExp x
  let all := (List.range 17).flatMap (fun i => candidatesAt x n0 (i + 1))
  match all.find? (validDigits q) with
  | some c => c
  | none => (x.floor.toNat, n0)

/-- Layout of the digits `ds` of `s` (with `k = ds.length`) and exponent `n`. -/
def layoutDigits (ds : List Char) (n : Int) : List Char :=
  let k : Int := ds.length
  if k ≤ n ∧ n ≤ 21 then ds ++ List.replicate (n - k).toNat '0'
  else if 0 < n ∧ n ≤ 21 then ds.take n.toNat ++ '.' :: ds.drop n.toNat
  else if -6 < n ∧ n ≤ 0 then '0' :: '.' :: (List.replicate (-n).toNat '0' ++ ds)
  else
    let e := n - 1
    let expo := (if 0 ≤ e then '+' else '-') :: Nat.toDigits 10 e.natAbs
    match ds with
    | [] => []
    | [d] => d :: 'e' :: expo
    | d :: rest => d :: '.' :: (rest ++ 'e' :: expo)

/-- `Number::toString(x)` in radix 10, as a list of characters. -/
def numberToChars : JSNumber → List Char
  | .nan => "NaN".data
  | .posInf => "Infinity".data
  | .negInf => "-Infinity".data
  | .negZero => ['0']
  | .fin q =>
    if q = 0 then ['0']
    else
      let c := shortestDigits q
      let body := layoutDigits (Nat.toDigits 10 c.1) c.2
      if q < 0 then '-' :: body else body

/-! ## JavaScript values and `JSON.stringify` -/

/-- An element of a String value: a Unicode scalar value, or a surrogate code unit that is
not part of a surrogate pair. -/
inductive JSChar
  | scalar (c : Char)
  | surrogate (unit : Nat)
  deriving DecidableEq

/-- A String value: its UTF-16 code units, every surrogate pair being held as the one scalar
value it encodes. -/
abbrev JSString := List JSChar

/-- The String value of well-formed text. -/
def jsString (s : String) : JSString := s.data.map JSChar.scalar

/-- A JavaScript value of the JSON fragment plus `undefined`.  An object is its list of
own properties in enumeration order. -/
inductive JSValue
  | undefined
  | null
  | bool (b : Bool)
  | number (n : JSNumber)
  | str (units : JSString)
  | array (items : List JSValue)
  | object (props : List (JSString × JSValue))

/-- The String value of well-formed text, as a value. -/
@[reducible] def JSValue.string (s : String) : JSValue := .str (jsString s)

/-- The errors a call can throw: a plain `Error` with its message, a `TypeError`, or the
`SyntaxError` of `JSON.parse`. -/
inductive JSError
  | Error (message : String)
  | TypeError
  | SyntaxError
  deriving DecidableEq

/-- Lower-case hexadecimal digit. -/
def hexDigit (d : Nat) : Char :=
  if d < 10 then Char.ofNat (48 + d) else Char.ofNat (87 + d)

/-- One character of `QuoteJSONString`. -/
def quoteChar (c : Char) : List Char :=
  if c = '"' then ['\\', '"']
  else if c = '\\' then ['\\', '\\']
  else if c.toNat = 8 then ['\\', 'b']
  else if c.toNat = 9 then ['\\', 't']
  else if c.toNat = 10 then ['\\', 'n']
  else if c.toNat = 12 then ['\\', 'f']
  else if c.toNat = 13 then ['\\', 'r']
  else if c.toNat < 32 then ['\\', 'u', '0', '0', hexDigit (c.toNat / 16), hexDigit (c.toNat % 16)]
  else [c]

/-- One element of a String value in `QuoteJSONString`: a lone surrogate is written as its
`\uXXXX` escape. -/
def quoteUnit : JSChar → List Char
  | .scalar c => quoteChar c
  | .surrogate u =>
    ['\\', 'u', hexDigit (u / 4096 % 16), hexDigit (u / 256 % 16), hexDigit (u / 16 % 16),
      hexDigit (u % 16)]

/-- Escaped characters of a string, without the surrounding quotes. -/
def quoteBody : JSString → List Char
  | [] => []
  | c :: cs => quoteUnit c ++ quoteBody cs

/-- `QuoteJSONString`. -/
def quoteJSONString (s : JSString) : List Char :=
  '"' :: (quoteBody s ++ ['"'])

/-- Comma-joined concatenation of already serialized parts. -/
def joinComma : List (List Char) → List Char
  | [] => []
  | [p] => p
  | p :: q :: rest => p ++ ',' :: joinComma (q :: rest)

mutual
/-- `SerializeJSONProperty` without indentation: `none` is JavaScript `undefined`. -/
def serialize : JSValue → Option (List Char)
  | .undefined => none
  | .null => some "null".data
  | .bool true => some "true".data
  | .bool false => some "false".data
  | .number (.fin q) => some (numberToChars (.fin q))
  | .number .negZero => some (numberToChars .negZero)
  | .number _ => some "null".data
  | .str s => some (quoteJSONString s)
  | .array items => some ('[' :: (joinComma (serializeItems items) ++ [']']))
  | .object props => some ('{' :: (joinComma (serializeProps props) ++ ['}']))
/-- Elements of an array: `undefined` is written `null`. -/
def serializeItems : List JSValue → List (List Char)
  | [] => []
  | v :: vs =>
    (match serialize v with
      | some t => t
      | none => "null".data) :: serializeItems vs
/-- Properties of an object: a property whose value is `undefined` is left out. -/
def serializeProps : List (JSString × JSValue) → List (List Char)
  | [] => []
  | (k, v) :: ps =>
    match serialize v with
    | some t => (quoteJSONString k ++ ':' :: t) :: serializeProps ps
    | none => serializeProps ps
end

/-- `JSON.stringify(value)`; `none` is the result `undefined`. -/
def JSON.stringify (value : JSValue) : Option String :=
  (serialize value).map String.mk

/-! ## `parseInt` -/

/-- The characters `TrimString` removes: WhiteSpace and LineTerminator. -/
def isStrWhiteSpace (c : Char) : Bool :=
  let n := c.toNat
  n = 9 || n = 10 || n = 11 || n = 12 || n = 13 || n = 32 || n = 160 || n = 5760 ||
  (8192 ≤ n && n ≤ 8202) || n = 8232 || n = 8233 || n = 8239 || n = 8287 || n = 12288 ||
  n = 65279

/-- Removal of leading white space. -/
def trimStart : List Char → List Char
  | [] => []
  | c :: cs => if isStrWhiteSpace c then trimStart cs else c :: cs

/-- Value of a character as a digit of the given radix, if it is one. -/
def digitValue (radix : Nat) (c : Char) : Option Nat :=
  let n := c.toNat
  let v := if 48 ≤ n ∧ n ≤ 57 then n - 48
    else if 97 ≤ n ∧ n ≤ 122 then n - 87
    else if 65 ≤ n ∧ n ≤ 90 then n - 55
    else radix
  if v < radix then some v else none

/-- Reads the longest prefix of radix digits: its value (after `acc`) and its length. -/
def readRadix (radix : Nat) : List Char → Nat → Nat → Nat × Nat
  | [], acc, len => (acc, len)
  | c :: cs, acc, len =>
    match digitValue radix c with
    | some v => readRadix radix cs (acc * radix + v) (len + 1)
    | none => (acc, len)

/-- Step 4 of `parseInt`: the input starts with a minus sign. -/
def startsWithMinus : List Char → Bool
  | '-' :: _ => true
  | _ => false

/-- Step 5 of `parseInt`: removal of a leading sign. -/
def dropSign : List Char → List Char
  | '-' :: r => r
  | '+' :: r => r
  | S => S

/-- Step 10 of `parseInt`: the input starts with `0x` or `0X`. -/
def hasHexPrefix : List Char → Bool
  | '0' :: 'x' :: _ => true
  | '0' :: 'X' :: _ => true
  | _ => false

/-- `parseInt(string)` with the radix left out, on a string argument. -/
def parseInt (string : String) : JSNumber :=
  let S := trimStart string.data
  let neg := startsWithMinus S
  let S1 := dropSign S
  let hex := hasHexPrefix S1
  let R := if hex then 16 else 10
  let Z := if hex then S1.drop 2 else S1
  let (mathInt, len) := readRadix R Z 0 0
  if len = 0 then .nan else ofMathInt neg mathInt

/-! ## `JSON.parse` -/

/-- JSON white space. -/
def isJsonWs (c : Char) : Bool :=
  c = ' ' || c = '\t' || c = '\n' || c = '\r'

/-- Removal of leading JSON white space. -/
def skipWs : List Char → List Char
  | [] => []
  | c :: cs => if isJsonWs c then skipWs cs else c :: cs

/-- Value of a hexadecimal digit. -/
def hexValue (c : Char) : Option Nat := digitValue 16 c

/-- Value of four hexadecimal digits. -/
def hex4 (a b c d : Char) : Option Nat :=
  match hexValue a, hexValue b, hexValue c, hexValue d with
  | some x, some y, some z, some w => some (((x * 16 + y) * 16 + z) * 16 + w)
  | _, _, _, _ => none

/-- Prepends an element to the String value of a string-literal result. -/
def consChar (c : JSChar) : Option (JSString × List Char) → Option (JSString × List Char)
  | some (s, rest) => some (c :: s, rest)
  | none => none

/-- The character of a simple escape `\e`. -/
def simpleEscape (e : Char) : Option Char :=
  if e = '"' then some '"'
  else if e = '\\' then some '\\'
  else if e = '/' then some '/'
  else if e = 'b' then some (Char.ofNat 8)
  else if e = 'f' then some (Char.ofNat 12)
  else if e = 'n' then some (Char.ofNat 10)
  else if e = 'r' then some (Char.ofNat 13)
  else if e = 't' then some (Char.ofNat 9)
  else none

/-- A pending high surrogate that found no low surrogate stays in the String value as a
lone surrogate. -/
def flushPending (pending : Option Nat) (r : Option (JSString × List Char)) :
    Option (JSString × List Char) :=
  match pending with
  | some hi => consChar (.surrogate hi) r
  | none => r

/-- Reads a string literal after its opening quote: the String value and the remaining
input.  `pending` is a high surrogate code unit read from the preceding `\uXXXX` escape: a
low surrogate escape right after it makes the pair, anything else leaves it alone. -/
def parseChars : Option Nat → List Char → Option (JSString × List Char)
  | _, [] => none
  | pending, c :: rest =>
    if c = '"' then flushPending pending (some ([], rest))
    else if c = '\\' then
      match rest with
      | [] => none
      | e :: rest1 =>
        if e = 'u' then
          match rest1 with
          | h1 :: h2 :: h3 :: h4 :: rest2 =>
            match hex4 h1 h2 h3 h4 with
            | none => none
            | some u =>
              if 0xD800 ≤ u ∧ u ≤ 0xDBFF then flushPending pending (parseChars (some u) rest2)
              else if 0xDC00 ≤ u ∧ u ≤ 0xDFFF then
                match pending with
                | some hi =>
                  consChar (.scalar (Char.ofNat (0x10000 + (hi - 0xD800) * 0x400 + (u - 0xDC00))))
                    (parseChars none rest2)
                | none => consChar (.surrogate u) (parseChars none rest2)
              else flushPending pending (consChar (.scalar (Char.ofNat u)) (parseChars none rest2))
          | _ => none
        else
          match simpleEscape e with
          | some ch => flushPending pending (consChar (.scalar ch) (parseChars none rest1))
          | none => none
    else if c.toNat < 32 then none
    else flushPending pending (consChar (.scalar c) (parseChars none rest))

/-- Decimal digit test. -/
def isDigit (c : Char) : Bool := 48 ≤ c.toNat && c.toNat ≤ 57

/-- The longest prefix of decimal digits, and the rest. -/
def takeDigits : List Char → List Char × List Char
  | [] => ([], [])
  | c :: cs =>
    if isDigit c then ((takeDigits cs).1.cons c, (takeDigits cs).2) else ([], c :: cs)

/-- Value of a list of decimal digits. -/
def readDigits (ds : List Char) : Nat :=
  ds.foldl (fun acc c => acc * 10 + (c.toNat - 48)) 0

/-- Exponent part of a number literal: the signed exponent and the rest; no exponent part
is exponent `0`; `none` when `e` is not followed by digits. -/
def parseExponent : List Char → Option (Int × List Char)
  | c :: cs =>
    if c = 'e' ∨ c = 'E' then
      let neg := match cs with
        | '-' :: _ => true
        | _ => false
      let cs1 := match cs with
        | '-' :: r => r
        | '+' :: r => r
        | _ => cs
      let ep := takeDigits cs1
      if ep.1 = [] then none
      else some (if neg then -(readDigits ep.1 : Int) else (readDigits ep.1 : Int), ep.2)
    else some (0, c :: cs)
  | [] => some (0, [])

/-- Fraction part of a number literal: its digits and the rest; `none` when `.` is not
followed by digits. -/
def parseFraction : List Char → Option (List Char × List Char)
  | '.' :: cs =>
    let fp := takeDigits cs
    if fp.1 = [] then none else some fp
  | cs => some ([], cs)

/-- Reads a JSON number literal after its optional minus sign. -/
def parseUnsigned (neg : Bool) (cs : List Char) : Option (JSNumber × List Char) :=
  let ip := takeDigits cs
  if ip.1 = [] ∨ (1 < ip.1.length ∧ ip.1.head? = some '0') then none
  else
    match parseFraction ip.2 with
    | none => none
    | some (fp, cs3) =>
      match parseExponent cs3 with
      | none => none
      | some (e, cs4) =>
        some (decToNumber neg (readDigits (ip.1 ++ fp)) (e - (fp.length : Int)), cs4)

/-- Reads a JSON number literal: its Number value and the remaining input. -/
def parseNumber (cs : List Char) : Option (JSNumber × List Char) :=
  match cs with
  | '-' :: r => parseUnsigned true r
  | _ => parseUnsigned false cs

/-! ### Own properties -/

/-- The characters of a String value that holds no lone surrogate. -/
def scalarsOf : JSString → Option (List Char)
  | [] => some []
  | .scalar c :: cs =>
    match scalarsOf cs with
    | some ds => some (c :: ds)
    | none => none
  | .surrogate _ :: _ => none

/-- Array-index keys (canonical numerals below `2 ^ 32 - 1`) are enumerated first, in
ascending numeric order. -/
def arrayIndex (key : JSString) : Option Nat :=
  match scalarsOf key with
  | none => none
  | some ds =>
    if ds ≠ [] ∧ ds.all isDigit ∧ (ds.length = 1 ∨ ds.head? ≠ some '0') ∧
        readDigits ds < 4294967295 then some (readDigits ds) else none

/-- Value of own property `key`; `undefined` when there is none. -/
def getProp : List (JSString × JSValue) → JSString → JSValue
  | [], _ => .undefined
  | (k, v) :: ps, key => if key = k then v else getProp ps key

/-- Whether `key` is an own property. -/
def hasProp : List (JSString × JSValue) → JSString → Bool
  | [], _ => false
  | (k, _) :: ps, key => if key = k then true else hasProp ps key

/-- Replacement of the value of an existing own property, its position kept. -/
def replaceProp : List (JSString × JSValue) → JSString → JSValue →
    List (JSString × JSValue)
  | [], _, _ => []
  | (k, v) :: ps, key, val =>
    if key = k then (k, val) :: ps else (k, v) :: replaceProp ps key val

/-- Insertion of a new array-index property `key` (index `i`) in index order. -/
def insertIndexProp : List (JSString × JSValue) → JSString → Nat → JSValue →
    List (JSString × JSValue)
  | [], key, _, val => [(key, val)]
  | (k, v) :: ps, key, i, val =>
    match arrayIndex k with
    | some j => if j < i then (k, v) :: insertIndexProp ps key i val
      else (key, val) :: (k, v) :: ps
    | none => (key, val) :: (k, v) :: ps

/-- Assignment `o[key] = val` on the own properties of an ordinary object. -/
def setProp (ps : List (JSString × JSValue)) (key : JSString) (val : JSValue) :
    List (JSString × JSValue) :=
  if hasProp ps key then replaceProp ps key val
  else
    match arrayIndex key with
    | some i => insertIndexProp ps key i val
    | none => ps ++ [(key, val)]

/-! ### Values -/

mutual
/-- Reads one JSON value at the head of the input (no leading white space): the value and
the remaining input.  `fuel` bounds the nesting and the number of elements read. -/
def parseValue : Nat → List Char → Option (JSValue × List Char)
  | 0, _ => none
  | fuel + 1, cs =>
    match cs with
    | 'n' :: 'u' :: 'l' :: 'l' :: rest => some (.null, rest)
    | 't' :: 'r' :: 'u' :: 'e' :: rest => some (.bool true, rest)
    | 'f' :: 'a' :: 'l' :: 's' :: 'e' :: rest => some (.bool false, rest)
    | '"' :: rest =>
      match parseChars none rest with
      | some (t, r) => some (.str t, r)
      | none => none
    | '[' :: rest =>
      match skipWs rest with
      | ']' :: r => some (.array [], r)
      | r =>
        match parseElements fuel r with
        | some (items, r') => some (.array items, r')
        | none => none
    | '{' :: rest =>
      match skipWs rest with
      | '}' :: r => some (.object [], r)
      | r => parseMembers fuel r []
    | _ =>
      match parseNumber cs with
      | some (n, r) => some (.number n, r)
      | none => none
/-- Reads the elements of an array up to and including the closing bracket. -/
def parseElements : Nat → List Char → Option (List JSValue × List Char)
  | 0, _ => none
  | fuel + 1, cs =>
    match parseValue fuel cs with
    | none => none
    | some (v, r) =>
      match skipWs r with
      | ',' :: r' =>
        match parseElements fuel (skipWs r') with
        | some (items, r'') => some (v :: items, r'')
        | none => none
      | ']' :: r' => some ([v], r')
      | _ => none
/-- Reads the members of an object up to and including the closing brace, defining each
property on the object built so far. -/
def parseMembers : Nat → List Char → List (JSString × JSValue) →
    Option (JSValue × List Char)
  | 0, _, _ => none
  | fuel + 1, cs, acc =>
    match cs with
    | '"' :: r =>
      match parseChars none r with
      | none => none
      | some (k, r1) =>
        match skipWs r1 with
        | ':' :: r2 =>
          match parseValue fuel (skipWs r2) with
          | none => none
          | some (v, r3) =>
            match skipWs r3 with
            | ',' :: r4 => parseMembers fuel (skipWs r4) (setProp acc k v)
            | '}' :: r4 => some (.object (setProp acc k v), r4)
            | _ => none
        | _ => none
    | _ => none
end

/-- `JSON.parse(text)` without reviver. -/
def JSON.parse (text : String) : Except JSError JSValue :=
  match parseValue (text.length + 1) (skipWs text.data) with
  | some (v, rest) => if skipWs rest = [] then .ok v else .error .SyntaxError
  | none => .error .SyntaxError

/-! ### Member access -/

/-- Read `v[key]` for a name that is on no built-in prototype (every name this program
reads): `undefined` unless `v` is an object with that own property; throws on `null` and
`undefined`. -/
def getMember (v : JSValue) (key : String) : Except JSError JSValue :=
  match v with
  | .undefined => .error .TypeError
  | .null => .error .TypeError
  | .object props => .ok (getProp props (jsString key))
  | _ => .ok .undefined

/-- Assignment `v[key] = val` in strict mode, for a non-index name: throws on a primitive;
on an array the named property is created but is not among the serialized elements. -/
def setMember (v : JSValue) (key : String) (val : JSValue) : Except JSError JSValue :=
  match v with
  | .object props => .ok (.object (setProp props (jsString key) val))
  | .array items => .ok (.array items)
  | _ => .error .TypeError

/-- `ToBoolean`. -/
def toBoolean : JSValue → Bool
  | .undefined => false
  | .null => false
  | .bool b => b
  | .number .nan => false
  | .number .negZero => false
  | .number (.fin q) => decide (q ≠ 0)
  | .number _ => true
  | .str s => decide (s ≠ [])
  | _ => true

/-- The operator `a || b` on already evaluated operands. -/
def jsOr (a b : JSValue) : JSValue :=
  if toBoolean a then a else b

/-! ## The contract `CarbonPastureContract` -/

/-- The object literal `{ ID, SequestrationType, CarbonCredits, FarmerID, IssuanceDate }`
that `InitLedger`, `CreateAsset` and `UpdateAsset` build. -/
structure Asset where
  ID : String
  SequestrationType : String
  CarbonCredits : JSNumber
  FarmerID : String
  IssuanceDate : String

/-- The object an asset literal evaluates to, properties in source order. -/
def Asset.toJS (a : Asset) : JSValue :=
  .object [(jsString "ID", .string a.ID),
    (jsString "SequestrationType", .string a.SequestrationType),
    (jsString "CarbonCredits", .number a.CarbonCredits),
    (jsString "FarmerID", .string a.FarmerID),
    (jsString "IssuanceDate", .string a.IssuanceDate)]

/-- `Buffer.from(JSON.stringify(v))`: throws a `TypeError` when the text is `undefined`. -/
def bufferFromJSON (v : JSValue) : Except JSError String :=
  match JSON.stringify v with
  | some text => .ok text
  | none => .error .TypeError

/-- The seed list `carbonAssets` of `InitLedger`. -/
def carbonAssets : List Asset :=
  [ { ID := "carbonAsset1", SequestrationType := "pasture-restoration",
      CarbonCredits := .fin 120, FarmerID := "kisumu_farmer01", IssuanceDate := "2025-08-01" },
    { ID := "carbonAsset2", SequestrationType := "livestock-methane-reduction",
      CarbonCredits := .fin 90, FarmerID := "eldoret_farmer22", IssuanceDate := "2025-08-02" },
    { ID := "carbonAsset3", SequestrationType := "agroforestry",
      CarbonCredits := .fin 200, FarmerID := "nyeri_farmer08", IssuanceDate := "2025-08-03" },
    { ID := "carbonAsset4", SequestrationType := "biochar-soil-enrichment",
      CarbonCredits := .fin 75, FarmerID := "narok_farmer15", IssuanceDate := "2025-08-04" } ]

/-- The loop `for (const asset of carbonAssets) putState(asset.ID, ...)`. -/
def initLoop : List Asset → Ledger → Except JSError Unit × Ledger
  | [], ctx => (.ok (), ctx)
  | asset :: rest, ctx =>
    match bufferFromJSON asset.toJS with
    | .error e => (.error e, ctx)
    | .ok text => initLoop rest (putState ctx asset.ID text)

/-- Method `InitLedger(ctx)`. -/
def InitLedger (ctx : Ledger) : Except JSError Unit × Ledger :=
  initLoop carbonAssets ctx

/-- Method `CreateAsset(ctx, id, sequestrationType, carbonCredits, farmerID, issuanceDate)`. -/
def CreateAsset (ctx : Ledger) (id sequestrationType carbonCredits farmerID issuanceDate : String) :
    Except JSError String × Ledger :=
  let asset : Asset :=
    { ID := id, SequestrationType := sequestrationType, CarbonCredits := parseInt carbonCredits,
      FarmerID := farmerID, IssuanceDate := issuanceDate }
  match bufferFromJSON asset.toJS with
  | .error e => (.error e, ctx)
  | .ok text => (.ok text, putState ctx id text)

/-- Method `ReadAsset(ctx, id)`. -/
def ReadAsset (ctx : Ledger) (id : String) : Except JSError String × Ledger :=
  match getState ctx id with
  | none => (.error (.Error ("Asset " ++ id ++ " does not exist")), ctx)
  | some assetJSON =>
    if assetJSON.length = 0 then (.error (.Error ("Asset " ++ id ++ " does not exist")), ctx)
    else (.ok assetJSON, ctx)

/-- Method `AssetExists(ctx, id)`: `assetJSON && assetJSON.length > 0`, as a truth value. -/
def AssetExists (ctx : Ledger) (id : String) : Bool :=
  match getState ctx id with
  | none => false
  | some assetJSON => decide (assetJSON.length > 0)

/-- Method `UpdateAsset(ctx, id, sequestrationType, carbonCredits, farmerID, issuanceDate)`. -/
def UpdateAsset (ctx : Ledger) (id sequestrationType carbonCredits farmerID issuanceDate : String) :
    Except JSError String × Ledger :=
  let «exists» := AssetExists ctx id
  if !«exists» then
    (.error (.Error ("Cannot update: Asset " ++ id ++ " does not exist")), ctx)
  else
    let updatedAsset : Asset :=
      { ID := id, SequestrationType := sequestrationType, CarbonCredits := parseInt carbonCredits,
        FarmerID := farmerID, IssuanceDate := issuanceDate }
    match bufferFromJSON updatedAsset.toJS with
    | .error e => (.error e, ctx)
    | .ok text => (.ok text, putState ctx id text)

/-- Method `DeleteAsset(ctx, id)`. -/
def DeleteAsset (ctx : Ledger) (id : String) : Except JSError Unit × Ledger :=
  let «exists» := AssetExists ctx id
  if !«exists» then
    (.error (.Error ("Cannot delete: Asset " ++ id ++ " does not exist")), ctx)
  else (.ok (), deleteState ctx id)

/-- Method `TransferAsset(ctx, id, newOwnerID)`; the result is `oldOwner`. -/
def TransferAsset (ctx : Ledger) (id newOwnerID : String) : Except JSError JSValue × Ledger :=
  match ReadAsset ctx id with
  | (.error e, ctx1) => (.error e, ctx1)
  | (.ok assetString, ctx1) =>
    match JSON.parse assetString with
    | .error e => (.error e, ctx1)
    | .ok asset =>
      match getMember asset "FarmerID" with
      | .error e => (.error e, ctx1)
      | .ok oldOwner =>
        match setMember asset "FarmerID" (.string newOwnerID) with
        | .error e => (.error e, ctx1)
        | .ok asset' =>
          match bufferFromJSON asset' with
          | .error e => (.error e, ctx1)
          | .ok text => (.ok oldOwner, putState ctx1 id text)

/-- One pass of the loop body of `GetAllAssets`: the decoded value, or the raw string when
`JSON.parse` throws. -/
def decodeRecord (strValue : String) : JSValue :=
  match JSON.parse strValue with
  | .ok record => record
  | .error _ => .string strValue

/-- The array `allResults` that `GetAllAssets` builds from the range scan. -/
def allResults (ctx : Ledger) : List JSValue :=
  (getStateByRange ctx).map (fun result => decodeRecord result.2)

/-- Method `GetAllAssets(ctx)`. -/
def GetAllAssets (ctx : Ledger) : Except JSError String × Ledger :=
  match JSON.stringify (.array (allResults ctx)) with
  | some text => (.ok text, ctx)
  | none => (.error .TypeError, ctx)

/-! ## The gateway helpers of `app.js` -/

/-- What the REST helpers do to the session and the ledger, in order. -/
inductive Event
  | ledgerCall (name : String)
  | gatewayClose
  | clientClose
  deriving DecidableEq

/-- How an awaited ledger call ends: it returns bytes, it rejects, or (where the call is
raced against a timer) the timer rejects first. -/
inductive CallOutcome
  | returned (bytes : String)
  | rejected (e : JSError)
  | timedOut

/-- Statement `try { body } finally { await gateway.close(); client.close(); }`: the
events of the body, then the two closes, with the outcome of the body. -/
def tryFinallyClose {α : Type} (body : Except JSError α × List Event) :
    Except JSError α × List Event :=
  (body.1, body.2 ++ [Event.gatewayClose, Event.clientClose])

/-- Expression `a[canonical] || a[legacy]`. -/
def orMember (a : JSValue) (canonical legacy : String) : Except JSError JSValue :=
  match getMember a canonical with
  | .error e => .error e
  | .ok x => if toBoolean x then .ok x else getMember a legacy

/-- The arrow function `a => (...)` that `getAllAssets` maps over the decoded list. -/
def mapRecord (a : JSValue) : Except JSError JSValue :=
  match getMember a "ID" with
  | .error e => .error e
  | .ok id =>
    match orMember a "SequestrationType" "Color" with
    | .error e => .error e
    | .ok st =>
      match orMember a "CarbonCredits" "Size" with
      | .error e => .error e
      | .ok cc =>
        match orMember a "FarmerID" "Owner" with
        | .error e => .error e
        | .ok fid =>
          match orMember a "IssuanceDate" "AppraisedValue" with
          | .error e => .error e
          | .ok date =>
            .ok (.object [(jsString "ID", id), (jsString "SequestrationType", st),
              (jsString "CarbonCredits", cc), (jsString "FarmerID", fid),
              (jsString "IssuanceDate", date)])

/-- Call `raw.map(f)`: element by element, the first throw ends it. -/
def mapRecords : List JSValue → Except JSError (List JSValue)
  | [] => .ok []
  | a :: rest =>
    match mapRecord a with
    | .error e => .error e
    | .ok r =>
      match mapRecords rest with
      | .error e => .error e
      | .ok rs => .ok (r :: rs)

/-- Call `utf8Decoder.decode(resultBytes)` on the bytes of well-formed text: a `TextDecoder`
leaves out a leading byte order mark. -/
def utf8Decoder.decode (resultBytes : String) : String :=
  match resultBytes.data with
  | c :: rest => if c.toNat = 0xFEFF then String.mk rest else resultBytes
  | [] => resultBytes

/-- The part of `getAllAssets` after the ledger call: decode, parse, map; `raw.map` on a
value that is not an array throws a `TypeError`. -/
def decodeAssets (outcome : CallOutcome) : Except JSError JSValue :=
  match outcome with
  | .rejected e => .error e
  | .timedOut => .error (.Error "Timeout waiting for Fabric response")
  | .returned resultBytes =>
    match JSON.parse (utf8Decoder.decode resultBytes) with
    | .error e => .error e
    | .ok (.array raw) =>
      match mapRecords raw with
      | .error e => .error e
      | .ok rs => .ok (.array rs)
    | .ok _ => .error .TypeError

/-- Function `getAllAssets()`; `init` is the outcome of `await initializeGateway()` and
`outcome` the outcome of the raced `evaluateTransaction('GetAllAssets')`. -/
def getAllAssets (init : Except JSError Unit) (outcome : CallOutcome) :
    Except JSError JSValue × List Event :=
  match init with
  | .error e => (.error e, [])
  | .ok _ => tryFinallyClose (decodeAssets outcome, [Event.ledgerCall "GetAllAssets"])

/-- Function `createAsset(type, credits, farmerId, date)`; `now` is `Date.now()`, `init` the
outcome of `await initializeGateway()`, `outcome` that of `submitTransaction`. -/
def createAsset (type credits farmerId date : JSValue) (now : Nat)
    (init : Except JSError Unit) (outcome : Except JSError Unit) :
    Except JSError JSValue × List Event :=
  match init with
  | .error e => (.error e, [])
  | .ok _ =>
    let id := "carbonAsset" ++ toString now
    tryFinallyClose
      (match outcome with
        | .error e => .error e
        | .ok _ =>
          .ok (.object [(jsString "ID", .string id), (jsString "SequestrationType", type),
            (jsString "CarbonCredits", credits), (jsString "FarmerID", farmerId),
            (jsString "IssuanceDate", date)]),
       [Event.ledgerCall "CreateAsset"])

/-! ## Seed texts -/

/-- Stored text of seed `carbonAsset1`. -/
def seedText1 : String :=
  "\x7b\"ID\":\"carbonAsset1\",\"SequestrationType\":\"pasture-restoration\",\"CarbonCredits\":120,\"FarmerID\":\"kisumu_farmer01\",\"IssuanceDate\":\"2025-08-01\"\x7d"

/-- Stored text of seed `carbonAsset2`. -/
def seedText2 : String :=
  "\x7b\"ID\":\"carbonAsset2\",\"SequestrationType\":\"livestock-methane-reduction\",\"CarbonCredits\":90,\"FarmerID\":\"eldoret_farmer22\",\"IssuanceDate\":\"2025-08-02\"\x7d"

/-- Stored text of seed `carbonAsset3`. -/
def seedText3 : String :=
  "\x7b\"ID\":\"carbonAsset3\",\"SequestrationType\":\"agroforestry\",\"CarbonCredits\":200,\"FarmerID\":\"nyeri_farmer08\",\"IssuanceDate\":\"2025-08-03\"\x7d"

/-- Stored text of seed `carbonAsset4`. -/
def seedText4 : String :=
  "\x7b\"ID\":\"carbonAsset4\",\"SequestrationType\":\"biochar-soil-enrichment\",\"CarbonCredits\":75,\"FarmerID\":\"narok_farmer15\",\"IssuanceDate\":\"2025-08-04\"\x7d"

/-- The ledger `InitLedger` leaves: the four seed writes, in source order. -/
def seeded (ctx : Ledger) : Ledger :=
  putState (putState (putState (putState ctx "carbonAsset1" seedText1) "carbonAsset2" seedText2)
    "carbonAsset3" seedText3) "carbonAsset4" seedText4

/-- The input after a number literal cannot continue it. -/
def numberStop : List Char → Bool
  | [] => true
  | c :: _ => !isDigit c && c != '.' && c != 'e' && c != 'E'

/-- The exact value of the signed integer `±y`. -/
def signedValue (neg : Bool) (y : Nat) : ℚ :=
  if neg then -(y : ℚ) else (y : ℚ)

/-- What `JSON.parse` reads back from the serialized form of a number: `NaN` and the
infinities are written `null`, both zeros are written `0`. -/
def reparsedNumber : JSNumber → JSValue
  | .nan => .null
  | .posInf => .null
  | .negInf => .null
  | .negZero => .number (.fin 0)
  | .fin q => .number (.fin q)

/-- The object with the five asset properties in source order, `CarbonCredits` being any
value. -/
def recordJS (id sequestrationType : String) (credits : JSValue) (farmerID issuanceDate : String) :
    JSValue :=
  .object [(jsString "ID", .string id),
    (jsString "SequestrationType", .string sequestrationType),
    (jsString "CarbonCredits", credits), (jsString "FarmerID", .string farmerID),
    (jsString "IssuanceDate", .string issuanceDate)]

/-- The text `vtext` of a member value reads back as `v`, whatever follows the value. -/
def ReadsAs (vtext : List Char) (v : JSValue) : Prop :=
  ∀ (f : Nat) (rest : List Char), numberStop rest = true →
    parseValue (f + 1) (vtext ++ rest) = some (v, rest) ∧ skipWs (vtext ++ rest) = vtext ++ rest

/-- The Number values `parseInt` can return: `NaN`, or a signed integer rounded to a
double (the zeros and the infinities included). -/
def WrittenCredits (x : JSNumber) : Prop :=
  x = .nan ∨ ∃ neg m, x = ofMathInt neg m

/-- The value `v` stored under `k` is the text of an asset object whose `ID` is `k` and
whose credits are written as a text that reads back as the same value. -/
def StoredRecord (k v : String) : Prop :=
  ∃ (sequestrationType farmerID issuanceDate : String) (credits : JSValue) (t : List Char),
    serialize credits = some t ∧ ReadsAs t credits ∧
    JSON.stringify (recordJS k sequestrationType credits farmerID issuanceDate) = some v

/-- The ledger states reached from the empty ledger by calls of the five writing methods,
with any arguments; a call that fails contributes the ledger it leaves. -/
inductive Reachable : Ledger → Prop
  | empty : Reachable Ledger.empty
  | init (ctx : Ledger) : Reachable ctx → Reachable (InitLedger ctx).2
  | create (ctx : Ledger) (id sequestrationType carbonCredits farmerID issuanceDate : String) :
      Reachable ctx →
      Reachable (CreateAsset ctx id sequestrationType carbonCredits farmerID issuanceDate).2
  | update (ctx : Ledger) (id sequestrationType carbonCredits farmerID issuanceDate : String) :
      Reachable ctx →
      Reachable (UpdateAsset ctx id sequestrationType carbonCredits farmerID issuanceDate).2
  | delete (ctx : Ledger) (id : String) : Reachable ctx → Reachable (DeleteAsset ctx id).2
  | transfer (ctx : Ledger) (id newOwnerID : String) :
      Reachable ctx → Reachable (TransferAsset ctx id newOwnerID).2

/-- Every stored value is the text of an asset object keyed by its own `ID`. -/
def RecordsKeyed (ctx : Ledger) : Prop :=
  ∀ k v, getState ctx k = some v → StoredRecord k v

/-! ## Session construction: `initializeGateway` -/

/-- What `initializeGateway` does to the gRPC client and the gateway, in order. -/
inductive SessionEvent
  | clientCreated
  | clientClosed
  | gatewayConnected
  deriving DecidableEq

/-- The outcomes of the file-system and crypto calls `initializeGateway` awaits. -/
structure GatewayEnv where
  tlsRootCert : Except JSError Unit
  certDir : Except JSError (List String)
  credentials : String → Except JSError Unit
  keyDir : Except JSError (List String)
  privateKeyPem : String → Except JSError Unit
  privateKey : Except JSError Unit

/-- Statement `const [file] = await fs.readdir(dir); await fs.readFile(path.join(dir, file))`:
on an empty directory `file` is `undefined` and `path.join` throws a `TypeError`. -/
def readOnlyFile (dir : Except JSError (List String)) (readFile : String → Except JSError Unit) :
    Except JSError Unit :=
  match dir with
  | .error e => .error e
  | .ok [] => .error .TypeError
  | .ok (file :: _) => readFile file

/-- The async function raced against the timer: what it settles with and what it has done
to the client by then. -/
def connectSession (env : GatewayEnv) : Except JSError Unit × List SessionEvent :=
  match env.tlsRootCert with
  | .error e => (.error e, [])
  | .ok _ =>
    match readOnlyFile env.certDir env.credentials with
    | .error e => (.error e, [SessionEvent.clientCreated])
    | .ok _ =>
      match readOnlyFile env.keyDir env.privateKeyPem with
      | .error e => (.error e, [SessionEvent.clientCreated])
      | .ok _ =>
        match env.privateKey with
        | .error e => (.error e, [SessionEvent.clientCreated])
        | .ok _ => (.ok (), [SessionEvent.clientCreated, SessionEvent.gatewayConnected])

/-- Function `initializeGateway()`: `Promise.race` of the construction and the 5 s timer.
`timerFirst` says that the timer rejects before the construction settles; the construction
runs on all the same. -/
def initializeGateway (env : GatewayEnv) (timerFirst : Bool) :
    Except JSError Unit × List SessionEvent :=
  if timerFirst then (.error (.Error "⏱️ Gateway connection timed out"), (connectSession env).2)
  else connectSession env

/-! ## The token cache of `token.js` -/

/-- The token object `{ access_token, expires_in, mock }`; `expires_in` is held as the
Number `Number(tokenObj.expires_in)` that `getAccessToken` computes with. -/
structure TokenObj where
  access_token : String
  expires_in : JSNumber
  mock : Bool
  deriving DecidableEq

/-- The module variable `cachedToken`: `{ tokenObj, expiryMs }`. -/
structure CachedToken where
  tokenObj : TokenObj
  expiryMs : JSNumber
  deriving DecidableEq

/-- Function `mockToken()`, `now` being `Date.now()`. -/
def mockToken (now : Nat) : TokenObj :=
  { access_token := "mock-demo-token-" ++ toString now, expires_in := .fin 3600, mock := true }

/-- The Number value of an exact real result: the nearest double, `+0` for an exact zero. -/
def numberOfRat (q : ℚ) : JSNumber :=
  if q = 0 then .fin 0 else ofMathRat (decide (q < 0)) |q|

/-- Unary minus on a Number. -/
def numberNegate : JSNumber → JSNumber
  | .nan => .nan
  | .posInf => .negInf
  | .negInf => .posInf
  | .negZero => .fin 0
  | .fin q => if q = 0 then .negZero else .fin (-q)

/-- `Number::add`: the exact sum rounded to the nearest double. -/
def numberAdd : JSNumber → JSNumber → JSNumber
  | .nan, _ => .nan
  | _, .nan => .nan
  | .posInf, .negInf => .nan
  | .negInf, .posInf => .nan
  | .posInf, _ => .posInf
  | _, .posInf => .posInf
  | .negInf, _ => .negInf
  | _, .negInf => .negInf
  | .negZero, y => y
  | x, .negZero => x
  | .fin a, .fin b => numberOfRat (a + b)

/-- `Number::subtract`. -/
def numberSubtract (x y : JSNumber) : JSNumber :=
  numberAdd x (numberNegate y)

/-- Sign of a Number other than `NaN`. -/
def isNegative : JSNumber → Bool
  | .negInf => true
  | .negZero => true
  | .fin q => decide (q < 0)
  | _ => false

/-- Absolute value of a Number other than `NaN`; `none` is infinity. -/
def magnitude : JSNumber → Option ℚ
  | .fin q => some |q|
  | .negZero => some 0
  | _ => none

/-- `Number::multiply`: the exact product rounded to the nearest double. -/
def numberMultiply (x y : JSNumber) : JSNumber :=
  match x, y with
  | .nan, _ => .nan
  | _, .nan => .nan
  | _, _ =>
    let neg := xor (isNegative x) (isNegative y)
    match magnitude x, magnitude y with
    | some a, some b => ofMathRat neg (a * b)
    | some a, none => if a = 0 then .nan else if neg then .negInf else .posInf
    | none, some b => if b = 0 then .nan else if neg then .negInf else .posInf
    | none, none => if neg then .negInf else .posInf

/-- `Math.max(x, y)`: `NaN` when either is `NaN`; `+0` is larger than `-0`. -/
def mathMax : JSNumber → JSNumber → JSNumber
  | .nan, _ => .nan
  | _, .nan => .nan
  | .posInf, _ => .posInf
  | _, .posInf => .posInf
  | .negInf, y => y
  | x, .negInf => x
  | .negZero, .negZero => .negZero
  | .negZero, .fin b => if b < 0 then .negZero else .fin b
  | .fin a, .negZero => if a < 0 then .negZero else .fin a
  | .fin a, .fin b => .fin (max a b)

/-- Expression `Math.max(30, (Number(tokenObj.expires_in) || 3600) - 60)`, in seconds;
`expires_in` is the value of `Number(tokenObj.expires_in)`. -/
def cacheTtl (expires_in : JSNumber) : JSNumber :=
  mathMax (.fin 30)
    (numberSubtract (if toBoolean (.number expires_in) then expires_in else .fin 3600) (.fin 60))

/-- Expression `Date.now() + ttl * 1000`, in milliseconds. -/
def cacheExpiry (now : Nat) (ttl : JSNumber) : JSNumber :=
  numberAdd (ofMathInt false now) (numberMultiply ttl (.fin 1000))

/-- Comparison `Date.now() < expiryMs`. -/
def beforeExpiry (now : Nat) : JSNumber → Bool
  | .fin x => decide ((now : ℚ) < x)
  | .posInf => true
  | _ => false

/-- What a call of `getAccessToken` returns and leaves: the token, the cache, and whether
`fetchDarajaToken` was called. -/
structure AccessResult where
  tokenObj : TokenObj
  cachedToken : Option CachedToken
  fetched : Bool
  deriving DecidableEq

/-- Function `getAccessToken(options)`: `forceMock` is `options.forceMock || FORCE_MOCK_ENV`,
`now` is `Date.now()` at the cache test, `response` the outcome of `fetchDarajaToken()` if
it is called and `nowFetched` is `Date.now()` once it has settled. -/
def getAccessToken (forceMock : Bool) (cachedToken : Option CachedToken) (now : Nat)
    (response : Except JSError TokenObj) (nowFetched : Nat) : AccessResult :=
  if forceMock then ⟨mockToken now, cachedToken, false⟩
  else
    match cachedToken with
    | some c =>
      if beforeExpiry now c.expiryMs then ⟨c.tokenObj, cachedToken, false⟩
      else
        match response with
        | .ok tokenObj =>
          ⟨tokenObj, some ⟨tokenObj, cacheExpiry nowFetched (cacheTtl tokenObj.expires_in)⟩, true⟩
        | .error _ => ⟨mockToken nowFetched, cachedToken, true⟩
    | none =>
      match response with
      | .ok tokenObj =>
        ⟨tokenObj, some ⟨tokenObj, cacheExpiry nowFetched (cacheTtl tokenObj.expires_in)⟩, true⟩
      | .error _ => ⟨mockToken nowFetched, cachedToken, true⟩

/-! ## The middleware `middleware/roleAuth.js` -/

/-- The value of the lookup `TOKENS[token]` on the object literal `TOKENS`: a role of the
table, a member inherited from `Object.prototype`, or `undefined`. -/
inductive TableValue
  | role (name : String)
  | inherited (name : String)
  | undefined
  deriving DecidableEq

/-- The property names an object literal inherits from `Object.prototype`; each holds a
function, or for `__proto__` the prototype object: all truthy. -/
def objectPrototypeNames : List String :=
  ["constructor", "__defineGetter__", "__defineSetter__", "hasOwnProperty", "__lookupGetter__",
    "__lookupSetter__", "isPrototypeOf", "propertyIsEnumerable", "toString", "valueOf",
    "__proto__", "toLocaleString"]

/-- Lookup `TOKENS[token]`: own properties first, then the prototype. -/
def TOKENS (token : String) : TableValue :=
  if token = "Bearer farmer-token" then .role "Farmer"
  else if token = "Bearer verifier-token" then .role "Verifier"
  else if token = "Bearer admin-token" then .role "Admin"
  else if token ∈ objectPrototypeNames then .inherited token
  else .undefined

/-- What the middleware does with a request: it calls `next()` after setting
`req.userRole`, or it responds with a status. -/
inductive AuthOutcome
  | next (userRole : TableValue)
  | status (code : Nat)
  deriving DecidableEq

/-- Call `requiredRoles.includes(userRole)` on a list of role names: an inherited function
is equal to no string. -/
def includesRole (requiredRoles : List String) (userRole : TableValue) : Bool :=
  match userRole with
  | .role name => decide (name ∈ requiredRoles)
  | _ => false

/-- The middleware `roleAuth(requiredRoles)` on a request whose header
`req.headers['authorization']` is `authorization` (`none` when the header is missing). -/
def roleAuth (requiredRoles : List String) (authorization : Option String) : AuthOutcome :=
  match authorization with
  | none => .status 401
  | some token =>
    if token = "" then .status 401
    else
      match TOKENS token with
      | .undefined => .status 401
      | userRole =>
        if requiredRoles.length > 0 ∧ includesRole requiredRoles userRole = false then .status 403
        else .next userRole

/-! ## What `getAllAssets` returns for a record -/

/-- The values the operator `||` passes over: `undefined`, `null`, `false`, `+0`, `-0`,
`NaN` and the empty string. -/
def Falsy (v : JSValue) : Prop :=
  v = .undefined ∨ v = .null ∨ v = .bool false ∨ v = .number (.fin 0) ∨
    v = .number .negZero ∨ v = .number .nan ∨ v = .string ""

/-- The returned field `out` of a record `a`: the record's field `canonical` unless that
is falsy, and the record's field `legacy` when it is. -/
def FieldRule (a : JSValue) (canonical legacy : String) (out : JSValue) : Prop :=
  ∃ x y, getMember a canonical = .ok x ∧ getMember a legacy = .ok y ∧
    (¬ Falsy x → out = x) ∧ (Falsy x → out = y)

/-- The returned record `r` of a decoded record `a`: `ID` as read from `a`, and the four
other canonical fields by `FieldRule`, in this order. -/
def MappedRecord (a r : JSValue) : Prop :=
  ∃ id st cc fid date, getMember a "ID" = .ok id ∧
    FieldRule a "SequestrationType" "Color" st ∧ FieldRule a "CarbonCredits" "Size" cc ∧
    FieldRule a "FarmerID" "Owner" fid ∧ FieldRule a "IssuanceDate" "AppraisedValue" date ∧
    r = .object [(jsString "ID", id), (jsString "SequestrationType", st),
      (jsString "CarbonCredits", cc), (jsString "FarmerID", fid),
      (jsString "IssuanceDate", date)]

/-! ## Facts about the world state -/

theorem lookupKey_insertKey (k v k' : String) (l : List (String × String)) :
    lookupKey k' (insertKey k v l) = if k' = k then some v else lookupKey k' l := by
  induction l with
  | nil => simp [insertKey, lookupKey]
  | cons a t ih =>
    obtain ⟨k0, v0⟩ := a
    by_cases h1 : k < k0
    · simp [insertKey, lookupKey, h1]
    · by_cases h2 : k = k0
      · subst h2
        by_cases h3 : k' = k <;> simp [insertKey, lookupKey, h3]
      · by_cases h3 : k' = k
        · subst h3
          simp [insertKey, lookupKey, h1, h2, ih]
        · by_cases h4 : k' = k0
          · subst h4
            simp [insertKey, lookupKey, h1, h2, h3]
          · simp [insertKey, lookupKey, h1, h2, h3, h4, ih]

theorem lookupKey_eraseKey (k k' : String) (l : List (String × String)) :
    lookupKey k' (eraseKey k l) = if k' = k then none else lookupKey k' l := by
  induction l with
  | nil => simp [eraseKey, lookupKey]
  | cons a t ih =>
    obtain ⟨k0, v0⟩ := a
    by_cases h2 : k = k0
    · subst h2
      by_cases h3 : k' = k
      · subst h3
        simpa [eraseKey, lookupKey] using ih
      · simp [eraseKey, lookupKey, h3, ih]
    · by_cases h3 : k' = k
      · subst h3
        simp [eraseKey, lookupKey, h2, ih]
      · by_cases h4 : k' = k0
        · subst h4
          simp [eraseKey, lookupKey, h2, h3]
        · simp [eraseKey, lookupKey, h2, h3, h4, ih]

theorem getState_putState (ctx : Ledger) (k v k' : String) :
    getState (putState ctx k v) k' = if k' = k then some v else getState ctx k' :=
  lookupKey_insertKey k v k' ctx.entries

theorem getState_deleteState (ctx : Ledger) (k k' : String) :
    getState (deleteState ctx k) k' = if k' = k then none else getState ctx k' :=
  lookupKey_eraseKey k k' ctx.entries

theorem lookupKey_eq_none_of_lt (k : String) (l : List (String × String))
    (h : ∀ p ∈ l, k < p.1) : lookupKey k l = none := by
  induction l with
  | nil => rfl
  | cons a t ih =>
    obtain ⟨k0, v0⟩ := a
    have h0 : k < k0 := h (k0, v0) (List.mem_cons_self _ _)
    simp only [lookupKey, if_neg (ne_of_lt h0)]
    exact ih (fun p hp => h p (List.mem_cons_of_mem _ hp))

theorem lookupKey_mem (k v : String) (l : List (String × String))
    (h : lookupKey k l = some v) : (k, v) ∈ l := by
  induction l with
  | nil => simp [lookupKey] at h
  | cons a t ih =>
    obtain ⟨k0, v0⟩ := a
    by_cases h0 : k = k0
    · subst h0
      simp [lookupKey] at h
      subst h
      exact List.mem_cons_self _ _
    · simp only [lookupKey, if_neg h0] at h
      exact List.mem_cons_of_mem _ (ih h)

theorem lookupKey_of_mem (k v : String) (l : List (String × String))
    (hl : l.Pairwise KeyLt) (h : (k, v) ∈ l) : lookupKey k l = some v := by
  induction l with
  | nil => simp at h
  | cons a t ih =>
    obtain ⟨k0, v0⟩ := a
    have ha := (List.pairwise_cons.1 hl).1
    rcases List.mem_cons.1 h with h1 | h1
    · simp only [Prod.mk.injEq] at h1
      obtain ⟨rfl, rfl⟩ := h1
      simp [lookupKey]
    · have hlt : k0 < k := ha (k, v) h1
      simp only [lookupKey, if_neg (ne_of_gt hlt)]
      exact ih (List.pairwise_cons.1 hl).2 h1

/-- Two sorted lists of pairs with the same lookups are equal. -/
theorem sorted_ext (l1 l2 : List (String × String)) (h1 : l1.Pairwise KeyLt)
    (h2 : l2.Pairwise KeyLt) (h : ∀ k, lookupKey k l1 = lookupKey k l2) : l1 = l2 := by
  induction l1 generalizing l2 with
  | nil =>
    cases l2 with
    | nil => rfl
    | cons b t2 =>
      have := h b.1
      simp [lookupKey] at this
  | cons a t1 ih =>
    cases l2 with
    | nil =>
      have := h a.1
      simp [lookupKey] at this
    | cons b t2 =>
      obtain ⟨ka, va⟩ := a
      obtain ⟨kb, vb⟩ := b
      have ha := (List.pairwise_cons.1 h1).1
      have hb := (List.pairwise_cons.1 h2).1
      have hk : ka = kb := by
        rcases lt_trichotomy ka kb with hlt | heq | hgt
        · have e := h ka
          rw [lookupKey_eq_none_of_lt ka ((kb, vb) :: t2)] at e
          · simp [lookupKey] at e
          · intro p hp
            rcases List.mem_cons.1 hp with hp | hp
            · rw [hp]; exact hlt
            · exact lt_trans hlt (hb p hp)
        · exact heq
        · have e := h kb
          rw [lookupKey_eq_none_of_lt kb ((ka, va) :: t1)] at e
          · simp [lookupKey] at e
          · intro p hp
            rcases List.mem_cons.1 hp with hp | hp
            · rw [hp]; exact hgt
            · exact lt_trans hgt (ha p hp)
      subst hk
      have hv : va = vb := by
        have e := h ka
        simpa [lookupKey] using e
      subst hv
      have ht : t1 = t2 := by
        apply ih t2 (List.pairwise_cons.1 h1).2 (List.pairwise_cons.1 h2).2
        intro k
        by_cases hk : k = ka
        · subst hk
          rw [lookupKey_eq_none_of_lt k t1 ha, lookupKey_eq_none_of_lt k t2 hb]
        · have e := h k
          simpa [lookupKey, hk] using e
      rw [ht]

/-- Two world states with the same stored value under every key are equal. -/
theorem Ledger.ext_getState (a b : Ledger) (h : ∀ k, getState a k = getState b k) : a = b := by
  obtain ⟨ea, sa⟩ := a
  obtain ⟨eb, sb⟩ := b
  have : ea = eb := sorted_ext ea eb sa sb h
  subst this
  rfl

theorem eraseKey_eq_self_of_lt (k : String) (l : List (String × String))
    (h : ∀ p ∈ l, k < p.1) : eraseKey k l = l := by
  induction l with
  | nil => rfl
  | cons a t ih =>
    obtain ⟨k0, v0⟩ := a
    have h0 : k < k0 := h (k0, v0) (List.mem_cons_self _ _)
    simp only [eraseKey, if_neg (ne_of_lt h0)]
    rw [ih (fun p hp => h p (List.mem_cons_of_mem _ hp))]

/-- Erasing a stored key removes exactly its one pair. -/
theorem eraseKey_split (k v : String) (l : List (String × String)) (hl : l.Pairwise KeyLt)
    (h : lookupKey k l = some v) :
    ∃ pre post, l = pre ++ (k, v) :: post ∧ eraseKey k l = pre ++ post ∧
      (∀ p ∈ pre, p.1 ≠ k) ∧ (∀ p ∈ post, p.1 ≠ k) := by
  induction l with
  | nil => simp [lookupKey] at h
  | cons a t ih =>
    obtain ⟨k0, v0⟩ := a
    have ha := (List.pairwise_cons.1 hl).1
    by_cases h0 : k = k0
    · subst h0
      simp [lookupKey] at h
      subst h
      refine ⟨[], t, rfl, ?_, ?_, ?_⟩
      · simp only [eraseKey, if_true, List.nil_append]
        exact eraseKey_eq_self_of_lt k t ha
      · simp
      · intro p hp
        exact ne_of_gt (ha p hp)
    · simp only [lookupKey, if_neg h0] at h
      obtain ⟨pre, post, e1, e2, e3, e4⟩ := ih (List.pairwise_cons.1 hl).2 h
      refine ⟨(k0, v0) :: pre, post, ?_, ?_, ?_, e4⟩
      · rw [e1]; rfl
      · simp only [eraseKey, if_neg h0, e2, List.cons_append]
      · intro p hp
        rcases List.mem_cons.1 hp with hp | hp
        · rw [hp]; exact fun e => h0 e.symm
        · exact e3 p hp

/-! ## Absent keys -/

theorem AssetExists_false_of_absent (ctx : Ledger) (id : String)
    (h : getState ctx id = none ∨ getState ctx id = some "") : AssetExists ctx id = false := by
  rcases h with h | h <;> simp [AssetExists, h]

theorem ReadAsset_of_absent (ctx : Ledger) (id : String)
    (h : getState ctx id = none ∨ getState ctx id = some "") :
    ReadAsset ctx id = (.error (.Error ("Asset " ++ id ++ " does not exist")), ctx) := by
  rcases h with h | h <;> simp [ReadAsset, h]

/-- C2: on a key that is absent (nothing stored, or an empty value stored) `ReadAsset`,
`UpdateAsset`, `DeleteAsset` and `TransferAsset` all fail, whatever the other arguments,
with the error whose message ends in `does not exist`, and leave the ledger as it was. -/
theorem absent_key_fails_not_found (ctx : Ledger) (id : String)
    (habsent : getState ctx id = none ∨ getState ctx id = some "") :
    ReadAsset ctx id = (.error (.Error ("Asset " ++ id ++ " does not exist")), ctx) ∧
    (∀ sequestrationType carbonCredits farmerID issuanceDate : String,
      UpdateAsset ctx id sequestrationType carbonCredits farmerID issuanceDate =
        (.error (.Error ("Cannot update: Asset " ++ id ++ " does not exist")), ctx)) ∧
    DeleteAsset ctx id =
      (.error (.Error ("Cannot delete: Asset " ++ id ++ " does not exist")), ctx) ∧
    (∀ newOwnerID : String, TransferAsset ctx id newOwnerID =
      (.error (.Error ("Asset " ++ id ++ " does not exist")), ctx)) := by
  have hex := AssetExists_false_of_absent ctx id habsent
  have hrd := ReadAsset_of_absent ctx id habsent
  refine ⟨hrd, ?_, ?_, ?_⟩
  · intro t c f d
    simp [UpdateAsset, hex]
  · simp [DeleteAsset, hex]
  · intro newOwnerID
    simp [TransferAsset, hrd]

theorem absent_key_fails_not_found_witness :
    (getState Ledger.empty "missing" = none ∨ getState Ledger.empty "missing" = some "") ∧
    UpdateAsset Ledger.empty "missing" "tree-planting" "50" "farmerX" "2025-08-01" =
      (.error (.Error "Cannot update: Asset missing does not exist"), Ledger.empty) :=
  ⟨Or.inl rfl, (absent_key_fails_not_found Ledger.empty "missing" (Or.inl rfl)).2.1
    "tree-planting" "50" "farmerX" "2025-08-01"⟩

/-! ## Deletion -/

theorem stringify_array (xs : List JSValue) :
    JSON.stringify (.array xs) =
      some (String.mk ('[' :: (joinComma (serializeItems xs) ++ [']']))) := by
  simp [JSON.stringify, serialize]

theorem GetAllAssets_eq (ctx : Ledger) :
    GetAllAssets ctx =
      (.ok (String.mk ('[' :: (joinComma (serializeItems (allResults ctx)) ++ [']']))), ctx) := by
  simp [GetAllAssets, stringify_array]

/-- C7: when `id` holds a non-empty value, `DeleteAsset(id)` succeeds and removes the key:
afterwards `AssetExists(id)` is false, `ReadAsset(id)` fails with the not-found error, and
the range scan behind `GetAllAssets`, hence its list of entries, is the one before with
exactly the one entry of `id` taken out. -/
theorem delete_present_removes_key (ctx : Ledger) (id v : String)
    (hpresent : getState ctx id = some v) (hne : v ≠ "") :
    DeleteAsset ctx id = (.ok (), deleteState ctx id) ∧
    AssetExists (deleteState ctx id) id = false ∧
    ReadAsset (deleteState ctx id) id =
      (.error (.Error ("Asset " ++ id ++ " does not exist")), deleteState ctx id) ∧
    ∃ pre post : List (String × String),
      getStateByRange ctx = pre ++ (id, v) :: post ∧
      getStateByRange (deleteState ctx id) = pre ++ post ∧
      (∀ p ∈ pre ++ post, p.1 ≠ id) ∧
      allResults ctx =
        pre.map (fun r => decodeRecord r.2) ++ decodeRecord v :: post.map (fun r => decodeRecord r.2) ∧
      allResults (deleteState ctx id) =
        pre.map (fun r => decodeRecord r.2) ++ post.map (fun r => decodeRecord r.2) := by
  have hlen : v.length ≠ 0 := by
    intro h
    apply hne
    have : v.data = [] := List.length_eq_zero.1 h
    exact String.ext this
  have hex : AssetExists ctx id = true := by
    simp [AssetExists, hpresent]
    omega
  have hgone : getState (deleteState ctx id) id = none := by
    rw [getState_deleteState]; simp
  refine ⟨by simp [DeleteAsset, hex], ?_, ?_, ?_⟩
  · exact AssetExists_false_of_absent _ _ (Or.inl hgone)
  · exact ReadAsset_of_absent _ _ (Or.inl hgone)
  · obtain ⟨pre, post, e1, e2, e3, e4⟩ := eraseKey_split id v ctx.entries ctx.sorted hpresent
    refine ⟨pre, post, e1, e2, ?_, ?_, ?_⟩
    · intro p hp
      rcases List.mem_append.1 hp with h | h
      · exact e3 p h
      · exact e4 p h
    · simp [allResults, getStateByRange, e1]
    · have : getStateByRange (deleteState ctx id) = pre ++ post := e2
      simp [allResults, this]

theorem delete_present_removes_key_witness :
    getState (putState Ledger.empty "a1" "x") "a1" = some "x" ∧
    DeleteAsset (putState Ledger.empty "a1" "x") "a1" =
      (.ok (), deleteState (putState Ledger.empty "a1" "x") "a1") :=
  ⟨rfl, (delete_present_removes_key (putState Ledger.empty "a1" "x") "a1" "x" rfl (by decide)).1⟩

/-! ## The range scan of `GetAllAssets` -/

theorem mem_entries_iff (ctx : Ledger) (k v : String) :
    (k, v) ∈ getStateByRange ctx ↔ getState ctx k = some v :=
  ⟨lookupKey_of_mem k v ctx.entries ctx.sorted, lookupKey_mem k v ctx.entries⟩

theorem decodeRecord_of_error (v : String) (e : JSError) (h : JSON.parse v = .error e) :
    decodeRecord v = .string v := by
  simp [decodeRecord, h]

theorem decodeRecord_of_ok (v : String) (r : JSValue) (h : JSON.parse v = .ok r) :
    decodeRecord v = r := by
  simp [decodeRecord, h]

/-! ## `InitLedger` -/

theorem InitLedger_eq (ctx : Ledger) : InitLedger ctx = (.ok (), seeded ctx) := by
  have h1 : JSON.stringify (Asset.toJS ⟨"carbonAsset1", "pasture-restoration", .fin 120, "kisumu_farmer01", "2025-08-01"⟩) = some seedText1 := by decide!
  have h2 : JSON.stringify (Asset.toJS ⟨"carbonAsset2", "livestock-methane-reduction", .fin 90, "eldoret_farmer22", "2025-08-02"⟩) = some seedText2 := by decide!
  have h3 : JSON.stringify (Asset.toJS ⟨"carbonAsset3", "agroforestry", .fin 200, "nyeri_farmer08", "2025-08-03"⟩) = some seedText3 := by decide!
  have h4 : JSON.stringify (Asset.toJS ⟨"carbonAsset4", "biochar-soil-enrichment", .fin 75, "narok_farmer15", "2025-08-04"⟩) = some seedText4 := by decide!
  simp only [InitLedger, carbonAssets, initLoop, bufferFromJSON, h1, h2, h3, h4, seeded]

theorem seeded_idem (ctx : Ledger) : seeded (seeded ctx) = seeded ctx := by
  apply Ledger.ext_getState
  intro k
  simp only [seeded, getState_putState]
  split_ifs <;> rfl

theorem ReadAsset_putState (ctx : Ledger) (id text : String) (h : text ≠ "") :
    ReadAsset (putState ctx id text) id = (.ok text, putState ctx id text) := by
  have hlen : text.length ≠ 0 := by
    intro h0
    exact h (String.ext (List.length_eq_zero.1 h0))
  simp [ReadAsset, getState_putState, hlen]

theorem ReadAsset_of_getState (ctx : Ledger) (id text : String) (hg : getState ctx id = some text)
    (h : text ≠ "") : ReadAsset ctx id = (.ok text, ctx) := by
  have hlen : text.length ≠ 0 := by
    intro h0
    exact h (String.ext (List.length_eq_zero.1 h0))
  simp [ReadAsset, hg, hlen]

/-- C5: whatever the ledger held, `InitLedger` succeeds, running it again on its own result
succeeds and leaves that ledger unchanged, and there `carbonAsset1..carbonAsset4` read back
as the fixed seed records (credits 120, 90, 200, 75). -/
theorem initLedger_idempotent (s : Ledger) :
    (InitLedger s).1 = .ok () ∧
    InitLedger (InitLedger s).2 = (.ok (), (InitLedger s).2) ∧
    ReadAsset (InitLedger s).2 "carbonAsset1" = (.ok seedText1, (InitLedger s).2) ∧
    ReadAsset (InitLedger s).2 "carbonAsset2" = (.ok seedText2, (InitLedger s).2) ∧
    ReadAsset (InitLedger s).2 "carbonAsset3" = (.ok seedText3, (InitLedger s).2) ∧
    ReadAsset (InitLedger s).2 "carbonAsset4" = (.ok seedText4, (InitLedger s).2) ∧
    JSON.parse seedText1 = .ok (Asset.toJS ⟨"carbonAsset1", "pasture-restoration", .fin 120,
      "kisumu_farmer01", "2025-08-01"⟩) ∧
    JSON.parse seedText2 = .ok (Asset.toJS ⟨"carbonAsset2", "livestock-methane-reduction", .fin 90,
      "eldoret_farmer22", "2025-08-02"⟩) ∧
    JSON.parse seedText3 = .ok (Asset.toJS ⟨"carbonAsset3", "agroforestry", .fin 200,
      "nyeri_farmer08", "2025-08-03"⟩) ∧
    JSON.parse seedText4 = .ok (Asset.toJS ⟨"carbonAsset4", "biochar-soil-enrichment", .fin 75,
      "narok_farmer15", "2025-08-04"⟩) := by
  rw [InitLedger_eq s, InitLedger_eq (seeded s), seeded_idem]
  refine ⟨rfl, rfl, ?_, ?_, ?_, ?_, by rfl, by rfl, by rfl, by rfl⟩
  · apply ReadAsset_of_getState _ _ _ _ (by decide)
    simp [seeded, getState_putState]
  · apply ReadAsset_of_getState _ _ _ _ (by decide)
    simp [seeded, getState_putState]
  · apply ReadAsset_of_getState _ _ _ _ (by decide)
    simp [seeded, getState_putState]
  · apply ReadAsset_of_getState _ _ _ _ (by decide)
    simp [seeded, getState_putState]

/-! ## Gateway helpers -/

theorem toBoolean_eq_false_iff (v : JSValue) : toBoolean v = false ↔ Falsy v := by
  unfold Falsy
  cases v with
  | undefined => simp [toBoolean]
  | null => simp [toBoolean]
  | bool b => cases b <;> simp [toBoolean]
  | number n =>
    cases n with
    | nan => simp [toBoolean]
    | posInf => simp [toBoolean]
    | negInf => simp [toBoolean]
    | negZero => simp [toBoolean]
    | fin q => simp [toBoolean]
  | str s =>
    cases s with
    | nil => simp [toBoolean, JSValue.string, jsString]
    | cons c t => simp [toBoolean, JSValue.string, jsString]
  | array items => simp [toBoolean]
  | object props => simp [toBoolean]

theorem getMember_ok (a : JSValue) (key : String) (h1 : a ≠ .null) (h2 : a ≠ .undefined) :
    ∃ x, getMember a key = .ok x := by
  cases a with
  | undefined => exact absurd rfl h2
  | null => exact absurd rfl h1
  | bool b => exact ⟨_, rfl⟩
  | number n => exact ⟨_, rfl⟩
  | str s => exact ⟨_, rfl⟩
  | array items => exact ⟨_, rfl⟩
  | object props => exact ⟨_, rfl⟩

theorem orMember_rule (a : JSValue) (canonical legacy : String) (h1 : a ≠ .null)
    (h2 : a ≠ .undefined) :
    ∃ out, orMember a canonical legacy = .ok out ∧ FieldRule a canonical legacy out := by
  obtain ⟨x, hx⟩ := getMember_ok a canonical h1 h2
  obtain ⟨y, hy⟩ := getMember_ok a legacy h1 h2
  by_cases hb : toBoolean x = true
  · refine ⟨x, by simp [orMember, hx, hb], x, y, hx, hy, fun _ => rfl, ?_⟩
    intro hf
    rw [(toBoolean_eq_false_iff x).2 hf] at hb
    exact absurd hb (by decide)
  · have hb' : toBoolean x = false := by simpa using hb
    refine ⟨y, by simp [orMember, hx, hb', hy], x, y, hx, hy, ?_, fun _ => rfl⟩
    intro hnf
    exact absurd ((toBoolean_eq_false_iff x).1 hb') hnf

theorem mapRecord_rule (a : JSValue) (h1 : a ≠ .null) (h2 : a ≠ .undefined) :
    ∃ r, mapRecord a = .ok r ∧ MappedRecord a r := by
  obtain ⟨id, hid⟩ := getMember_ok a "ID" h1 h2
  obtain ⟨st, e1, r1⟩ := orMember_rule a "SequestrationType" "Color" h1 h2
  obtain ⟨cc, e2, r2⟩ := orMember_rule a "CarbonCredits" "Size" h1 h2
  obtain ⟨fid, e3, r3⟩ := orMember_rule a "FarmerID" "Owner" h1 h2
  obtain ⟨date, e4, r4⟩ := orMember_rule a "IssuanceDate" "AppraisedValue" h1 h2
  exact ⟨_, by simp only [mapRecord, hid, e1, e2, e3, e4], id, st, cc, fid, date, hid, r1, r2,
    r3, r4, rfl⟩

theorem mapRecord_nullish (a : JSValue) (h : a = .null ∨ a = .undefined) :
    mapRecord a = .error .TypeError := by
  rcases h with h | h <;> subst h <;> rfl

theorem mapRecord_error (a : JSValue) (e : JSError) (h : mapRecord a = .error e) :
    e = .TypeError := by
  by_cases h1 : a = .null
  · rw [mapRecord_nullish a (Or.inl h1)] at h
    injection h with h
    exact h.symm
  · by_cases h2 : a = .undefined
    · rw [mapRecord_nullish a (Or.inr h2)] at h
      injection h with h
      exact h.symm
    · obtain ⟨r, hr, _⟩ := mapRecord_rule a h1 h2
      rw [hr] at h
      injection h

theorem mapRecords_rule (raw : List JSValue) (h : ∀ a ∈ raw, a ≠ .null ∧ a ≠ .undefined) :
    ∃ rs, mapRecords raw = .ok rs ∧ List.Forall₂ MappedRecord raw rs := by
  induction raw with
  | nil => exact ⟨[], rfl, List.Forall₂.nil⟩
  | cons a rest ih =>
    obtain ⟨r, hr, hm⟩ := mapRecord_rule a (h a (List.mem_cons_self _ _)).1
      (h a (List.mem_cons_self _ _)).2
    obtain ⟨rs, hrs, hms⟩ := ih (fun b hb => h b (List.mem_cons_of_mem _ hb))
    exact ⟨r :: rs, by simp only [mapRecords, hr, hrs], List.Forall₂.cons hm hms⟩

theorem mapRecords_nullish (raw : List JSValue) (h : ∃ a ∈ raw, a = .null ∨ a = .undefined) :
    mapRecords raw = .error .TypeError := by
  induction raw with
  | nil =>
    obtain ⟨a, ha, _⟩ := h
    exact absurd ha (List.not_mem_nil a)
  | cons b rest ih =>
    cases hb : mapRecord b with
    | error e =>
      have := mapRecord_error b e hb
      subst this
      simp only [mapRecords, hb]
    | ok r =>
      have hrest : ∃ a ∈ rest, a = .null ∨ a = .undefined := by
        obtain ⟨a, ha, hn⟩ := h
        rcases List.mem_cons.1 ha with hab | hmem
        · subst hab
          rw [mapRecord_nullish a hn] at hb
          injection hb
        · exact ⟨a, hmem, hn⟩
      simp only [mapRecords, hb, ih hrest]

theorem getProp_of_absent (props : List (JSString × JSValue)) (key : JSString)
    (h : hasProp props key = false) : getProp props key = .undefined := by
  induction props with
  | nil => rfl
  | cons p ps ih =>
    obtain ⟨k, v⟩ := p
    by_cases hk : key = k
    · simp [hasProp, hk] at h
    · simp only [hasProp, if_neg hk] at h
      simp only [getProp, if_neg hk]
      exact ih h

/-- C9, amended: when the bytes `GetAllAssets` returned decode to a list, `getAllAssets`
returns one record per element, in order; in each, `ID` is the element's `ID` and every
other canonical field is the element's canonical field unless that is falsy (`undefined`,
`null`, `false`, `+0`, `-0`, `NaN`, the empty string), and the element's legacy alias when
it is; a field the element does not have reads `undefined`, so it yields the alias.  When
an element is `null` the call throws a `TypeError`. -/
theorem getAllAssets_maps_truthy_canonical (resultBytes : String) (raw : List JSValue)
    (hparse : JSON.parse (utf8Decoder.decode resultBytes) = .ok (.array raw)) :
    ((∀ a ∈ raw, a ≠ .null ∧ a ≠ .undefined) →
      ∃ rs, (getAllAssets (.ok ()) (.returned resultBytes)).1 = .ok (.array rs) ∧
        List.Forall₂ MappedRecord raw rs) ∧
    ((∃ a ∈ raw, a = .null ∨ a = .undefined) →
      (getAllAssets (.ok ()) (.returned resultBytes)).1 = .error .TypeError) ∧
    (∀ props key, hasProp props (jsString key) = false →
      getMember (.object props) key = .ok .undefined ∧ Falsy .undefined) := by
  refine ⟨?_, ?_, ?_⟩
  · intro h
    obtain ⟨rs, hrs, hm⟩ := mapRecords_rule raw h
    exact ⟨rs, by simp only [getAllAssets, tryFinallyClose, decodeAssets, hparse, hrs], hm⟩
  · intro h
    simp only [getAllAssets, tryFinallyClose, decodeAssets, hparse, mapRecords_nullish raw h]
  · intro props key h
    exact ⟨by simp only [getMember, getProp_of_absent props _ h], Or.inl rfl⟩


theorem getAllAssets_maps_truthy_canonical_witness :
    JSON.parse (utf8Decoder.decode "\uFEFF[\x7b\"ID\":\"a1\",\"Size\":5\x7d,7]") =
      .ok (.array [.object [(jsString "ID", .string "a1"), (jsString "Size", .number (.fin 5))],
        .number (.fin 7)]) ∧
    ∃ rs, (getAllAssets (.ok ()) (.returned "\uFEFF[\x7b\"ID\":\"a1\",\"Size\":5\x7d,7]")).1 =
        .ok (.array rs) ∧
      List.Forall₂ MappedRecord
        [.object [(jsString "ID", .string "a1"), (jsString "Size", .number (.fin 5))],
          .number (.fin 7)] rs :=
  ⟨rfl, (getAllAssets_maps_truthy_canonical "\uFEFF[\x7b\"ID\":\"a1\",\"Size\":5\x7d,7]"
    [.object [(jsString "ID", .string "a1"), (jsString "Size", .number (.fin 5))],
      .number (.fin 7)] rfl).1 (by
      intro a ha
      simp only [List.mem_cons, List.mem_singleton, List.not_mem_nil, or_false] at ha
      rcases ha with rfl | rfl <;> exact ⟨fun h => JSValue.noConfusion h, fun h => JSValue.noConfusion h⟩)⟩

/-- C9, counterexample: a decoded record that has the canonical field `CarbonCredits` with
value 0 and the legacy field `Size` with value 5 is returned with `CarbonCredits` 5. -/
theorem getAllAssets_zero_credits_takes_alias :
    JSON.parse (utf8Decoder.decode "[\x7b\"ID\":\"a1\",\"CarbonCredits\":0,\"Size\":5\x7d]") =
      .ok (.array [.object [(jsString "ID", .string "a1"),
        (jsString "CarbonCredits", .number (.fin 0)), (jsString "Size", .number (.fin 5))]]) ∧
    hasProp [(jsString "ID", JSValue.string "a1"), (jsString "CarbonCredits", .number (.fin 0)),
      (jsString "Size", .number (.fin 5))] (jsString "CarbonCredits") = true ∧
    (getAllAssets (.ok ()) (.returned "[\x7b\"ID\":\"a1\",\"CarbonCredits\":0,\"Size\":5\x7d]")).1 =
      .ok (.array [.object [(jsString "ID", .string "a1"),
        (jsString "SequestrationType", .undefined), (jsString "CarbonCredits", .number (.fin 5)),
        (jsString "FarmerID", .undefined), (jsString "IssuanceDate", .undefined)]]) :=
  ⟨rfl, rfl, rfl⟩

theorem utf8Decoder_decode_mark :
    utf8Decoder.decode "\uFEFF[]" = "[]" ∧ utf8Decoder.decode "[]" = "[]" := by
  decide

/-- C10: once `initializeGateway` has returned, `createAsset` and `getAllAssets` make their
one ledger call first and then close the gateway once and the client once, whatever the
outcome of the call (bytes returned and decoded or not, error, timeout). -/
theorem rest_helpers_close_once (type credits farmerId date : JSValue) (now : Nat)
    (submitted : Except JSError Unit) (evaluated : CallOutcome) :
    (createAsset type credits farmerId date now (.ok ()) submitted).2 =
      [Event.ledgerCall "CreateAsset", Event.gatewayClose, Event.clientClose] ∧
    (getAllAssets (.ok ()) evaluated).2 =
      [Event.ledgerCall "GetAllAssets", Event.gatewayClose, Event.clientClose] ∧
    (createAsset type credits farmerId date now (.ok ()) submitted).2.count Event.gatewayClose = 1 ∧
    (createAsset type credits farmerId date now (.ok ()) submitted).2.count Event.clientClose = 1 ∧
    (getAllAssets (.ok ()) evaluated).2.count Event.gatewayClose = 1 ∧
    (getAllAssets (.ok ()) evaluated).2.count Event.clientClose = 1 := by
  have h1 : (createAsset type credits farmerId date now (.ok ()) submitted).2 =
      [Event.ledgerCall "CreateAsset", Event.gatewayClose, Event.clientClose] := rfl
  have h2 : (getAllAssets (.ok ()) evaluated).2 =
      [Event.ledgerCall "GetAllAssets", Event.gatewayClose, Event.clientClose] := rfl
  rw [h1, h2]
  exact ⟨rfl, rfl, by decide, by decide, by decide, by decide⟩

/-! ## Decimal digits -/

theorem digitChar_spec (d : Nat) (h : d < 10) :
    isDigit (Nat.digitChar d) = true ∧ (Nat.digitChar d).toNat - 48 = d ∧
      (d ≠ 0 → Nat.digitChar d ≠ '0') := by
  interval_cases d <;> decide

theorem toDigitsCore_append (fuel n : Nat) (ds : List Char) :
    Nat.toDigitsCore 10 fuel n ds = Nat.toDigitsCore 10 fuel n [] ++ ds := by
  induction fuel generalizing n ds with
  | zero => simp [Nat.toDigitsCore]
  | succ f ih =>
    simp only [Nat.toDigitsCore]
    split
    · simp
    · rw [ih (n / 10) (Nat.digitChar (n % 10) :: ds), ih (n / 10) [Nat.digitChar (n % 10)]]
      simp

theorem toDigitsCore_fuel (f1 f2 n : Nat) (h1 : n < f1) (h2 : n < f2) :
    Nat.toDigitsCore 10 f1 n [] = Nat.toDigitsCore 10 f2 n [] := by
  induction f1 generalizing n f2 with
  | zero => omega
  | succ f ih =>
    cases f2 with
    | zero => omega
    | succ g =>
      simp only [Nat.toDigitsCore]
      split
      · rfl
      · rename_i hne
        have hpos : 0 < n := by
          rcases Nat.eq_zero_or_pos n with h0 | h0
          · subst h0; simp at hne
          · exact h0
        have hlt : n / 10 < n := Nat.div_lt_self hpos (by decide)
        rw [toDigitsCore_append f, toDigitsCore_append g, ih g (n / 10) (by omega) (by omega)]

theorem toDigits_lt_ten (n : Nat) (h : n < 10) : Nat.toDigits 10 n = [Nat.digitChar n] := by
  have h0 : n / 10 = 0 := Nat.div_eq_of_lt h
  simp [Nat.toDigits, Nat.toDigitsCore, h0, Nat.mod_eq_of_lt h]

theorem toDigits_step (n : Nat) (h : 10 ≤ n) :
    Nat.toDigits 10 n = Nat.toDigits 10 (n / 10) ++ [Nat.digitChar (n % 10)] := by
  have h0 : n / 10 ≠ 0 := by
    have : 1 ≤ n / 10 := (Nat.le_div_iff_mul_le (by decide)).2 (by omega)
    omega
  have hlt : n / 10 < n := Nat.div_lt_self (by omega) (by decide)
  have e : Nat.toDigits 10 n = Nat.toDigitsCore 10 n (n / 10) [Nat.digitChar (n % 10)] := by
    simp only [Nat.toDigits, Nat.toDigitsCore, if_neg h0]
  rw [e, toDigitsCore_append, toDigitsCore_fuel n (n / 10 + 1) (n / 10) hlt (by omega)]
  rfl

theorem readDigits_append (a b : List Char) :
    readDigits (a ++ b) = readDigits a * 10 ^ b.length + readDigits b := by
  induction b using List.reverseRecOn with
  | nil => simp [readDigits]
  | append_singleton l c ih =>
    have e1 : readDigits (a ++ (l ++ [c])) = readDigits (a ++ l) * 10 + (c.toNat - 48) := by
      rw [← List.append_assoc]
      simp [readDigits, List.foldl_append]
    have e2 : readDigits (l ++ [c]) = readDigits l * 10 + (c.toNat - 48) := by
      simp [readDigits, List.foldl_append]
    rw [e1, e2, ih]
    simp only [List.length_append, List.length_singleton]
    ring

theorem readDigits_singleton (c : Char) : readDigits [c] = c.toNat - 48 := by
  simp [readDigits]

theorem toDigits_spec (n : Nat) :
    (∀ c ∈ Nat.toDigits 10 n, isDigit c = true) ∧ readDigits (Nat.toDigits 10 n) = n ∧
      Nat.toDigits 10 n ≠ [] ∧ (n ≠ 0 → (Nat.toDigits 10 n).head? ≠ some '0') := by
  induction n using Nat.strong_induction_on with
  | _ n ih =>
    by_cases h : n < 10
    · rw [toDigits_lt_ten n h]
      obtain ⟨h1, h2, h3⟩ := digitChar_spec n h
      refine ⟨by simpa using h1, by rw [readDigits_singleton, h2], by simp, ?_⟩
      intro hn
      simpa using h3 hn
    · have h10 : 10 ≤ n := by omega
      have hlt : n / 10 < n := Nat.div_lt_self (by omega) (by decide)
      have hne : n / 10 ≠ 0 := by
        have : 1 ≤ n / 10 := (Nat.le_div_iff_mul_le (by decide)).2 (by omega)
        omega
      obtain ⟨i1, i2, i3, i4⟩ := ih (n / 10) hlt
      obtain ⟨h1, h2, _⟩ := digitChar_spec (n % 10) (Nat.mod_lt _ (by decide))
      rw [toDigits_step n h10]
      refine ⟨?_, ?_, by simp, ?_⟩
      · intro c hc
        rcases List.mem_append.1 hc with hc | hc
        · exact i1 c hc
        · simp at hc; subst hc; exact h1
      · rw [readDigits_append, i2, readDigits_singleton, h2]
        simp
        omega
      · intro _
        cases hd : Nat.toDigits 10 (n / 10) with
        | nil => exact absurd hd i3
        | cons a t =>
          have := i4 hne
          rw [hd] at this
          simpa using this

/-! ## Reading back a number literal -/

theorem takeDigits_append (ds rest : List Char) (hds : ∀ c ∈ ds, isDigit c = true)
    (hrest : ∀ c r, rest = c :: r → isDigit c = false) : takeDigits (ds ++ rest) = (ds, rest) := by
  induction ds with
  | nil =>
    cases rest with
    | nil => rfl
    | cons c r => simp [takeDigits, hrest c r rfl]
  | cons d t ih =>
    have hd : isDigit d = true := hds d (List.mem_cons_self _ _)
    have ht := ih (fun c hc => hds c (List.mem_cons_of_mem _ hc))
    simp [takeDigits, hd, ht]

theorem numberStop_digit (rest : List Char) (h : numberStop rest = true) :
    ∀ c r, rest = c :: r → isDigit c = false := by
  intro c r e
  subst e
  simp [numberStop] at h
  exact h.1.1.1

theorem parseFraction_none (rest : List Char) (h : ∀ r, rest ≠ '.' :: r) :
    parseFraction rest = some ([], rest) := by
  unfold parseFraction
  split
  · rename_i cs
    exact absurd rfl (h cs)
  · rfl

theorem parseFraction_some (fp rest : List Char) (hfp : ∀ c ∈ fp, isDigit c = true)
    (hne : fp ≠ []) (hrest : ∀ c r, rest = c :: r → isDigit c = false) :
    parseFraction ('.' :: (fp ++ rest)) = some (fp, rest) := by
  simp [parseFraction, takeDigits_append fp rest hfp hrest, hne]

theorem parseExponent_none (rest : List Char) (h : ∀ c r, rest = c :: r → c ≠ 'e' ∧ c ≠ 'E') :
    parseExponent rest = some (0, rest) := by
  cases rest with
  | nil => rfl
  | cons c r =>
    have := h c r rfl
    simp [parseExponent, this.1, this.2]

theorem toDigits_head_ne (n : Nat) (c : Char) (hc : isDigit c = false) (r t : List Char) :
    Nat.toDigits 10 n ++ t ≠ c :: r := by
  intro e
  obtain ⟨h1, _, h3, _⟩ := toDigits_spec n
  cases hd : Nat.toDigits 10 n with
  | nil => exact h3 hd
  | cons a l =>
    rw [hd] at e
    simp at e
    have := h1 a (by rw [hd]; exact List.mem_cons_self _ _)
    rw [e.1] at this
    rw [this] at hc
    exact Bool.noConfusion hc

theorem parseExponent_plus (a : Nat) (rest : List Char)
    (hrest : ∀ c r, rest = c :: r → isDigit c = false) :
    parseExponent ('e' :: '+' :: (Nat.toDigits 10 a ++ rest)) = some ((a : Int), rest) := by
  obtain ⟨h1, h2, h3, _⟩ := toDigits_spec a
  simp [parseExponent, takeDigits_append _ rest h1 hrest, h2, h3]

theorem parseExponent_minus (a : Nat) (rest : List Char)
    (hrest : ∀ c r, rest = c :: r → isDigit c = false) :
    parseExponent ('e' :: '-' :: (Nat.toDigits 10 a ++ rest)) = some (-(a : Int), rest) := by
  obtain ⟨h1, h2, h3, _⟩ := toDigits_spec a
  simp [parseExponent, takeDigits_append _ rest h1 hrest, h2, h3]

theorem parseUnsigned_parts (neg : Bool) (ip tail fp cs3 cs4 : List Char) (e : Int)
    (hip : ∀ c ∈ ip, isDigit c = true) (hne : ip ≠ [])
    (hlead : 1 < ip.length → ip.head? ≠ some '0')
    (htail : ∀ c r, tail = c :: r → isDigit c = false)
    (hf : parseFraction tail = some (fp, cs3)) (he : parseExponent cs3 = some (e, cs4)) :
    parseUnsigned neg (ip ++ tail) =
      some (decToNumber neg (readDigits (ip ++ fp)) (e - (fp.length : Int)), cs4) := by
  unfold parseUnsigned
  simp only [takeDigits_append ip tail hip htail]
  have hc : ¬ (ip = [] ∨ (1 < ip.length ∧ ip.head? = some '0')) := by
    rintro (h | ⟨h1, h2⟩)
    · exact hne h
    · exact hlead h1 h2
  rw [if_neg hc, hf]
  simp only [he]

theorem readDigits_zeros (m : Nat) : readDigits (List.replicate m '0') = 0 := by
  induction m with
  | zero => rfl
  | succ m ih =>
    rw [List.replicate_succ]
    have : readDigits ('0' :: List.replicate m '0') =
        readDigits ['0'] * 10 ^ (List.replicate m '0').length + readDigits (List.replicate m '0') :=
      readDigits_append ['0'] _
    rw [this, ih]
    simp [readDigits]

theorem isDigit_zeros (m : Nat) : ∀ c ∈ List.replicate m '0', isDigit c = true := by
  intro c hc
  rw [List.eq_of_mem_replicate hc]
  decide

theorem numberStop_frac (rest : List Char) (h : numberStop rest = true) :
    ∀ r, rest ≠ '.' :: r := by
  intro r e
  subst e
  simp [numberStop] at h

theorem numberStop_exp (rest : List Char) (h : numberStop rest = true) :
    ∀ c r, rest = c :: r → c ≠ 'e' ∧ c ≠ 'E' := by
  intro c r e
  subst e
  simp [numberStop] at h
  exact ⟨h.1.2, h.2⟩

theorem decToNumber_shift (neg : Bool) (s m : Nat) :
    decToNumber neg (s * 10 ^ m) 0 = decToNumber neg s (m : Int) := by
  simp [decToNumber]

/-- Branch `k ≤ n ≤ 21` of the layout: the digits followed by zeros. -/
theorem parseUnsigned_layout_int (neg : Bool) (s : Nat) (ds rest : List Char) (m : Nat)
    (hds : ∀ c ∈ ds, isDigit c = true) (hne : ds ≠ []) (hlead : ds.head? ≠ some '0')
    (hval : readDigits ds = s) (hrest : numberStop rest = true) :
    parseUnsigned neg ((ds ++ List.replicate m '0') ++ rest) =
      some (decToNumber neg s (m : Int), rest) := by
  have hall : ∀ c ∈ ds ++ List.replicate m '0', isDigit c = true := by
    intro c hc
    rcases List.mem_append.1 hc with h | h
    · exact hds c h
    · exact isDigit_zeros m c h
  have hhead : (ds ++ List.replicate m '0').head? ≠ some '0' := by
    cases ds with
    | nil => exact absurd rfl hne
    | cons a t => simpa using hlead
  rw [parseUnsigned_parts neg (ds ++ List.replicate m '0') rest [] rest rest 0 hall (by simp [hne])
    (fun _ => hhead) (numberStop_digit rest hrest)
    (parseFraction_none rest (numberStop_frac rest hrest))
    (parseExponent_none rest (numberStop_exp rest hrest))]
  rw [List.append_nil, readDigits_append, readDigits_zeros, hval]
  simp only [List.length_replicate, Nat.add_zero, List.length_nil, Nat.cast_zero, sub_zero]
  rw [decToNumber_shift]

theorem isDigit_dot : isDigit '.' = false := by decide

theorem isDigit_e : isDigit 'e' = false := by decide

/-- Branch `0 < n < k`: the decimal point inside the digits. -/
theorem parseUnsigned_layout_point (neg : Bool) (s : Nat) (ds rest : List Char) (j : Nat)
    (hds : ∀ c ∈ ds, isDigit c = true) (hlead : ds.head? ≠ some '0')
    (hval : readDigits ds = s) (hj : 0 < j) (hjk : j < ds.length)
    (hrest : numberStop rest = true) :
    parseUnsigned neg ((ds.take j ++ '.' :: ds.drop j) ++ rest) =
      some (decToNumber neg s ((j : Int) - (ds.length : Int)), rest) := by
  have htake : ∀ c ∈ ds.take j, isDigit c = true := fun c hc => hds c (List.mem_of_mem_take hc)
  have hdrop : ∀ c ∈ ds.drop j, isDigit c = true := fun c hc => hds c (List.mem_of_mem_drop hc)
  have hne : ds.take j ≠ [] := by
    intro h
    have := congrArg List.length h
    rw [List.length_take, List.length_nil] at this
    omega
  have hdne : ds.drop j ≠ [] := by
    intro h
    have := congrArg List.length h
    rw [List.length_drop, List.length_nil] at this
    omega
  have hhead : (ds.take j).head? ≠ some '0' := by
    cases ds with
    | nil => simp at hjk
    | cons a t =>
      cases j with
      | zero => omega
      | succ i => simpa using hlead
  have e1 : (ds.take j ++ '.' :: ds.drop j) ++ rest = ds.take j ++ ('.' :: (ds.drop j ++ rest)) := by
    simp
  rw [e1, parseUnsigned_parts neg (ds.take j) ('.' :: (ds.drop j ++ rest)) (ds.drop j) rest rest 0
    htake hne (fun _ => hhead)
    (by intro c r e; simp at e; rw [← e.1]; exact isDigit_dot)
    (parseFraction_some (ds.drop j) rest hdrop hdne (numberStop_digit rest hrest))
    (parseExponent_none rest (numberStop_exp rest hrest))]
  rw [List.take_append_drop, hval]
  have : (0 : Int) - ((ds.drop j).length : Int) = (j : Int) - (ds.length : Int) := by
    simp only [List.length_drop]
    omega
  rw [this]

/-- Branch `-6 < n ≤ 0`: `0.` and zeros before the digits. -/
theorem parseUnsigned_layout_small (neg : Bool) (s : Nat) (ds rest : List Char) (m : Nat)
    (hds : ∀ c ∈ ds, isDigit c = true) (hne : ds ≠ [])
    (hval : readDigits ds = s) (hrest : numberStop rest = true) :
    parseUnsigned neg (('0' :: '.' :: (List.replicate m '0' ++ ds)) ++ rest) =
      some (decToNumber neg s (-(m : Int) - (ds.length : Int)), rest) := by
  have hfp : ∀ c ∈ List.replicate m '0' ++ ds, isDigit c = true := by
    intro c hc
    rcases List.mem_append.1 hc with h | h
    · exact isDigit_zeros m c h
    · exact hds c h
  have e1 : ('0' :: '.' :: (List.replicate m '0' ++ ds)) ++ rest =
      ['0'] ++ ('.' :: ((List.replicate m '0' ++ ds) ++ rest)) := by simp
  rw [e1, parseUnsigned_parts neg ['0'] ('.' :: ((List.replicate m '0' ++ ds) ++ rest))
    (List.replicate m '0' ++ ds) rest rest 0
    (by intro c hc; simp at hc; subst hc; decide) (by simp) (by simp)
    (by intro c r e; simp at e; rw [← e.1]; exact isDigit_dot)
    (parseFraction_some _ rest hfp (by simp [hne]) (numberStop_digit rest hrest))
    (parseExponent_none rest (numberStop_exp rest hrest))]
  have hv : readDigits (['0'] ++ (List.replicate m '0' ++ ds)) = s := by
    rw [readDigits_append, readDigits_append, readDigits_zeros, hval]
    simp [readDigits]
  rw [hv]
  have : (0 : Int) - ((List.replicate m '0' ++ ds).length : Int) = -(m : Int) - (ds.length : Int) := by
    simp only [List.length_append, List.length_replicate]
    omega
  rw [this]

theorem parseExponent_signed (e : Int) (rest : List Char) (hrest : numberStop rest = true) :
    parseExponent ('e' :: (if 0 ≤ e then '+' else '-') :: (Nat.toDigits 10 e.natAbs ++ rest)) =
      some (e, rest) := by
  by_cases h : 0 ≤ e
  · rw [if_pos h, parseExponent_plus _ rest (numberStop_digit rest hrest)]
    simp [Int.natAbs_of_nonneg h]
  · rw [if_neg h, parseExponent_minus _ rest (numberStop_digit rest hrest)]
    have : ((e.natAbs : Int)) = -e := by omega
    simp [this]

/-- Branches with an exponent part: `d` or `d.ddd`, then `e±x`. -/
theorem parseUnsigned_layout_exp (neg : Bool) (s : Nat) (d : Char) (r rest : List Char) (e : Int)
    (hds : ∀ c ∈ d :: r, isDigit c = true) (hval : readDigits (d :: r) = s)
    (hrest : numberStop rest = true) :
    parseUnsigned neg
      ((match d :: r with
        | [] => []
        | [d] => d :: 'e' :: (if 0 ≤ e then '+' else '-') :: Nat.toDigits 10 e.natAbs
        | d :: r => d :: '.' :: (r ++ 'e' :: (if 0 ≤ e then '+' else '-') ::
            Nat.toDigits 10 e.natAbs)) ++ rest) =
      some (decToNumber neg s (e - (r.length : Int)), rest) := by
  have hd : ∀ c ∈ [d], isDigit c = true := by
    intro c hc
    simp at hc
    subst hc
    exact hds c (List.mem_cons_self _ _)
  cases r with
  | nil =>
    have e1 : ([d] ++ 'e' :: (if 0 ≤ e then '+' else '-') :: Nat.toDigits 10 e.natAbs) ++ rest =
        [d] ++ ('e' :: (if 0 ≤ e then '+' else '-') :: (Nat.toDigits 10 e.natAbs ++ rest)) := by
      simp
    show parseUnsigned neg
      (([d] ++ 'e' :: (if 0 ≤ e then '+' else '-') :: Nat.toDigits 10 e.natAbs) ++ rest) = _
    rw [e1, parseUnsigned_parts neg [d] _ [] _ rest e hd (by simp) (by simp)
      (by intro c r' h; simp at h; rw [← h.1]; exact isDigit_e)
      (parseFraction_none _ (by intro r' h; simp at h))
      (parseExponent_signed e rest hrest)]
    simp [← hval]
  | cons a t =>
    have hr : ∀ c ∈ a :: t, isDigit c = true :=
      fun c hc => hds c (List.mem_cons_of_mem _ hc)
    have e1 : (d :: '.' :: ((a :: t) ++ 'e' :: (if 0 ≤ e then '+' else '-') ::
        Nat.toDigits 10 e.natAbs)) ++ rest =
        [d] ++ ('.' :: ((a :: t) ++ ('e' :: (if 0 ≤ e then '+' else '-') ::
          (Nat.toDigits 10 e.natAbs ++ rest)))) := by
      simp
    show parseUnsigned neg ((d :: '.' :: ((a :: t) ++ 'e' :: (if 0 ≤ e then '+' else '-') ::
        Nat.toDigits 10 e.natAbs)) ++ rest) = _
    rw [e1, parseUnsigned_parts neg [d] _ (a :: t) _ rest e hd (by simp) (by simp)
      (by intro c r' h; simp at h; rw [← h.1]; exact isDigit_dot)
      (parseFraction_some (a :: t) _ hr (by simp)
        (by intro c r' h; simp at h; rw [← h.1]; exact isDigit_e))
      (parseExponent_signed e rest hrest)]
    rw [← hval]
    rfl

/-- The layout of digits `s` at exponent `n` reads back as the numeral `s × 10 ^ (n - k)`. -/
theorem parseUnsigned_layout (neg : Bool) (s : Nat) (hs : s ≠ 0) (n : Int) (rest : List Char)
    (hrest : numberStop rest = true) :
    parseUnsigned neg (layoutDigits (Nat.toDigits 10 s) n ++ rest) =
      some (decToNumber neg s (n - ((Nat.toDigits 10 s).length : Int)), rest) := by
  obtain ⟨hds, hval, hne, hlead⟩ := toDigits_spec s
  have hlead' := hlead hs
  generalize Nat.toDigits 10 s = ds at hds hval hne hlead' ⊢
  unfold layoutDigits
  simp only []
  by_cases h1 : (ds.length : Int) ≤ n ∧ n ≤ 21
  · have e : (((n - (ds.length : Int)).toNat : Nat) : Int) = n - (ds.length : Int) :=
      Int.toNat_of_nonneg (by omega)
    rw [if_pos h1, parseUnsigned_layout_int neg s ds rest (n - (ds.length : Int)).toNat hds hne
      hlead' hval hrest, e]
  · rw [if_neg h1]
    by_cases h2 : 0 < n ∧ n ≤ 21
    · have e : ((n.toNat : Nat) : Int) = n := Int.toNat_of_nonneg (by omega)
      have hj : 0 < n.toNat := by omega
      have hjk : n.toNat < ds.length := by omega
      rw [if_pos h2, parseUnsigned_layout_point neg s ds rest n.toNat hds hlead' hval hj hjk hrest, e]
    · rw [if_neg h2]
      by_cases h3 : -6 < n ∧ n ≤ 0
      · have e : (((-n).toNat : Nat) : Int) = -n := Int.toNat_of_nonneg (by omega)
        rw [if_pos h3, parseUnsigned_layout_small neg s ds rest (-n).toNat hds hne hval hrest, e,
          neg_neg]
      · rw [if_neg h3]
        cases ds with
        | nil => exact absurd rfl hne
        | cons d r =>
          refine (parseUnsigned_layout_exp neg s d r rest (n - 1) hds hval hrest).trans ?_
          have e : n - 1 - (r.length : Int) = n - ((d :: r).length : Int) := by
            simp only [List.length_cons]
            push_cast
            omega
          rw [e]

/-! ## Rounding to a double -/

theorem bitLengthAux_spec (fuel n : Nat) (h : n ≤ fuel) (hn : n ≠ 0) :
    2 ^ (bitLengthAux fuel n - 1) ≤ n ∧ n < 2 ^ bitLengthAux fuel n ∧ 1 ≤ bitLengthAux fuel n := by
  induction fuel generalizing n with
  | zero => omega
  | succ f ih =>
    simp only [bitLengthAux, if_neg hn]
    by_cases h2 : n / 2 = 0
    · have h1 : n = 1 := by omega
      subst h1
      cases f with
      | zero => simp [bitLengthAux]
      | succ g => simp [bitLengthAux]
    · obtain ⟨i1, i2, i3⟩ := ih (n / 2) (by omega) h2
      refine ⟨?_, ?_, by omega⟩
      · simp only [Nat.add_sub_cancel]
        have e : bitLengthAux f (n / 2) = (bitLengthAux f (n / 2) - 1) + 1 := by omega
        rw [e, pow_succ]
        omega
      · rw [pow_succ]
        omega

theorem bitLength_spec (n : Nat) (hn : n ≠ 0) :
    2 ^ (bitLength n - 1) ≤ n ∧ n < 2 ^ bitLength n ∧ 1 ≤ bitLength n :=
  bitLengthAux_spec n n (le_refl n) hn

theorem bitLength_unique (n b : Nat) (h1 : 2 ^ b ≤ n) (h2 : n < 2 ^ (b + 1)) :
    bitLength n = b + 1 := by
  have hn : n ≠ 0 := by
    have : 0 < 2 ^ b := Nat.pow_pos (by decide)
    omega
  obtain ⟨s1, s2, s3⟩ := bitLength_spec n hn
  have a1 : b < bitLength n := by
    by_contra hc
    have : 2 ^ bitLength n ≤ 2 ^ b := Nat.pow_le_pow_right (by decide) (by omega)
    omega
  have a2 : bitLength n - 1 < b + 1 := by
    by_contra hc
    have : 2 ^ (b + 1) ≤ 2 ^ (bitLength n - 1) := Nat.pow_le_pow_right (by decide) (by omega)
    omega
  omega

theorem roundNat_scaled (m sh : Nat) (h1 : 2 ^ 52 ≤ m) (h2 : m < 2 ^ 53) (hsh : 1 ≤ sh) :
    roundNat (m * 2 ^ sh) = m * 2 ^ sh := by
  have hp : 0 < 2 ^ sh := Nat.pow_pos (by decide)
  have hb : bitLength (m * 2 ^ sh) = 52 + sh + 1 := by
    apply bitLength_unique
    · rw [pow_add]; exact Nat.mul_le_mul_right _ h1
    · have : 2 ^ (52 + sh + 1) = 2 ^ 53 * 2 ^ sh := by rw [← pow_add]; congr 1; omega
      rw [this]
      exact Nat.mul_lt_mul_of_pos_right h2 hp
  have hge : ¬ m * 2 ^ sh < 2 ^ 53 := by
    have : 2 ^ 53 ≤ m * 2 ^ sh := by
      calc 2 ^ 53 = 2 ^ 52 * 2 ^ 1 := by norm_num
        _ ≤ m * 2 ^ sh := Nat.mul_le_mul h1 (Nat.pow_le_pow_right (by decide) hsh)
    omega
  unfold roundNat
  rw [if_neg hge]
  simp only [hb]
  have e : 52 + sh + 1 - 53 = sh := by omega
  rw [e, Nat.mul_div_cancel _ hp, Nat.mul_mod_left]
  have hhalf : 0 < 2 ^ (sh - 1) := Nat.pow_pos (by decide)
  rw [if_pos hhalf]

theorem roundNat_form (n : Nat) (h : ¬ n < 2 ^ 53) :
    ∃ m sh, roundNat n = m * 2 ^ sh ∧ 2 ^ 52 ≤ m ∧ m ≤ 2 ^ 53 ∧ 1 ≤ sh := by
  have hn : n ≠ 0 := by
    intro h0
    subst h0
    exact h (by norm_num)
  obtain ⟨s1, s2, s3⟩ := bitLength_spec n hn
  have hb : 54 ≤ bitLength n := by
    by_contra hc
    have : 2 ^ bitLength n ≤ 2 ^ 53 := Nat.pow_le_pow_right (by decide) (by omega)
    omega
  have hp : 0 < 2 ^ (bitLength n - 53) := Nat.pow_pos (by decide)
  have e1 : 2 ^ (bitLength n - 1) = 2 ^ 52 * 2 ^ (bitLength n - 53) := by
    rw [← pow_add]; congr 1; omega
  have e2 : 2 ^ bitLength n = 2 ^ 53 * 2 ^ (bitLength n - 53) := by
    rw [← pow_add]; congr 1; omega
  have q1 : 2 ^ 52 ≤ n / 2 ^ (bitLength n - 53) := by
    rw [Nat.le_div_iff_mul_le hp, ← e1]
    exact s1
  have q2 : n / 2 ^ (bitLength n - 53) < 2 ^ 53 := by
    rw [Nat.div_lt_iff_lt_mul hp, ← e2]
    exact s2
  unfold roundNat
  rw [if_neg h]
  simp only []
  split_ifs
  · exact ⟨_, _, rfl, q1, by omega, by omega⟩
  · exact ⟨_, _, rfl, by omega, by omega, by omega⟩
  · exact ⟨_, _, rfl, q1, by omega, by omega⟩
  · exact ⟨_, _, rfl, by omega, by omega, by omega⟩

theorem roundNat_idem (n : Nat) : roundNat (roundNat n) = roundNat n := by
  by_cases h : n < 2 ^ 53
  · have : roundNat n = n := by unfold roundNat; rw [if_pos h]
    rw [this, this]
  · obtain ⟨m, sh, e, h1, h2, h3⟩ := roundNat_form n h
    rw [e]
    by_cases hm : m < 2 ^ 53
    · exact roundNat_scaled m sh h1 hm h3
    · have hm' : m = 2 ^ 53 := by omega
      have e2 : m * 2 ^ sh = 2 ^ 52 * 2 ^ (sh + 1) := by
        rw [hm', pow_succ]
        ring
      rw [e2]
      exact roundNat_scaled (2 ^ 52) (sh + 1) (le_refl _) (by norm_num) (by omega)

theorem roundNat_ne_zero (n : Nat) (hn : n ≠ 0) : roundNat n ≠ 0 := by
  by_cases h : n < 2 ^ 53
  · have : roundNat n = n := by unfold roundNat; rw [if_pos h]
    rw [this]
    exact hn
  · obtain ⟨m, sh, e, h1, _, _⟩ := roundNat_form n h
    rw [e]
    have hp : 0 < 2 ^ sh := Nat.pow_pos (by decide)
    have hm : 0 < m := by
      have : 0 < 2 ^ 52 := by norm_num
      omega
    exact Nat.ne_of_gt (Nat.mul_pos hm hp)

theorem roundNat_of_le (n : Nat) (h : n ≤ 2 ^ 53) : roundNat n = n := by
  by_cases h1 : n < 2 ^ 53
  · unfold roundNat; rw [if_pos h1]
  · have : n = 2 ^ 53 := by omega
    subst this
    decide

/-! ## Numbers written by `Number::toString` read back -/

theorem floor_toNat_natCast (y : Nat) : ((y : ℚ)).floor.toNat = y := by
  rw [Rat.floor_def']
  simp

theorem signedValue_abs (neg : Bool) (y : Nat) : |signedValue neg y| = (y : ℚ) := by
  unfold signedValue
  cases neg <;> simp

theorem signedValue_neg_iff (neg : Bool) (y : Nat) (hy : y ≠ 0) :
    decide (signedValue neg y < 0) = neg := by
  have hpos : (0 : ℚ) < (y : ℚ) := by exact_mod_cast Nat.pos_of_ne_zero hy
  unfold signedValue
  cases neg
  · simp
  · simp [hpos]

theorem signedValue_ne_zero (neg : Bool) (y : Nat) (hy : y ≠ 0) : signedValue neg y ≠ 0 := by
  have hpos : (0 : ℚ) < (y : ℚ) := by exact_mod_cast Nat.pos_of_ne_zero hy
  unfold signedValue
  cases neg
  · simpa using hy
  · simpa using hy

theorem ofMathInt_of_double (neg : Bool) (y : Nat) (hy : y ≠ 0) (hr : roundNat y = y)
    (hlt : y < overflowBound) : ofMathInt neg y = .fin (signedValue neg y) := by
  unfold ofMathInt
  rw [if_neg hy]
  simp only [hr]
  rw [if_neg (by omega)]
  rfl

theorem ofMathInt_eq (neg : Bool) (m : Nat) (hm : m ≠ 0) (hlt : roundNat m < overflowBound) :
    ofMathInt neg m = .fin (signedValue neg (roundNat m)) := by
  unfold ofMathInt
  rw [if_neg hm]
  simp only []
  rw [if_neg (by omega)]
  rfl

theorem fallback_valid (neg : Bool) (y : Nat) (hy : y ≠ 0) (hr : roundNat y = y)
    (hlt : y < overflowBound) :
    validDigits (signedValue neg y)
      (|signedValue neg y|.floor.toNat, decExp |signedValue neg y|) = true := by
  have h1 : (1 : ℚ) ≤ (y : ℚ) := by exact_mod_cast Nat.one_le_iff_ne_zero.2 hy
  rw [signedValue_abs, floor_toNat_natCast]
  unfold validDigits decExp
  rw [if_pos h1, floor_toNat_natCast, signedValue_neg_iff neg y hy]
  simp only [sub_self]
  have : decToNumber neg y 0 = .fin (signedValue neg y) := by
    unfold decToNumber
    simp only [le_refl, if_true, Int.toNat_zero, pow_zero, mul_one]
    exact ofMathInt_of_double neg y hy hr hlt
  simp [this, hy]

theorem shortestDigits_valid (q : ℚ)
    (hfb : validDigits q (|q|.floor.toNat, decExp |q|) = true) :
    validDigits q (shortestDigits q) = true := by
  unfold shortestDigits
  simp only []
  split
  · rename_i c hc
    exact List.find?_some hc
  · exact hfb

theorem parseUnsigned_minus (cs : List Char) : parseUnsigned false ('-' :: cs) = none := by
  have : takeDigits ('-' :: cs) = ([], '-' :: cs) := by
    simp [takeDigits, isDigit]
  simp [parseUnsigned, this]

theorem parseNumber_of_unsigned (cs : List Char) (r : JSNumber × List Char)
    (h : parseUnsigned false cs = some r) : parseNumber cs = some r := by
  cases cs with
  | nil => simpa [parseNumber] using h
  | cons c t =>
    by_cases hc : c = '-'
    · subst hc
      rw [parseUnsigned_minus] at h
      exact Option.noConfusion h
    · unfold parseNumber
      split
      · rename_i r' heq
        simp at heq
        exact absurd heq.1 hc
      · exact h

theorem parseNumber_numberToChars (q : ℚ) (hq : q ≠ 0)
    (hv : validDigits q (shortestDigits q) = true) (rest : List Char)
    (hrest : numberStop rest = true) :
    parseNumber (numberToChars (.fin q) ++ rest) = some (.fin q, rest) := by
  unfold validDigits at hv
  simp only [Bool.and_eq_true, decide_eq_true_eq] at hv
  obtain ⟨hs, hval⟩ := hv
  simp only [numberToChars, if_neg hq]
  by_cases hneg : q < 0
  · rw [if_pos hneg]
    have hd : decide (q < 0) = true := by simpa using hneg
    rw [hd] at hval
    show parseNumber ('-' :: (layoutDigits (Nat.toDigits 10 (shortestDigits q).1)
      (shortestDigits q).2 ++ rest)) = _
    simp only [parseNumber]
    rw [parseUnsigned_layout true _ hs _ rest hrest, hval]
  · rw [if_neg hneg]
    have hd : decide (q < 0) = false := by simpa using hneg
    rw [hd] at hval
    apply parseNumber_of_unsigned
    rw [parseUnsigned_layout false _ hs _ rest hrest, hval]

theorem parseNumber_ofMathInt (neg : Bool) (m : Nat) (hm : m ≠ 0)
    (hlt : roundNat m < overflowBound) (rest : List Char) (hrest : numberStop rest = true) :
    parseNumber (numberToChars (ofMathInt neg m) ++ rest) = some (ofMathInt neg m, rest) := by
  rw [ofMathInt_eq neg m hm hlt]
  have hy := roundNat_ne_zero m hm
  exact parseNumber_numberToChars _ (signedValue_ne_zero neg _ hy)
    (shortestDigits_valid _ (fallback_valid neg _ hy (roundNat_idem m) hlt)) rest hrest

theorem parseNumber_zero (rest : List Char) (hrest : numberStop rest = true) :
    parseNumber ('0' :: rest) = some (.fin 0, rest) := by
  apply parseNumber_of_unsigned
  have := parseUnsigned_parts false ['0'] rest [] rest rest 0
    (by intro c hc; simp at hc; subst hc; decide) (by simp) (by simp)
    (numberStop_digit rest hrest)
    (parseFraction_none rest (numberStop_frac rest hrest))
    (parseExponent_none rest (numberStop_exp rest hrest))
  simp only [List.singleton_append] at this
  rw [this]
  rfl

/-! ## Strings written by `QuoteJSONString` read back -/

theorem char_eq_of_toNat (c : Char) (n : Nat) (h : c.toNat = n) : c = Char.ofNat n := by
  subst h
  exact (Char.ofNat_toNat c).symm

theorem hex4_control (n : Nat) (h : n < 32) :
    hex4 '0' '0' (hexDigit (n / 16)) (hexDigit (n % 16)) = some n := by
  interval_cases n <;> rfl

theorem parseChars_plain (c : Char) (rest : List Char) (h1 : c ≠ '"') (h2 : c ≠ '\\')
    (h3 : ¬ c.toNat < 32) :
    parseChars none (c :: rest) = consChar (.scalar c) (parseChars none rest) := by
  rw [parseChars.eq_def]
  simp [flushPending, h1, h2, h3]

theorem parseChars_simple (e ch : Char) (rest : List Char) (he : e ≠ 'u')
    (hs : simpleEscape e = some ch) :
    parseChars none ('\\' :: e :: rest) = consChar (.scalar ch) (parseChars none rest) := by
  rw [parseChars.eq_def]
  simp [flushPending, he, hs]

theorem parseChars_control (a b : Char) (u : Nat) (rest : List Char)
    (h : hex4 '0' '0' a b = some u) (h2 : u < 32) :
    parseChars none ('\\' :: 'u' :: '0' :: '0' :: a :: b :: rest) =
      consChar (.scalar (Char.ofNat u)) (parseChars none rest) := by
  rw [parseChars.eq_def]
  have hlo : ¬ (0xD800 ≤ u ∧ u ≤ 0xDBFF) := by omega
  have hlo2 : ¬ (0xDC00 ≤ u ∧ u ≤ 0xDFFF) := by omega
  simp [flushPending, h, hlo, hlo2]

theorem parseChars_quoteChar (c : Char) (rest : List Char) :
    parseChars none (quoteChar c ++ rest) = consChar (.scalar c) (parseChars none rest) := by
  unfold quoteChar
  split_ifs with h1 h2 h3 h4 h5 h6 h7 h8
  · subst h1
    exact parseChars_simple '"' '"' rest (by decide) rfl
  · subst h2
    exact parseChars_simple '\\' '\\' rest (by decide) rfl
  · rw [char_eq_of_toNat c 8 h3]
    exact parseChars_simple 'b' _ rest (by decide) rfl
  · rw [char_eq_of_toNat c 9 h4]
    exact parseChars_simple 't' _ rest (by decide) rfl
  · rw [char_eq_of_toNat c 10 h5]
    exact parseChars_simple 'n' _ rest (by decide) rfl
  · rw [char_eq_of_toNat c 12 h6]
    exact parseChars_simple 'f' _ rest (by decide) rfl
  · rw [char_eq_of_toNat c 13 h7]
    exact parseChars_simple 'r' _ rest (by decide) rfl
  · have := parseChars_control _ _ c.toNat rest (hex4_control c.toNat h8) h8
    rw [Char.ofNat_toNat] at this
    exact this
  · exact parseChars_plain c rest h1 h2 h8

theorem parseChars_quoteChars (s rest : List Char) :
    parseChars none (quoteBody (s.map JSChar.scalar) ++ '"' :: rest) =
      some (s.map JSChar.scalar, rest) := by
  induction s with
  | nil =>
    rw [parseChars.eq_def]
    simp [quoteBody, flushPending]
  | cons c t ih =>
    simp only [List.map_cons, quoteBody, quoteUnit, List.append_assoc]
    rw [parseChars_quoteChar, ih]
    rfl

theorem parseChars_quoteBody (s : String) (rest : List Char) :
    parseChars none (quoteBody (jsString s) ++ '"' :: rest) = some (jsString s, rest) :=
  parseChars_quoteChars s.data rest

/-! ## Values read back -/

theorem parseValue_quote (f : Nat) (r : List Char) :
    parseValue (f + 1) ('"' :: r) =
      match parseChars none r with
      | some (t, r') => some (.str t, r')
      | none => none := rfl

theorem parseValue_string (f : Nat) (s : String) (rest : List Char) :
    parseValue (f + 1) (quoteJSONString (jsString s) ++ rest) = some (.string s, rest) := by
  have e : quoteJSONString (jsString s) ++ rest = '"' :: (quoteBody (jsString s) ++ '"' :: rest) := by
    simp [quoteJSONString]
  rw [e, parseValue_quote, parseChars_quoteBody]

theorem parseValue_null (f : Nat) (rest : List Char) :
    parseValue (f + 1) ('n' :: 'u' :: 'l' :: 'l' :: rest) = some (.null, rest) := rfl

theorem parseNumber_head (c : Char) (t : List Char) (r : JSNumber × List Char)
    (h : parseNumber (c :: t) = some r) : c = '-' ∨ isDigit c = true := by
  by_cases hc : c = '-'
  · exact Or.inl hc
  · right
    have h' : parseUnsigned false (c :: t) = some r := by
      unfold parseNumber at h
      split at h
      · rename_i r' heq
        simp at heq
        exact absurd heq.1 hc
      · exact h
    by_contra hd
    have : takeDigits (c :: t) = ([], c :: t) := by simp [takeDigits, hd]
    simp [parseUnsigned, this] at h'

theorem isJsonWs_of_head (c : Char) (h : c = '-' ∨ isDigit c = true) : isJsonWs c = false := by
  have n1 : c ≠ ' ' := by rintro rfl; rcases h with h | h <;> exact absurd h (by decide)
  have n2 : c ≠ '\t' := by rintro rfl; rcases h with h | h <;> exact absurd h (by decide)
  have n3 : c ≠ '\n' := by rintro rfl; rcases h with h | h <;> exact absurd h (by decide)
  have n4 : c ≠ '\r' := by rintro rfl; rcases h with h | h <;> exact absurd h (by decide)
  simp [isJsonWs, n1, n2, n3, n4]

theorem parseValue_number (f : Nat) (cs : List Char) (n : JSNumber) (r : List Char)
    (h : parseNumber cs = some (n, r)) : parseValue (f + 1) cs = some (.number n, r) := by
  cases cs with
  | nil => simp [parseNumber, parseUnsigned, takeDigits] at h
  | cons c t =>
    have hc := parseNumber_head c t _ h
    have n1 : c ≠ 'n' := by rintro rfl; rcases hc with h | h <;> exact absurd h (by decide)
    have n2 : c ≠ 't' := by rintro rfl; rcases hc with h | h <;> exact absurd h (by decide)
    have n3 : c ≠ 'f' := by rintro rfl; rcases hc with h | h <;> exact absurd h (by decide)
    have n4 : c ≠ '"' := by rintro rfl; rcases hc with h | h <;> exact absurd h (by decide)
    have n5 : c ≠ '[' := by rintro rfl; rcases hc with h | h <;> exact absurd h (by decide)
    have n6 : c ≠ '{' := by rintro rfl; rcases hc with h | h <;> exact absurd h (by decide)
    rw [parseValue.eq_def]
    simp only []
    split <;> first
      | (rename_i heq; simp at heq; first
          | exact absurd heq.1 n1 | exact absurd heq.1 n2 | exact absurd heq.1 n3
          | exact absurd heq.1 n4 | exact absurd heq.1 n5 | exact absurd heq.1 n6)
      | simp [h]

theorem skipWs_of_head (c : Char) (t : List Char) (h : isJsonWs c = false) :
    skipWs (c :: t) = c :: t := by
  simp [skipWs, h]

theorem readsAs_string (s : String) : ReadsAs (quoteJSONString (jsString s)) (.string s) := by
  intro f rest _
  refine ⟨parseValue_string f s rest, ?_⟩
  simp [quoteJSONString, skipWs, isJsonWs]

theorem readsAs_null : ReadsAs "null".data .null := by
  intro f rest _
  exact ⟨parseValue_null f rest, by simp [skipWs, isJsonWs]⟩

theorem readsAs_of_parseNumber (t : List Char) (x : JSNumber)
    (h : ∀ rest, numberStop rest = true → parseNumber (t ++ rest) = some (x, rest)) :
    ReadsAs t (.number x) := by
  intro f rest hrest
  have hp := h rest hrest
  refine ⟨parseValue_number f _ x rest hp, ?_⟩
  cases hc : t ++ rest with
  | nil =>
    rw [hc] at hp
    simp [parseNumber, parseUnsigned, takeDigits] at hp
  | cons c r =>
    rw [hc] at hp
    exact skipWs_of_head c r (isJsonWs_of_head c (parseNumber_head c r _ hp))

/-- Every number `parseInt` can return is written by `JSON.stringify` as a text that reads
back as `reparsedNumber` of it. -/
theorem serialize_ofMathInt (neg : Bool) (m : Nat) :
    ∃ t, serialize (.number (ofMathInt neg m)) = some t ∧
      serialize (reparsedNumber (ofMathInt neg m)) = some t ∧
      ReadsAs t (reparsedNumber (ofMathInt neg m)) := by
  by_cases hm : m = 0
  · subst hm
    cases neg
    · refine ⟨['0'], rfl, rfl, ?_⟩
      exact readsAs_of_parseNumber _ _ (fun rest h => parseNumber_zero rest h)
    · refine ⟨['0'], rfl, rfl, ?_⟩
      exact readsAs_of_parseNumber _ _ (fun rest h => parseNumber_zero rest h)
  · by_cases hlt : roundNat m < overflowBound
    · have e := ofMathInt_eq neg m hm hlt
      refine ⟨numberToChars (ofMathInt neg m), ?_, ?_, ?_⟩
      · rw [e]; rfl
      · rw [e]; rfl
      · have := readsAs_of_parseNumber (numberToChars (ofMathInt neg m)) (ofMathInt neg m)
          (fun rest h => parseNumber_ofMathInt neg m hm hlt rest h)
        rw [e] at this ⊢
        exact this
    · have e : ofMathInt neg m = if neg then .negInf else .posInf := by
        unfold ofMathInt
        rw [if_neg hm]
        simp only []
        rw [if_pos (by omega)]
      refine ⟨"null".data, ?_, ?_, ?_⟩
      · rw [e]; cases neg <;> rfl
      · rw [e]; cases neg <;> rfl
      · rw [e]; cases neg <;> exact readsAs_null

theorem parseInt_cases (string : String) :
    parseInt string = .nan ∨ ∃ neg m, parseInt string = ofMathInt neg m := by
  unfold parseInt
  simp only []
  split_ifs <;> first | exact Or.inl rfl | exact Or.inr ⟨_, _, rfl⟩

theorem serialize_parseInt (string : String) :
    ∃ t, serialize (.number (parseInt string)) = some t ∧
      serialize (reparsedNumber (parseInt string)) = some t ∧
      ReadsAs t (reparsedNumber (parseInt string)) := by
  rcases parseInt_cases string with h | ⟨neg, m, h⟩
  · rw [h]
    exact ⟨"null".data, rfl, rfl, readsAs_null⟩
  · rw [h]
    exact serialize_ofMathInt neg m

/-- A lone surrogate written as an escape stays in the String value and is written back as
the same escape; an escaped surrogate pair is the scalar value it encodes; two keys that
differ in a lone surrogate stay two properties. -/
theorem lone_surrogate_read_and_written :
    JSON.parse "\"a\\ud800b\"" =
      .ok (.str [.scalar 'a', .surrogate 0xD800, .scalar 'b']) ∧
    JSON.stringify (.str [.scalar 'a', .surrogate 0xD800, .scalar 'b']) =
      some "\"a\\ud800b\"" ∧
    JSON.parse "\"\\ud83d\\ude00\"" = .ok (.str [.scalar (Char.ofNat 0x1F600)]) ∧
    JSON.parse "\"\\udc00\\ud800\"" = .ok (.str [.surrogate 0xDC00, .surrogate 0xD800]) ∧
    JSON.parse "\x7b\"\\ud800\":1,\"\\ud801\":2\x7d" =
      .ok (.object [([.surrogate 0xD800], .number (.fin 1)),
        ([.surrogate 0xD801], .number (.fin 2))]) ∧
    (GetAllAssets (putState Ledger.empty "k" "\"\\udfff\"")).1.toOption =
      some "[\"\\udfff\"]" := by
  refine ⟨rfl, by decide!, rfl, rfl, rfl, by decide!⟩

/-! ## Asset objects read back -/

theorem parseMembers_quote (f : Nat) (r : List Char) (acc : List (JSString × JSValue)) :
    parseMembers (f + 1) ('"' :: r) acc =
      match parseChars none r with
      | none => none
      | some (k, r1) =>
        match skipWs r1 with
        | ':' :: r2 =>
          match parseValue f (skipWs r2) with
          | none => none
          | some (v, r3) =>
            match skipWs r3 with
            | ',' :: r4 => parseMembers f (skipWs r4) (setProp acc k v)
            | '}' :: r4 => some (.object (setProp acc k v), r4)
            | _ => none
        | _ => none := rfl

theorem parseMembers_member_more (f : Nat) (k : String) (vt : List Char) (v : JSValue)
    (hr : ReadsAs vt v) (next : List Char) (acc : List (JSString × JSValue)) :
    parseMembers (f + 2) ((quoteJSONString (jsString k) ++ ':' :: vt) ++ ',' :: '"' :: next) acc =
      parseMembers (f + 1) ('"' :: next) (setProp acc (jsString k) v) := by
  have e : (quoteJSONString (jsString k) ++ ':' :: vt) ++ ',' :: '"' :: next =
      '"' :: (quoteBody (jsString k) ++ '"' :: (':' :: (vt ++ ',' :: '"' :: next))) := by
    simp [quoteJSONString]
  obtain ⟨h1, h2⟩ := hr f (',' :: '"' :: next) rfl
  rw [e, parseMembers_quote, parseChars_quoteBody]
  simp only []
  have w1 : skipWs (':' :: (vt ++ ',' :: '"' :: next)) = ':' :: (vt ++ ',' :: '"' :: next) := by
    simp [skipWs, isJsonWs]
  have w2 : skipWs (',' :: '"' :: next) = ',' :: '"' :: next := by simp [skipWs, isJsonWs]
  have w3 : skipWs ('"' :: next) = '"' :: next := by simp [skipWs, isJsonWs]
  rw [w1]
  simp only []
  rw [h2, h1]
  simp only []
  rw [w2]
  simp only []
  rw [w3]

theorem parseMembers_member_last (f : Nat) (k : String) (vt : List Char) (v : JSValue)
    (hr : ReadsAs vt v) (rest : List Char) (acc : List (JSString × JSValue)) :
    parseMembers (f + 2) ((quoteJSONString (jsString k) ++ ':' :: vt) ++ '}' :: rest) acc =
      some (.object (setProp acc (jsString k) v), rest) := by
  have e : (quoteJSONString (jsString k) ++ ':' :: vt) ++ '}' :: rest =
      '"' :: (quoteBody (jsString k) ++ '"' :: (':' :: (vt ++ '}' :: rest))) := by
    simp [quoteJSONString]
  obtain ⟨h1, h2⟩ := hr f ('}' :: rest) rfl
  rw [e, parseMembers_quote, parseChars_quoteBody]
  simp only []
  have w1 : skipWs (':' :: (vt ++ '}' :: rest)) = ':' :: (vt ++ '}' :: rest) := by
    simp [skipWs, isJsonWs]
  have w2 : skipWs ('}' :: rest) = '}' :: rest := by simp [skipWs, isJsonWs]
  rw [w1]
  simp only []
  rw [h2, h1]
  simp only []
  rw [w2]
  rfl

theorem quoteJSONString_append (s : String) (more : List Char) :
    quoteJSONString (jsString s) ++ more = '"' :: (quoteBody (jsString s) ++ '"' :: more) := by
  simp [quoteJSONString]

theorem parseMembers_more (f : Nat) (k k2 : String) (vt : List Char) (v : JSValue)
    (hr : ReadsAs vt v) (more : List Char) (acc : List (JSString × JSValue)) :
    parseMembers (f + 2) (quoteJSONString (jsString k) ++ ':' :: (vt ++ ',' :: (quoteJSONString (jsString k2) ++ more))) acc =
      parseMembers (f + 1) (quoteJSONString (jsString k2) ++ more) (setProp acc (jsString k) v) := by
  have := parseMembers_member_more f k vt v hr (quoteBody (jsString k2) ++ '"' :: more) acc
  rw [quoteJSONString_append k2 more]
  rw [← this]
  simp

theorem parseMembers_last (f : Nat) (k : String) (vt : List Char) (v : JSValue)
    (hr : ReadsAs vt v) (rest : List Char) (acc : List (JSString × JSValue)) :
    parseMembers (f + 2) (quoteJSONString (jsString k) ++ ':' :: (vt ++ '}' :: rest)) acc =
      some (.object (setProp acc (jsString k) v), rest) := by
  have := parseMembers_member_last f k vt v hr rest acc
  rw [← this]
  simp

theorem parseValue_brace (f : Nat) (s : String) (more : List Char) :
    parseValue (f + 1) ('{' :: (quoteJSONString (jsString s) ++ more)) =
      parseMembers f (quoteJSONString (jsString s) ++ more) [] := by
  rw [quoteJSONString_append]
  rfl

/-- The characters `JSON.stringify` writes for an asset object whose credits are written
as `t`. -/
theorem serialize_recordJS (id ty farmer date : String) (cc : JSValue) (t : List Char)
    (h : serialize cc = some t) :
    serialize (recordJS id ty cc farmer date) =
      some ('{' :: (quoteJSONString (jsString "ID") ++ ':' :: (quoteJSONString (jsString id) ++ ',' ::
        (quoteJSONString (jsString "SequestrationType") ++ ':' :: (quoteJSONString (jsString ty) ++ ',' ::
        (quoteJSONString (jsString "CarbonCredits") ++ ':' :: (t ++ ',' ::
        (quoteJSONString (jsString "FarmerID") ++ ':' :: (quoteJSONString (jsString farmer) ++ ',' ::
        (quoteJSONString (jsString "IssuanceDate") ++ ':' :: (quoteJSONString (jsString date) ++ ['}']))))))))))) := by
  simp [recordJS, serialize, serializeProps, h, joinComma]

theorem setProp_asset_keys (v1 v2 v3 v4 v5 : JSValue) :
    setProp (setProp (setProp (setProp (setProp [] (jsString "ID") v1)
      (jsString "SequestrationType") v2) (jsString "CarbonCredits") v3) (jsString "FarmerID") v4)
      (jsString "IssuanceDate") v5 =
      [(jsString "ID", v1), (jsString "SequestrationType", v2), (jsString "CarbonCredits", v3),
        (jsString "FarmerID", v4), (jsString "IssuanceDate", v5)] := by
  rfl

theorem parseValue_record (g : Nat) (id ty farmer date : String) (v : JSValue) (t rest : List Char)
    (hr : ReadsAs t v) :
    parseValue (g + 7) ('{' :: (quoteJSONString (jsString "ID") ++ ':' :: (quoteJSONString (jsString id) ++ ',' ::
        (quoteJSONString (jsString "SequestrationType") ++ ':' :: (quoteJSONString (jsString ty) ++ ',' ::
        (quoteJSONString (jsString "CarbonCredits") ++ ':' :: (t ++ ',' ::
        (quoteJSONString (jsString "FarmerID") ++ ':' :: (quoteJSONString (jsString farmer) ++ ',' ::
        (quoteJSONString (jsString "IssuanceDate") ++ ':' :: (quoteJSONString (jsString date) ++ '}' :: rest))))))))))) =
      some (recordJS id ty v farmer date, rest) := by
  rw [parseValue_brace, parseMembers_more (g + 4) _ _ _ _ (readsAs_string id),
    parseMembers_more (g + 3) _ _ _ _ (readsAs_string ty),
    parseMembers_more (g + 2) _ _ _ _ hr,
    parseMembers_more (g + 1) _ _ _ _ (readsAs_string farmer),
    parseMembers_last g _ _ _ (readsAs_string date), setProp_asset_keys]
  rfl

/-- The text of an asset object is not empty and parses back to the object, with the
credits as they read back. -/
theorem parse_recordJS (id ty farmer date : String) (cc v : JSValue) (t : List Char)
    (h : serialize cc = some t) (hr : ReadsAs t v) :
    ∃ text, JSON.stringify (recordJS id ty cc farmer date) = some text ∧ text ≠ "" ∧
      JSON.parse text = .ok (recordJS id ty v farmer date) := by
  refine ⟨_, by rw [JSON.stringify, serialize_recordJS id ty farmer date cc t h]; rfl, ?_, ?_⟩
  · intro hc
    have := congrArg String.data hc
    simp at this
  · unfold JSON.parse
    have w : ∀ l : List Char, skipWs ('{' :: l) = '{' :: l := by
      intro l
      simp [skipWs, isJsonWs]
    obtain ⟨g, hg⟩ : ∃ g, (String.mk ('{' :: (quoteJSONString (jsString "ID") ++ ':' :: (quoteJSONString (jsString id) ++ ',' ::
        (quoteJSONString (jsString "SequestrationType") ++ ':' :: (quoteJSONString (jsString ty) ++ ',' ::
        (quoteJSONString (jsString "CarbonCredits") ++ ':' :: (t ++ ',' ::
        (quoteJSONString (jsString "FarmerID") ++ ':' :: (quoteJSONString (jsString farmer) ++ ',' ::
        (quoteJSONString (jsString "IssuanceDate") ++ ':' :: (quoteJSONString (jsString date) ++ ['}'])))))))))))).length + 1
          = g + 7 := by
      refine ⟨(String.mk ('{' :: (quoteJSONString (jsString "ID") ++ ':' :: (quoteJSONString (jsString id) ++ ',' ::
        (quoteJSONString (jsString "SequestrationType") ++ ':' :: (quoteJSONString (jsString ty) ++ ',' ::
        (quoteJSONString (jsString "CarbonCredits") ++ ':' :: (t ++ ',' ::
        (quoteJSONString (jsString "FarmerID") ++ ':' :: (quoteJSONString (jsString farmer) ++ ',' ::
        (quoteJSONString (jsString "IssuanceDate") ++ ':' :: (quoteJSONString (jsString date) ++ ['}'])))))))))))).length - 6, ?_⟩
      simp only [String.length, List.length_cons, List.length_append, quoteJSONString]
      omega
    rw [hg, w, parseValue_record g id ty farmer date v t [] hr]
    rfl

/-! ## `parseInt` on decimal strings -/

theorem digitValue_of_isDigit (c : Char) (h : isDigit c = true) :
    digitValue 10 c = some (c.toNat - 48) := by
  simp only [isDigit, Bool.and_eq_true, decide_eq_true_eq] at h
  unfold digitValue
  simp only []
  rw [if_pos h, if_pos (by omega)]

theorem readRadix_digits (ds : List Char) (h : ∀ c ∈ ds, isDigit c = true) (acc len : Nat) :
    readRadix 10 ds acc len = (acc * 10 ^ ds.length + readDigits ds, len + ds.length) := by
  induction ds generalizing acc len with
  | nil => simp [readRadix, readDigits]
  | cons c t ih =>
    have hc := h c (List.mem_cons_self _ _)
    have ht := ih (fun d hd => h d (List.mem_cons_of_mem _ hd))
    simp only [readRadix, digitValue_of_isDigit c hc]
    rw [ht]
    have e : readDigits (c :: t) = readDigits [c] * 10 ^ t.length + readDigits t :=
      readDigits_append [c] t
    rw [e, readDigits_singleton]
    simp only [List.length_cons, Prod.mk.injEq]
    constructor
    · rw [pow_succ]; ring
    · omega

theorem isStrWhiteSpace_digit (c : Char) (h : isDigit c = true) : isStrWhiteSpace c = false := by
  simp only [isDigit, Bool.and_eq_true, decide_eq_true_eq] at h
  simp [isStrWhiteSpace]
  omega

/-- `parseInt` of a non-empty string of decimal digits is the Number value of the integer
they denote. -/
theorem parseInt_digits (ds : List Char) (h : ∀ c ∈ ds, isDigit c = true) (hne : ds ≠ []) :
    parseInt (String.mk ds) = ofMathInt false (readDigits ds) := by
  cases ds with
  | nil => exact absurd rfl hne
  | cons c t =>
    have hc := h c (List.mem_cons_self _ _)
    have n1 : c ≠ '-' := by rintro rfl; exact absurd hc (by decide)
    have n2 : c ≠ '+' := by rintro rfl; exact absurd hc (by decide)
    have hx : ∀ r, t ≠ 'x' :: r := by
      rintro r rfl
      exact absurd (h 'x' (by simp)) (by decide)
    have hX : ∀ r, t ≠ 'X' :: r := by
      rintro r rfl
      exact absurd (h 'X' (by simp)) (by decide)
    have hS : trimStart (c :: t) = c :: t := by
      simp [trimStart, isStrWhiteSpace_digit c hc]
    have hneg : startsWithMinus (c :: t) = false := by
      unfold startsWithMinus
      split
      · rename_i heq; simp at heq; exact absurd heq.1 n1
      · rfl
    have hS1 : dropSign (c :: t) = c :: t := by
      unfold dropSign
      split
      · rename_i heq; simp at heq; exact absurd heq.1 n1
      · rename_i heq; simp at heq; exact absurd heq.1 n2
      · rfl
    have hhex : hasHexPrefix (c :: t) = false := by
      unfold hasHexPrefix
      split
      · rename_i heq; simp at heq; exact absurd heq.2 (hx _)
      · rename_i heq; simp at heq; exact absurd heq.2 (hX _)
      · rfl
    unfold parseInt
    simp only [hS, hneg, hS1, hhex, Bool.false_eq_true, if_false]
    rw [readRadix_digits (c :: t) h 0 0]
    simp

theorem parseInt_toString (n : Nat) : parseInt (toString n) = ofMathInt false n := by
  obtain ⟨h1, h2, h3, _⟩ := toDigits_spec n
  have : toString n = String.mk (Nat.toDigits 10 n) := rfl
  rw [this, parseInt_digits _ h1 h3, h2]

/-! ## Writing an asset -/

theorem writtenCredits_parseInt (string : String) : WrittenCredits (parseInt string) :=
  parseInt_cases string

theorem serialize_written (x : JSNumber) (h : WrittenCredits x) :
    ∃ t, serialize (.number x) = some t ∧ serialize (reparsedNumber x) = some t ∧
      ReadsAs t (reparsedNumber x) := by
  rcases h with h | ⟨neg, m, h⟩
  · rw [h]
    exact ⟨"null".data, rfl, rfl, readsAs_null⟩
  · rw [h]
    exact serialize_ofMathInt neg m

theorem Asset.toJS_eq (a : Asset) :
    a.toJS = recordJS a.ID a.SequestrationType (.number a.CarbonCredits) a.FarmerID a.IssuanceDate :=
  rfl

/-- What `CreateAsset` does, for any arguments: it stores and returns the text of the
asset object, which parses back to the object with the credits as they read back. -/
theorem CreateAsset_spec (ctx : Ledger) (id ty credits farmer date : String) :
    ∃ text, CreateAsset ctx id ty credits farmer date = (.ok text, putState ctx id text) ∧
      JSON.stringify (Asset.toJS ⟨id, ty, parseInt credits, farmer, date⟩) = some text ∧
      text ≠ "" ∧
      JSON.parse text = .ok (recordJS id ty (reparsedNumber (parseInt credits)) farmer date) := by
  obtain ⟨t, h1, _, h3⟩ := serialize_written _ (writtenCredits_parseInt credits)
  obtain ⟨text, e1, e2, e3⟩ := parse_recordJS id ty farmer date _ _ t h1 h3
  refine ⟨text, ?_, e1, e2, e3⟩
  have : JSON.stringify (Asset.toJS ⟨id, ty, parseInt credits, farmer, date⟩) = some text := e1
  simp only [CreateAsset, bufferFromJSON, this]

theorem UpdateAsset_of_exists (ctx : Ledger) (id ty credits farmer date : String)
    (h : AssetExists ctx id = true) :
    UpdateAsset ctx id ty credits farmer date = CreateAsset ctx id ty credits farmer date := by
  simp [UpdateAsset, CreateAsset, h]

theorem AssetExists_of_present (ctx : Ledger) (id v : String) (h : getState ctx id = some v)
    (hne : v ≠ "") : AssetExists ctx id = true := by
  have hlen : v.length ≠ 0 := by
    intro h0
    exact hne (String.ext (List.length_eq_zero.1 h0))
  simp [AssetExists, h]
  omega

/-! ## Create, then read -/

theorem parseInt_toString_exact (n : Nat) (hn : roundNat n = n) (hlt : n < overflowBound) :
    parseInt (toString n) = .fin (n : ℚ) := by
  rw [parseInt_toString]
  by_cases h0 : n = 0
  · subst h0
    simp [ofMathInt]
  · rw [ofMathInt_of_double false n h0 hn hlt]
    simp [signedValue]

/-- C1, counterexample: for n = 2^53 + 1 the credits string is the decimal form of n, yet
`CreateAsset` then `ReadAsset` returns a record whose `CarbonCredits` is 2^53, because
`parseInt` yields the nearest double. -/
theorem create_rounds_large_credits :
    toString (9007199254740993 : Nat) = "9007199254740993" ∧
    (ReadAsset (CreateAsset Ledger.empty "a1" "agroforestry" "9007199254740993" "farmer08"
        "2025-08-03").2 "a1").1.toOption =
      some "\x7b\"ID\":\"a1\",\"SequestrationType\":\"agroforestry\",\"CarbonCredits\":9007199254740992,\"FarmerID\":\"farmer08\",\"IssuanceDate\":\"2025-08-03\"\x7d" ∧
    parseInt "9007199254740993" = .fin 9007199254740992 ∧
    (JSNumber.fin 9007199254740992 ≠ JSNumber.fin 9007199254740993) := by
  refine ⟨by decide, by decide!, by decide!, by decide!⟩

/-- C1, amended: for every ledger state (whatever it holds under `id`), all strings `id`,
type, farmer, date, and every non-negative integer `n` that is exactly a double (every
`n ≤ 2^53` is), `CreateAsset` with the decimal form of `n` succeeds without existence
check, and the following `ReadAsset(id)` returns the text of exactly the record with
`CarbonCredits` the number `n`, which replaces what was stored under `id`. -/
theorem create_then_read (ctx : Ledger) (id sequestrationType farmerID issuanceDate : String)
    (n : Nat) (hn : roundNat n = n) (hlt : n < overflowBound) :
    ∃ text,
      CreateAsset ctx id sequestrationType (toString n) farmerID issuanceDate =
        (.ok text, putState ctx id text) ∧
      ReadAsset (putState ctx id text) id = (.ok text, putState ctx id text) ∧
      JSON.stringify (Asset.toJS ⟨id, sequestrationType, .fin (n : ℚ), farmerID, issuanceDate⟩) =
        some text ∧
      JSON.parse text =
        .ok (Asset.toJS ⟨id, sequestrationType, .fin (n : ℚ), farmerID, issuanceDate⟩) := by
  obtain ⟨text, h1, h2, h3, h4⟩ :=
    CreateAsset_spec ctx id sequestrationType (toString n) farmerID issuanceDate
  rw [parseInt_toString_exact n hn hlt] at h2 h4
  exact ⟨text, h1, ReadAsset_putState ctx id text h3, h2, h4⟩

theorem create_then_read_witness :
    roundNat 200 = 200 ∧ 200 < overflowBound ∧
    ∃ text,
      CreateAsset Ledger.empty "a1" "agroforestry" (toString 200) "farmer08" "2025-08-03" =
        (.ok text, putState Ledger.empty "a1" text) ∧
      ReadAsset (putState Ledger.empty "a1" text) "a1" = (.ok text, putState Ledger.empty "a1" text) ∧
      JSON.stringify (Asset.toJS ⟨"a1", "agroforestry", .fin ((200 : Nat) : ℚ), "farmer08",
        "2025-08-03"⟩) = some text ∧
      JSON.parse text =
        .ok (Asset.toJS ⟨"a1", "agroforestry", .fin ((200 : Nat) : ℚ), "farmer08", "2025-08-03"⟩) :=
  ⟨by decide, by decide, create_then_read Ledger.empty "a1" "agroforestry" "farmer08" "2025-08-03" 200
    (by decide) (by decide)⟩

/-! ## Update, and the coercion of credits -/

/-- C6, counterexample: on a present key, `UpdateAsset` with the decimal form of
n = 2^53 + 1 stores a record whose `CarbonCredits` is 2^53, not n. -/
theorem update_rounds_large_credits :
    AssetExists (putState Ledger.empty "a1" "x") "a1" = true ∧
    (ReadAsset (UpdateAsset (putState Ledger.empty "a1" "x") "a1" "agroforestry"
        (toString (9007199254740993 : Nat)) "farmer08" "2025-08-03").2 "a1").1.toOption =
      some "\x7b\"ID\":\"a1\",\"SequestrationType\":\"agroforestry\",\"CarbonCredits\":9007199254740992,\"FarmerID\":\"farmer08\",\"IssuanceDate\":\"2025-08-03\"\x7d" ∧
    parseInt (toString (9007199254740993 : Nat)) = .fin 9007199254740992 ∧
    (JSNumber.fin 9007199254740992 ≠ JSNumber.fin 9007199254740993) := by
  refine ⟨by decide, by decide!, by decide!, by decide!⟩

/-- C6, amended: when `id` holds a non-empty value, for all type, farmer and date strings
and every non-negative integer `n` that is exactly a double (every `n ≤ 2^53` is),
`UpdateAsset` with the decimal form of `n` succeeds and the following `ReadAsset(id)`
returns the text of exactly the record with `CarbonCredits` the number `n`, whatever was
stored before: the same text `CreateAsset` with these arguments stores. -/
theorem update_present_overwrites (ctx : Ledger)
    (id stored sequestrationType farmerID issuanceDate : String) (n : Nat)
    (hpresent : getState ctx id = some stored) (hne : stored ≠ "")
    (hn : roundNat n = n) (hlt : n < overflowBound) :
    ∃ text,
      UpdateAsset ctx id sequestrationType (toString n) farmerID issuanceDate =
        (.ok text, putState ctx id text) ∧
      ReadAsset (putState ctx id text) id = (.ok text, putState ctx id text) ∧
      JSON.stringify (Asset.toJS ⟨id, sequestrationType, .fin (n : ℚ), farmerID, issuanceDate⟩) =
        some text ∧
      JSON.parse text =
        .ok (Asset.toJS ⟨id, sequestrationType, .fin (n : ℚ), farmerID, issuanceDate⟩) ∧
      CreateAsset ctx id sequestrationType (toString n) farmerID issuanceDate =
        (.ok text, putState ctx id text) := by
  obtain ⟨text, h1, h2, h3, h4⟩ :=
    CreateAsset_spec ctx id sequestrationType (toString n) farmerID issuanceDate
  rw [parseInt_toString_exact n hn hlt] at h2 h4
  refine ⟨text, ?_, ReadAsset_putState ctx id text h3, h2, h4, h1⟩
  rw [UpdateAsset_of_exists ctx id _ _ _ _ (AssetExists_of_present ctx id stored hpresent hne), h1]

theorem update_present_overwrites_witness :
    getState (putState Ledger.empty "a1" "x") "a1" = some "x" ∧
    ∃ text,
      UpdateAsset (putState Ledger.empty "a1" "x") "a1" "tree-planting" (toString 50) "farmerX"
        "2025-08-01" = (.ok text, putState (putState Ledger.empty "a1" "x") "a1" text) ∧
      JSON.parse text =
        .ok (Asset.toJS ⟨"a1", "tree-planting", .fin ((50 : Nat) : ℚ), "farmerX", "2025-08-01"⟩) := by
  obtain ⟨text, h1, _, _, h4, _⟩ := update_present_overwrites (putState Ledger.empty "a1" "x")
    "a1" "x" "tree-planting" "farmerX" "2025-08-01" 50 rfl (by decide) (by decide) (by decide)
  exact ⟨rfl, text, h1, h4⟩

/-- C8, counterexample: credits `abc` are stored as `CarbonCredits: null` (`parseInt` gives
`NaN`) and credits `-5` as the negative integer -5; neither is a non-negative integer. -/
theorem create_stores_null_and_negative_credits :
    (CreateAsset Ledger.empty "a1" "agroforestry" "abc" "farmer08" "2025-08-03").1.toOption =
      some "\x7b\"ID\":\"a1\",\"SequestrationType\":\"agroforestry\",\"CarbonCredits\":null,\"FarmerID\":\"farmer08\",\"IssuanceDate\":\"2025-08-03\"\x7d" ∧
    parseInt "abc" = .nan ∧
    (CreateAsset Ledger.empty "a1" "agroforestry" "-5" "farmer08" "2025-08-03").1.toOption =
      some "\x7b\"ID\":\"a1\",\"SequestrationType\":\"agroforestry\",\"CarbonCredits\":-5,\"FarmerID\":\"farmer08\",\"IssuanceDate\":\"2025-08-03\"\x7d" ∧
    parseInt "-5" = .fin (-5) := by
  refine ⟨by decide!, by decide!, by decide!, by decide!⟩

theorem reparsedNumber_written (x : JSNumber) (h : WrittenCredits x) :
    reparsedNumber x = .null ∨ ∃ i : Int, reparsedNumber x = .number (.fin (i : ℚ)) := by
  rcases h with h | ⟨neg, m, h⟩
  · rw [h]; exact Or.inl rfl
  · rw [h]
    by_cases hm : m = 0
    · subst hm
      right
      refine ⟨0, ?_⟩
      cases neg <;> simp [ofMathInt, reparsedNumber]
    · by_cases hlt : roundNat m < overflowBound
      · rw [ofMathInt_eq neg m hm hlt]
        right
        cases neg
        · exact ⟨(roundNat m : Int), by simp [reparsedNumber, signedValue]⟩
        · exact ⟨-(roundNat m : Int), by simp [reparsedNumber, signedValue]⟩
      · left
        have e : ofMathInt neg m = if neg then .negInf else .posInf := by
          unfold ofMathInt
          rw [if_neg hm]
          simp only []
          rw [if_pos (by omega)]
        rw [e]
        cases neg <;> rfl

/-- C8, amended: for every credits string `CreateAsset` does not reject the input, nor does
`UpdateAsset` on an existing key; the stored record has `CarbonCredits` equal to what
`parseInt` gives, read back as `null` (no leading digits, or overflow) or as an integer,
which may be negative. -/
theorem credits_coerced_not_validated (ctx : Ledger)
    (id sequestrationType carbonCredits farmerID issuanceDate : String) :
    (∃ text,
      CreateAsset ctx id sequestrationType carbonCredits farmerID issuanceDate =
        (.ok text, putState ctx id text) ∧
      (AssetExists ctx id = true →
        UpdateAsset ctx id sequestrationType carbonCredits farmerID issuanceDate =
          (.ok text, putState ctx id text)) ∧
      JSON.stringify
        (Asset.toJS ⟨id, sequestrationType, parseInt carbonCredits, farmerID, issuanceDate⟩) =
          some text ∧
      JSON.parse text = .ok (recordJS id sequestrationType (reparsedNumber (parseInt carbonCredits))
        farmerID issuanceDate)) ∧
    (reparsedNumber (parseInt carbonCredits) = .null ∨
      ∃ i : Int, reparsedNumber (parseInt carbonCredits) = .number (.fin (i : ℚ))) := by
  obtain ⟨text, h1, h2, _, h4⟩ :=
    CreateAsset_spec ctx id sequestrationType carbonCredits farmerID issuanceDate
  refine ⟨⟨text, h1, ?_, h2, h4⟩, reparsedNumber_written _ (writtenCredits_parseInt _)⟩
  intro hex
  rw [UpdateAsset_of_exists ctx id _ _ _ _ hex, h1]


theorem credits_coerced_not_validated_witness :
    AssetExists (putState Ledger.empty "a1" "x") "a1" = true ∧
    ∃ text,
      UpdateAsset (putState Ledger.empty "a1" "x") "a1" "agroforestry" "abc" "farmer08"
        "2025-08-03" = (.ok text, putState (putState Ledger.empty "a1" "x") "a1" text) ∧
      JSON.parse text =
        .ok (recordJS "a1" "agroforestry" (reparsedNumber (parseInt "abc")) "farmer08"
          "2025-08-03") := by
  obtain ⟨⟨text, _, h2, _, h4⟩, _⟩ := credits_coerced_not_validated
    (putState Ledger.empty "a1" "x") "a1" "agroforestry" "abc" "farmer08" "2025-08-03"
  exact ⟨rfl, text, h2 rfl, h4⟩

/-! ## Transfer -/

theorem getMember_record (id ty farmer date : String) (v : JSValue) :
    getMember (recordJS id ty v farmer date) "FarmerID" = .ok (.string farmer) := by
  rfl

theorem setMember_record (id ty farmer date newOwner : String) (v : JSValue) :
    setMember (recordJS id ty v farmer date) "FarmerID" (.string newOwner) =
      .ok (recordJS id ty v newOwner date) := by
  rfl

/-- C3: when `id` holds the text of an asset record as `InitLedger`, `CreateAsset` or
`UpdateAsset` write it (credits any value `parseInt` can give), `TransferAsset(id, newOwner)`
returns the record's former `FarmerID`, and the following `ReadAsset(id)` returns the text
of the same record with `FarmerID` replaced by `newOwner`: `ID`, `SequestrationType`,
`CarbonCredits` and `IssuanceDate` read back as before the call. -/
theorem transfer_changes_owner_only (ctx : Ledger) (id newOwnerID text : String) (a : Asset)
    (hw : WrittenCredits a.CarbonCredits) (hs : JSON.stringify a.toJS = some text)
    (hg : getState ctx id = some text) :
    ∃ text',
      TransferAsset ctx id newOwnerID = (.ok (.string a.FarmerID), putState ctx id text') ∧
      ReadAsset (putState ctx id text') id = (.ok text', putState ctx id text') ∧
      JSON.stringify (Asset.toJS { a with FarmerID := newOwnerID }) = some text' ∧
      JSON.parse text = .ok (recordJS a.ID a.SequestrationType (reparsedNumber a.CarbonCredits)
        a.FarmerID a.IssuanceDate) ∧
      JSON.parse text' = .ok (recordJS a.ID a.SequestrationType (reparsedNumber a.CarbonCredits)
        newOwnerID a.IssuanceDate) := by
  obtain ⟨t, h1, h2, h3⟩ := serialize_written _ hw
  obtain ⟨tx, e1, e2, e3⟩ := parse_recordJS a.ID a.SequestrationType a.FarmerID a.IssuanceDate
    (.number a.CarbonCredits) _ t h1 h3
  have htx : tx = text := by
    rw [Asset.toJS_eq] at hs
    rw [hs] at e1
    exact (Option.some.inj e1).symm
  subst htx
  obtain ⟨tx', f1, f2, f3⟩ := parse_recordJS a.ID a.SequestrationType newOwnerID a.IssuanceDate
    (.number a.CarbonCredits) _ t h1 h3
  obtain ⟨tx2, g1, _, _⟩ := parse_recordJS a.ID a.SequestrationType newOwnerID a.IssuanceDate
    (reparsedNumber a.CarbonCredits) _ t h2 h3
  have hsame : tx2 = tx' := by
    have a1 := serialize_recordJS a.ID a.SequestrationType newOwnerID a.IssuanceDate _ t h1
    have a2 := serialize_recordJS a.ID a.SequestrationType newOwnerID a.IssuanceDate _ t h2
    simp only [JSON.stringify, a1, a2, Option.map_some', Option.some.injEq] at f1 g1
    rw [← f1, ← g1]
  subst hsame
  refine ⟨tx2, ?_, ReadAsset_putState ctx id tx2 f2, f1, e3, f3⟩
  have hr : ReadAsset ctx id = (.ok tx, ctx) := ReadAsset_of_getState ctx id tx hg e2
  simp only [TransferAsset, hr, e3, getMember_record, setMember_record, bufferFromJSON, g1]

theorem transfer_changes_owner_only_witness :
    WrittenCredits (JSNumber.fin 100) ∧
    ∃ text',
      TransferAsset (CreateAsset Ledger.empty "a1" "pasture-restoration" "100" "farmer001"
          "2025-08-01").2 "a1" "CarbonMarketplace" =
        (.ok (.string "farmer001"),
          putState (CreateAsset Ledger.empty "a1" "pasture-restoration" "100" "farmer001"
            "2025-08-01").2 "a1" text') ∧
      JSON.parse text' = .ok (recordJS "a1" "pasture-restoration" (.number (.fin 100))
        "CarbonMarketplace" "2025-08-01") := by
  have hw : WrittenCredits (JSNumber.fin 100) := Or.inr ⟨false, 100, by decide!⟩
  obtain ⟨text', h1, _, _, _, h5⟩ := transfer_changes_owner_only
    (CreateAsset Ledger.empty "a1" "pasture-restoration" "100" "farmer001" "2025-08-01").2
    "a1" "CarbonMarketplace"
    "\x7b\"ID\":\"a1\",\"SequestrationType\":\"pasture-restoration\",\"CarbonCredits\":100,\"FarmerID\":\"farmer001\",\"IssuanceDate\":\"2025-08-01\"\x7d"
    ⟨"a1", "pasture-restoration", .fin 100, "farmer001", "2025-08-01"⟩ hw (by decide!) (by decide!)
  exact ⟨hw, text', h1, h5⟩

/-! ## Writes touch only their own key -/

theorem CreateAsset_ledger (ctx : Ledger) (id ty credits farmer date : String) :
    ∃ text, (CreateAsset ctx id ty credits farmer date).2 = putState ctx id text := by
  obtain ⟨text, h, _⟩ := CreateAsset_spec ctx id ty credits farmer date
  exact ⟨text, by rw [h]⟩

theorem UpdateAsset_ledger (ctx : Ledger) (id ty credits farmer date : String) :
    (UpdateAsset ctx id ty credits farmer date).2 = ctx ∨
      ∃ text, (UpdateAsset ctx id ty credits farmer date).2 = putState ctx id text := by
  by_cases h : AssetExists ctx id = true
  · right
    rw [UpdateAsset_of_exists ctx id ty credits farmer date h]
    exact CreateAsset_ledger ctx id ty credits farmer date
  · left
    simp [UpdateAsset, h]

theorem DeleteAsset_ledger (ctx : Ledger) (id : String) :
    (DeleteAsset ctx id).2 = ctx ∨ (DeleteAsset ctx id).2 = deleteState ctx id := by
  by_cases h : AssetExists ctx id = true
  · right
    simp [DeleteAsset, h]
  · left
    simp [DeleteAsset, h]

theorem ReadAsset_ledger (ctx : Ledger) (id : String) : (ReadAsset ctx id).2 = ctx := by
  unfold ReadAsset
  split
  · rfl
  · split <;> rfl

theorem TransferAsset_ledger (ctx : Ledger) (id newOwnerID : String) :
    (TransferAsset ctx id newOwnerID).2 = ctx ∨
      ∃ text, (TransferAsset ctx id newOwnerID).2 = putState ctx id text := by
  have hr := ReadAsset_ledger ctx id
  unfold TransferAsset
  rcases hread : ReadAsset ctx id with ⟨r, c⟩
  rw [hread] at hr
  simp only at hr
  subst hr
  cases r with
  | error e => left; rfl
  | ok assetString =>
    simp only []
    cases JSON.parse assetString with
    | error e => left; rfl
    | ok asset =>
      simp only []
      cases getMember asset "FarmerID" with
      | error e => left; rfl
      | ok oldOwner =>
        simp only []
        cases setMember asset "FarmerID" (.string newOwnerID) with
        | error e => left; rfl
        | ok asset' =>
          simp only []
          cases bufferFromJSON asset' with
          | error e => left; rfl
          | ok text => right; exact ⟨text, rfl⟩

/-- C14: for every ledger state and every key `k` other than `id`, `CreateAsset`,
`UpdateAsset`, `DeleteAsset` and `TransferAsset` on `id`, succeeding or failing, leave the
value stored under `k` and its presence unchanged; and when `id` is absent, `UpdateAsset`,
`DeleteAsset` and `TransferAsset` leave the whole ledger unchanged. -/
theorem writes_touch_only_their_key (ctx : Ledger) (id k : String) (hk : k ≠ id) :
    (∀ sequestrationType carbonCredits farmerID issuanceDate : String,
      getState (CreateAsset ctx id sequestrationType carbonCredits farmerID issuanceDate).2 k =
        getState ctx k ∧
      getState (UpdateAsset ctx id sequestrationType carbonCredits farmerID issuanceDate).2 k =
        getState ctx k) ∧
    getState (DeleteAsset ctx id).2 k = getState ctx k ∧
    (∀ newOwnerID : String, getState (TransferAsset ctx id newOwnerID).2 k = getState ctx k) ∧
    (∀ sequestrationType carbonCredits farmerID issuanceDate : String,
      AssetExists (CreateAsset ctx id sequestrationType carbonCredits farmerID issuanceDate).2 k =
        AssetExists ctx k ∧
      AssetExists (UpdateAsset ctx id sequestrationType carbonCredits farmerID issuanceDate).2 k =
        AssetExists ctx k) ∧
    AssetExists (DeleteAsset ctx id).2 k = AssetExists ctx k ∧
    (∀ newOwnerID : String, AssetExists (TransferAsset ctx id newOwnerID).2 k = AssetExists ctx k) ∧
    ((getState ctx id = none ∨ getState ctx id = some "") →
      (∀ sequestrationType carbonCredits farmerID issuanceDate : String,
        (UpdateAsset ctx id sequestrationType carbonCredits farmerID issuanceDate).2 = ctx) ∧
      (DeleteAsset ctx id).2 = ctx ∧
      (∀ newOwnerID : String, (TransferAsset ctx id newOwnerID).2 = ctx)) := by
  have hput : ∀ text, getState (putState ctx id text) k = getState ctx k := by
    intro text
    rw [getState_putState, if_neg hk]
  have hdel : getState (deleteState ctx id) k = getState ctx k := by
    rw [getState_deleteState, if_neg hk]
  have hc : ∀ t c f d, getState (CreateAsset ctx id t c f d).2 k = getState ctx k := by
    intro t c f d
    obtain ⟨text, h⟩ := CreateAsset_ledger ctx id t c f d
    rw [h, hput]
  have hu : ∀ t c f d, getState (UpdateAsset ctx id t c f d).2 k = getState ctx k := by
    intro t c f d
    rcases UpdateAsset_ledger ctx id t c f d with h | ⟨text, h⟩
    · rw [h]
    · rw [h, hput]
  have hd : getState (DeleteAsset ctx id).2 k = getState ctx k := by
    rcases DeleteAsset_ledger ctx id with h | h
    · rw [h]
    · rw [h, hdel]
  have ht : ∀ n, getState (TransferAsset ctx id n).2 k = getState ctx k := by
    intro n
    rcases TransferAsset_ledger ctx id n with h | ⟨text, h⟩
    · rw [h]
    · rw [h, hput]
  have hex : ∀ c' : Ledger, getState c' k = getState ctx k → AssetExists c' k = AssetExists ctx k := by
    intro c' h
    simp only [AssetExists, h]
  refine ⟨fun t c f d => ⟨hc t c f d, hu t c f d⟩, hd, ht,
    fun t c f d => ⟨hex _ (hc t c f d), hex _ (hu t c f d)⟩, hex _ hd, fun n => hex _ (ht n), ?_⟩
  intro habsent
  have hno := AssetExists_false_of_absent ctx id habsent
  have hrd := ReadAsset_of_absent ctx id habsent
  refine ⟨?_, ?_, ?_⟩
  · intro t c f d
    simp [UpdateAsset, hno]
  · simp [DeleteAsset, hno]
  · intro n
    simp [TransferAsset, hrd]

theorem writes_touch_only_their_key_witness :
    "carbonAsset2" ≠ "carbonAsset1" ∧
    getState (DeleteAsset (InitLedger Ledger.empty).2 "carbonAsset1").2 "carbonAsset2" =
      getState (InitLedger Ledger.empty).2 "carbonAsset2" :=
  ⟨by decide, (writes_touch_only_their_key (InitLedger Ledger.empty).2 "carbonAsset1" "carbonAsset2"
    (by decide)).2.1⟩

/-! ## Reachable ledgers hold records under their own `ID` -/

theorem storedRecord_of_written (k ty farmer date text : String) (x : JSNumber)
    (hw : WrittenCredits x)
    (hs : JSON.stringify (Asset.toJS ⟨k, ty, x, farmer, date⟩) = some text) :
    StoredRecord k text := by
  obtain ⟨t, h1, h2, h3⟩ := serialize_written x hw
  refine ⟨ty, farmer, date, reparsedNumber x, t, h2, h3, ?_⟩
  rw [Asset.toJS_eq] at hs
  have a1 := serialize_recordJS k ty farmer date _ t h1
  have a2 := serialize_recordJS k ty farmer date _ t h2
  simp only [JSON.stringify, a1, a2] at hs ⊢
  exact hs

theorem storedRecord_parse (k v : String) (h : StoredRecord k v) :
    v ≠ "" ∧ ∃ (ty farmer date : String) (cv : JSValue) (t : List Char),
      serialize cv = some t ∧ ReadsAs t cv ∧
      JSON.stringify (recordJS k ty cv farmer date) = some v ∧
      JSON.parse v = .ok (recordJS k ty cv farmer date) := by
  obtain ⟨ty, farmer, date, cv, t, h1, h2, h3⟩ := h
  obtain ⟨text, e1, e2, e3⟩ := parse_recordJS k ty farmer date cv cv t h1 h2
  have : text = v := by
    rw [h3] at e1
    exact (Option.some.inj e1).symm
  subst this
  exact ⟨e2, ty, farmer, date, cv, t, h1, h2, h3, e3⟩

theorem recordsKeyed_putState (ctx : Ledger) (id text : String) (h : RecordsKeyed ctx)
    (hs : StoredRecord id text) : RecordsKeyed (putState ctx id text) := by
  intro k v hk
  rw [getState_putState] at hk
  by_cases e : k = id
  · subst e
    simp only [if_true] at hk
    rw [← Option.some.inj hk]
    exact hs
  · rw [if_neg e] at hk
    exact h k v hk

theorem recordsKeyed_deleteState (ctx : Ledger) (id : String) (h : RecordsKeyed ctx) :
    RecordsKeyed (deleteState ctx id) := by
  intro k v hk
  rw [getState_deleteState] at hk
  by_cases e : k = id
  · rw [if_pos e] at hk
    exact Option.noConfusion hk
  · rw [if_neg e] at hk
    exact h k v hk

theorem recordsKeyed_create (ctx : Ledger) (id ty credits farmer date : String)
    (h : RecordsKeyed ctx) : RecordsKeyed (CreateAsset ctx id ty credits farmer date).2 := by
  obtain ⟨text, h1, h2, _⟩ := CreateAsset_spec ctx id ty credits farmer date
  rw [h1]
  exact recordsKeyed_putState ctx id text h
    (storedRecord_of_written id ty farmer date text _ (writtenCredits_parseInt credits) h2)

theorem recordsKeyed_update (ctx : Ledger) (id ty credits farmer date : String)
    (h : RecordsKeyed ctx) : RecordsKeyed (UpdateAsset ctx id ty credits farmer date).2 := by
  by_cases hex : AssetExists ctx id = true
  · rw [UpdateAsset_of_exists ctx id ty credits farmer date hex]
    exact recordsKeyed_create ctx id ty credits farmer date h
  · have : (UpdateAsset ctx id ty credits farmer date).2 = ctx := by simp [UpdateAsset, hex]
    rw [this]
    exact h

theorem recordsKeyed_delete (ctx : Ledger) (id : String) (h : RecordsKeyed ctx) :
    RecordsKeyed (DeleteAsset ctx id).2 := by
  rcases DeleteAsset_ledger ctx id with e | e
  · rw [e]; exact h
  · rw [e]; exact recordsKeyed_deleteState ctx id h

theorem written_seed (q : Nat) (hq : q ≠ 0) (h : q ≤ 2 ^ 53) : WrittenCredits (.fin (q : ℚ)) := by
  refine Or.inr ⟨false, q, ?_⟩
  have hlt : q < overflowBound := by
    have : (2 : Nat) ^ 53 < overflowBound := by decide
    omega
  rw [ofMathInt_of_double false q hq (roundNat_of_le q h) hlt]
  simp [signedValue]

theorem recordsKeyed_init (ctx : Ledger) (h : RecordsKeyed ctx) :
    RecordsKeyed (InitLedger ctx).2 := by
  rw [InitLedger_eq]
  have w1 : WrittenCredits (.fin ((120 : Nat) : ℚ)) := written_seed 120 (by decide) (by decide)
  have w2 : WrittenCredits (.fin ((90 : Nat) : ℚ)) := written_seed 90 (by decide) (by decide)
  have w3 : WrittenCredits (.fin ((200 : Nat) : ℚ)) := written_seed 200 (by decide) (by decide)
  have w4 : WrittenCredits (.fin ((75 : Nat) : ℚ)) := written_seed 75 (by decide) (by decide)
  have s1 := storedRecord_of_written "carbonAsset1" "pasture-restoration" "kisumu_farmer01"
    "2025-08-01" seedText1 _ w1 (by decide!)
  have s2 := storedRecord_of_written "carbonAsset2" "livestock-methane-reduction"
    "eldoret_farmer22" "2025-08-02" seedText2 _ w2 (by decide!)
  have s3 := storedRecord_of_written "carbonAsset3" "agroforestry" "nyeri_farmer08"
    "2025-08-03" seedText3 _ w3 (by decide!)
  have s4 := storedRecord_of_written "carbonAsset4" "biochar-soil-enrichment" "narok_farmer15"
    "2025-08-04" seedText4 _ w4 (by decide!)
  unfold seeded
  exact recordsKeyed_putState _ _ _ (recordsKeyed_putState _ _ _ (recordsKeyed_putState _ _ _
    (recordsKeyed_putState _ _ _ h s1) s2) s3) s4

theorem recordsKeyed_transfer (ctx : Ledger) (id newOwnerID : String) (h : RecordsKeyed ctx) :
    RecordsKeyed (TransferAsset ctx id newOwnerID).2 := by
  cases hg : getState ctx id with
  | none =>
    have hrd := ReadAsset_of_absent ctx id (Or.inl hg)
    have : (TransferAsset ctx id newOwnerID).2 = ctx := by simp [TransferAsset, hrd]
    rw [this]
    exact h
  | some v =>
    obtain ⟨hne, ty, farmer, date, cv, t, h1, h2, _, h4⟩ := storedRecord_parse id v (h id v hg)
    obtain ⟨text', f1, _, _⟩ := parse_recordJS id ty newOwnerID date cv cv t h1 h2
    have hr : ReadAsset ctx id = (.ok v, ctx) := ReadAsset_of_getState ctx id v hg hne
    have : (TransferAsset ctx id newOwnerID).2 = putState ctx id text' := by
      simp only [TransferAsset, hr, h4, getMember_record, setMember_record, bufferFromJSON, f1]
    rw [this]
    exact recordsKeyed_putState ctx id text' h ⟨ty, newOwnerID, date, cv, t, h1, h2, f1⟩

theorem recordsKeyed_of_reachable (ctx : Ledger) (h : Reachable ctx) : RecordsKeyed ctx := by
  induction h with
  | empty =>
    intro k v hk
    exact Option.noConfusion hk
  | init c _ ih => exact recordsKeyed_init c ih
  | create c id t cr f d _ ih => exact recordsKeyed_create c id t cr f d ih
  | update c id t cr f d _ ih => exact recordsKeyed_update c id t cr f d ih
  | delete c id _ ih => exact recordsKeyed_delete c id ih
  | transfer c id n _ ih => exact recordsKeyed_transfer c id n ih

/-- C15: in every ledger reached from the empty one by calls of `InitLedger`, `CreateAsset`,
`UpdateAsset`, `DeleteAsset` and `TransferAsset` (any arguments, failed calls included),
every present key `k` holds a value that `ReadAsset(k)` returns and that parses as an asset
object whose `ID` is `k`; that object is the entry of `GetAllAssets` for `k`. -/
theorem reachable_records_keyed_by_id (ctx : Ledger) (hreach : Reachable ctx) (k : String)
    (hpresent : AssetExists ctx k = true) :
    ∃ (v sequestrationType farmerID issuanceDate : String) (credits : JSValue),
      getState ctx k = some v ∧
      ReadAsset ctx k = (.ok v, ctx) ∧
      JSON.parse v = .ok (recordJS k sequestrationType credits farmerID issuanceDate) ∧
      getMember (recordJS k sequestrationType credits farmerID issuanceDate) "ID" =
        .ok (.string k) ∧
      decodeRecord v = recordJS k sequestrationType credits farmerID issuanceDate ∧
      recordJS k sequestrationType credits farmerID issuanceDate ∈ allResults ctx := by
  cases hg : getState ctx k with
  | none => simp [AssetExists, hg] at hpresent
  | some v =>
    have hinv := recordsKeyed_of_reachable ctx hreach
    obtain ⟨hne, ty, farmer, date, cv, t, _, _, _, h4⟩ := storedRecord_parse k v (hinv k v hg)
    have hd : decodeRecord v = recordJS k ty cv farmer date := decodeRecord_of_ok v _ h4
    refine ⟨v, ty, farmer, date, cv, rfl, ReadAsset_of_getState ctx k v hg hne, h4, rfl, hd, ?_⟩
    have hm : (k, v) ∈ getStateByRange ctx := (mem_entries_iff ctx k v).2 hg
    unfold allResults
    rw [← hd]
    exact List.mem_map.2 ⟨(k, v), hm, rfl⟩

theorem reachable_records_keyed_by_id_witness :
    Reachable (TransferAsset (InitLedger Ledger.empty).2 "carbonAsset1" "CarbonMarketplace").2 ∧
    AssetExists (TransferAsset (InitLedger Ledger.empty).2 "carbonAsset1" "CarbonMarketplace").2
      "carbonAsset1" = true ∧
    ∃ (v sequestrationType farmerID issuanceDate : String) (credits : JSValue),
      getState (TransferAsset (InitLedger Ledger.empty).2 "carbonAsset1" "CarbonMarketplace").2
        "carbonAsset1" = some v ∧
      JSON.parse v =
        .ok (recordJS "carbonAsset1" sequestrationType credits farmerID issuanceDate) := by
  have hr : Reachable
      (TransferAsset (InitLedger Ledger.empty).2 "carbonAsset1" "CarbonMarketplace").2 :=
    Reachable.transfer _ _ _ (Reachable.init _ Reachable.empty)
  have hp : AssetExists (TransferAsset (InitLedger Ledger.empty).2 "carbonAsset1"
      "CarbonMarketplace").2 "carbonAsset1" = true := by decide!
  obtain ⟨v, ty, f, d, cv, h1, _, h3, _⟩ := reachable_records_keyed_by_id _ hr "carbonAsset1" hp
  exact ⟨hr, hp, v, ty, f, d, cv, h1, h3⟩

/-! ## Session construction -/

/-- C11, counterexample: when the credential directory cannot be read, or the private key
cannot be parsed, and the timer has not fired, `initializeGateway` fails with the client
already created and never closed. -/
theorem unreadable_cert_dir_leaves_client_open :
    initializeGateway
        ⟨.ok (), .error (.Error "ENOENT"), fun _ => .ok (), .ok ["priv_sk"], fun _ => .ok (),
          .ok ()⟩ false =
      (.error (.Error "ENOENT"), [SessionEvent.clientCreated]) ∧
    (initializeGateway
        ⟨.ok (), .error (.Error "ENOENT"), fun _ => .ok (), .ok ["priv_sk"], fun _ => .ok (),
          .ok ()⟩ false).2.count SessionEvent.clientClosed = 0 ∧
    initializeGateway
        ⟨.ok (), .ok ["cert.pem"], fun _ => .ok (), .ok ["priv_sk"], fun _ => .ok (),
          .error .TypeError⟩ false =
      (.error .TypeError, [SessionEvent.clientCreated]) :=
  ⟨rfl, by decide, rfl⟩

theorem connectSession_events (env : GatewayEnv) :
    (∃ e, env.tlsRootCert = .error e ∧ connectSession env = (.error e, [])) ∨
    (env.tlsRootCert = .ok () ∧
      ((∃ e, connectSession env = (.error e, [SessionEvent.clientCreated])) ∨
        connectSession env =
          (.ok (), [SessionEvent.clientCreated, SessionEvent.gatewayConnected]))) := by
  unfold connectSession
  cases h1 : env.tlsRootCert with
  | error e => exact Or.inl ⟨e, rfl, rfl⟩
  | ok u =>
    right
    refine ⟨rfl, ?_⟩
    simp only []
    cases readOnlyFile env.certDir env.credentials with
    | error e => exact Or.inl ⟨e, rfl⟩
    | ok _ =>
      simp only []
      cases readOnlyFile env.keyDir env.privateKeyPem with
      | error e => exact Or.inl ⟨e, rfl⟩
      | ok _ =>
        simp only []
        cases env.privateKey with
        | error e => exact Or.inl ⟨e, rfl⟩
        | ok _ => exact Or.inr rfl

/-- C11, amended: `initializeGateway` closes the client on no exit path.  The client is
created exactly when the trust-root certificate was read; on every failing path after that
(directory unreadable or empty, file unreadable, key unparsable) the error reaches the
caller with the client created and not closed, as it is on ceiling expiry. -/
theorem initializeGateway_never_closes_client (env : GatewayEnv) (timerFirst : Bool) :
    SessionEvent.clientClosed ∉ (initializeGateway env timerFirst).2 ∧
    (env.tlsRootCert = .ok () →
      SessionEvent.clientCreated ∈ (initializeGateway env timerFirst).2) ∧
    (∀ e, env.tlsRootCert = .error e → (initializeGateway env timerFirst).2 = []) ∧
    (∀ e, env.tlsRootCert = .ok () → (initializeGateway env false).1 = .error e →
      (initializeGateway env false).2 = [SessionEvent.clientCreated]) ∧
    (timerFirst = true →
      (initializeGateway env timerFirst).1 = .error (.Error "⏱️ Gateway connection timed out")) := by
  have hev : (initializeGateway env timerFirst).2 = (connectSession env).2 := by
    unfold initializeGateway
    cases timerFirst <;> rfl
  have hf : initializeGateway env false = connectSession env := rfl
  rw [hev, hf]
  rcases connectSession_events env with ⟨e, h1, h2⟩ | ⟨h1, ⟨e, h2⟩ | h2⟩
  · refine ⟨by rw [h2]; simp, ?_, ?_, ?_, ?_⟩
    · intro h; rw [h1] at h; exact Except.noConfusion h
    · intro _ _; rw [h2]
    · intro _ h; rw [h1] at h; exact Except.noConfusion h
    · intro ht; subst ht; rfl
  · refine ⟨by rw [h2]; simp, ?_, ?_, ?_, ?_⟩
    · intro _; rw [h2]; simp
    · intro e' h; rw [h1] at h; exact Except.noConfusion h
    · intro _ _ _; rw [h2]
    · intro ht; subst ht; rfl
  · refine ⟨by rw [h2]; simp, ?_, ?_, ?_, ?_⟩
    · intro _; rw [h2]; simp
    · intro e' h; rw [h1] at h; exact Except.noConfusion h
    · intro e' _ h; rw [h2] at h; exact Except.noConfusion h
    · intro ht; subst ht; rfl

theorem initializeGateway_never_closes_client_witness :
    (⟨.ok (), .ok [], fun _ => .ok (), .ok ["priv_sk"], fun _ => .ok (), .ok ()⟩ :
      GatewayEnv).tlsRootCert = .ok () ∧
    (initializeGateway ⟨.ok (), .ok [], fun _ => .ok (), .ok ["priv_sk"], fun _ => .ok (), .ok ()⟩
      false).1 = .error .TypeError ∧
    (initializeGateway ⟨.ok (), .ok [], fun _ => .ok (), .ok ["priv_sk"], fun _ => .ok (), .ok ()⟩
      false).2 = [SessionEvent.clientCreated] :=
  ⟨rfl, rfl, (initializeGateway_never_closes_client
    ⟨.ok (), .ok [], fun _ => .ok (), .ok ["priv_sk"], fun _ => .ok (), .ok ()⟩ false).2.2.2.1
    .TypeError rfl rfl⟩

/-! ## The token cache -/

theorem overflowBound_gt : 2 ^ 53 < overflowBound := by
  unfold overflowBound
  norm_num

theorem ofMathInt_small (n : Nat) (h : n ≤ 2 ^ 53) : ofMathInt false n = .fin (n : ℚ) := by
  by_cases h0 : n = 0
  · subst h0
    simp [ofMathInt]
  · rw [ofMathInt_of_double false n h0 (roundNat_of_le n h) (lt_of_le_of_lt h overflowBound_gt)]
    simp [signedValue]

theorem numberOfRat_natCast (n : Nat) (h : n ≤ 2 ^ 53) : numberOfRat (n : ℚ) = .fin (n : ℚ) := by
  unfold numberOfRat
  by_cases h0 : n = 0
  · subst h0
    simp
  · have hq : (n : ℚ) ≠ 0 := by exact_mod_cast h0
    have hpos : ¬ ((n : ℚ) < 0) := by
      have : (0 : ℚ) ≤ (n : ℚ) := by exact_mod_cast Nat.zero_le n
      linarith
    rw [if_neg hq]
    have habs : |(n : ℚ)| = (n : ℚ) := abs_of_nonneg (by exact_mod_cast Nat.zero_le n)
    rw [habs]
    simp only [hpos, decide_False]
    unfold ofMathRat
    simp only [Rat.den_natCast, if_true, Rat.num_natCast, Int.natAbs_ofNat]
    exact ofMathInt_small n h

/-- For an integer `expires_in` of at least 90 s the expiry kept is `t + (E - 60)` s. -/
theorem cacheExpiry_of_long_lived (t E : Nat) (hE : 90 ≤ E) (hE2 : E ≤ 2 ^ 40) (ht : t ≤ 2 ^ 52) :
    cacheTtl (.fin (E : ℚ)) = .fin ((E : ℚ) - 60) ∧
    cacheExpiry t (cacheTtl (.fin (E : ℚ))) = .fin ((t : ℚ) + ((E : ℚ) - 60) * 1000) := by
  have hq : (E : ℚ) ≠ 0 := by
    have : E ≠ 0 := by omega
    exact_mod_cast this
  have e60 : (E : ℚ) + -60 = ((E - 60 : Nat) : ℚ) := by
    rw [Nat.cast_sub (by omega)]
    push_cast
    ring
  have h1 : cacheTtl (.fin (E : ℚ)) = .fin ((E : ℚ) - 60) := by
    have hle : (30 : ℚ) ≤ ((E - 60 : Nat) : ℚ) := by
      have : 30 ≤ E - 60 := by omega
      exact_mod_cast this
    simp only [cacheTtl, toBoolean, ne_eq, hq, not_false_eq_true, decide_True, if_true,
      numberSubtract, numberNegate]
    rw [if_neg (by norm_num)]
    simp only [numberAdd]
    rw [e60, numberOfRat_natCast _ (by
      have : (2:Nat) ^ 40 ≤ 2 ^ 53 := Nat.pow_le_pow_right (by norm_num) (by norm_num)
      omega)]
    simp only [mathMax]
    rw [max_eq_right hle, ← e60]
    ring_nf
  refine ⟨h1, ?_⟩
  rw [h1]
  have hpos : (0 : ℚ) ≤ (E : ℚ) - 60 := by
    have : (60 : ℚ) ≤ (E : ℚ) := by exact_mod_cast (by omega : 60 ≤ E)
    linarith
  have em : |(E : ℚ) - 60| * |(1000 : ℚ)| = (((E - 60) * 1000 : Nat) : ℚ) := by
    rw [abs_of_nonneg hpos, abs_of_nonneg (by norm_num)]
    rw [Nat.cast_mul, Nat.cast_sub (by omega)]
    push_cast
    ring
  have hb : (E - 60) * 1000 ≤ 2 ^ 51 := by
    have : (2:Nat) ^ 40 * 1000 ≤ 2 ^ 51 := by norm_num
    have : (E - 60) * 1000 ≤ 2 ^ 40 * 1000 := Nat.mul_le_mul_right _ (by omega)
    omega
  have hneg1 : ¬ ((E : ℚ) - 60 < 0) := by linarith
  simp only [cacheExpiry, numberMultiply, isNegative, magnitude, hneg1, decide_False]
  have : decide ((1000 : ℚ) < 0) = false := by decide!
  rw [this]
  simp only [Bool.xor_false, em]
  have hof : ofMathRat false ((((E - 60) * 1000 : Nat)) : ℚ) = .fin ((((E - 60) * 1000 : Nat)) : ℚ) := by
    unfold ofMathRat
    simp only [Rat.den_natCast, if_true, Rat.num_natCast, Int.natAbs_ofNat]
    exact ofMathInt_small _ (by
      have : (2:Nat) ^ 51 ≤ 2 ^ 53 := Nat.pow_le_pow_right (by norm_num) (by norm_num)
      omega)
  rw [hof, ofMathInt_small t (by
      have : (2:Nat) ^ 52 ≤ 2 ^ 53 := Nat.pow_le_pow_right (by norm_num) (by norm_num)
      omega)]
  simp only [numberAdd]
  have es : (t : ℚ) + (((E - 60) * 1000 : Nat) : ℚ) = ((t + (E - 60) * 1000 : Nat) : ℚ) := by
    push_cast
    ring
  rw [es, numberOfRat_natCast _ (by
      have : (2:Nat) ^ 52 + 2 ^ 51 ≤ 2 ^ 53 := by norm_num
      omega)]
  rw [← es, em.symm, abs_of_nonneg hpos, abs_of_nonneg (by norm_num)]

theorem getAccessToken_of_cache (c : CachedToken) (now nowFetched : Nat)
    (response : Except JSError TokenObj) :
    (beforeExpiry now c.expiryMs = true →
      getAccessToken false (some c) now response nowFetched = ⟨c.tokenObj, some c, false⟩) ∧
    (beforeExpiry now c.expiryMs = false → ∀ tokenObj, response = .ok tokenObj →
      getAccessToken false (some c) now response nowFetched =
        ⟨tokenObj, some ⟨tokenObj, cacheExpiry nowFetched (cacheTtl tokenObj.expires_in)⟩,
          true⟩) ∧
    (∀ tokenObj, getAccessToken false none now (.ok tokenObj) nowFetched =
        ⟨tokenObj, some ⟨tokenObj, cacheExpiry nowFetched (cacheTtl tokenObj.expires_in)⟩,
          true⟩) := by
  refine ⟨?_, ?_, ?_⟩
  · intro h
    simp [getAccessToken, h]
  · intro h tokenObj hr
    subst hr
    simp [getAccessToken, h]
  · intro tokenObj
    simp [getAccessToken]

/-- C12: the token endpoint answers `expires_in` 10 at time 0 and the token is cached with
expiry 30 000 ms (the floor of `Math.max(30, ...)`); a non-mock call at 20 000 ms returns
it without fetching, although 20 000 ms is neither earlier than 0 + (10 - 60) s nor earlier
than the token's own expiry 0 + 10 s. -/
theorem short_lived_token_served_after_expiry :
    getAccessToken false none 0 (.ok ⟨"tok", .fin 10, false⟩) 0 =
      ⟨⟨"tok", .fin 10, false⟩, some ⟨⟨"tok", .fin 10, false⟩, .fin 30000⟩, true⟩ ∧
    getAccessToken false
        (getAccessToken false none 0 (.ok ⟨"tok", .fin 10, false⟩) 0).cachedToken 20000
        (.error .TypeError) 20000 =
      ⟨⟨"tok", .fin 10, false⟩, some ⟨⟨"tok", .fin 10, false⟩, .fin 30000⟩, false⟩ ∧
    ¬ ((20000 : ℚ) < 0 + (10 - 60) * 1000) ∧ ¬ ((20000 : ℚ) < 0 + 10 * 1000) := by
  refine ⟨by decide!, by decide!, by norm_num, by norm_num⟩

/-- The time to live on particular values of `Number(expires_in)`: 3600 replaces `NaN` and
both zeros, the floor is 30, and a non-integer value is carried through. -/
theorem cacheTtl_values :
    cacheTtl .nan = .fin 3540 ∧ cacheTtl (.fin 0) = .fin 3540 ∧ cacheTtl .negZero = .fin 3540 ∧
    cacheTtl (.fin 3599) = .fin 3539 ∧ cacheTtl (.fin 10) = .fin 30 ∧
    cacheTtl (.fin (-5)) = .fin 30 ∧ cacheTtl .posInf = .posInf ∧ cacheTtl .negInf = .fin 30 ∧
    cacheTtl (.fin (1801 / 2)) = .fin (1681 / 2) := by
  refine ⟨by decide!, by decide!, by decide!, by decide!, by decide!, by decide!, by decide!,
    by decide!, by decide!⟩

/-! ## The role middleware -/

/-- C13, the code at the failing input: the header value `constructor` is none of the three
tokens, yet `TOKENS[token]` finds the member inherited from `Object.prototype`, so with
no required roles the middleware calls `next()`, and with required roles it responds 403
rather than 401. -/
theorem roleAuth_admits_inherited_name :
    roleAuth [] (some "constructor") = .next (.inherited "constructor") ∧
    roleAuth ["Admin"] (some "constructor") = .status 403 ∧
    "constructor" ≠ "Bearer farmer-token" ∧ "constructor" ≠ "Bearer verifier-token" ∧
    "constructor" ≠ "Bearer admin-token" := by
  refine ⟨by decide, by decide, by decide, by decide, by decide⟩

/-- On a header that names no member of `Object.prototype` the middleware admits exactly
the three tokens of the table. -/
theorem roleAuth_of_own_lookup (requiredRoles : List String) (token : String)
    (h : token ∉ objectPrototypeNames) :
    roleAuth requiredRoles (some token) =
      if token = "Bearer farmer-token" then
        (if requiredRoles = [] ∨ "Farmer" ∈ requiredRoles then .next (.role "Farmer")
          else .status 403)
      else if token = "Bearer verifier-token" then
        (if requiredRoles = [] ∨ "Verifier" ∈ requiredRoles then .next (.role "Verifier")
          else .status 403)
      else if token = "Bearer admin-token" then
        (if requiredRoles = [] ∨ "Admin" ∈ requiredRoles then .next (.role "Admin")
          else .status 403)
      else .status 401 := by
  have hlen : requiredRoles.length > 0 ↔ requiredRoles ≠ [] := by
    cases requiredRoles <;> simp
  by_cases h1 : token = "Bearer farmer-token"
  · subst h1
    by_cases hr : requiredRoles = [] <;> by_cases hm : "Farmer" ∈ requiredRoles <;>
      simp [roleAuth, TOKENS, includesRole, hr, hm, hlen]
  · by_cases h2 : token = "Bearer verifier-token"
    · subst h2
      by_cases hr : requiredRoles = [] <;> by_cases hm : "Verifier" ∈ requiredRoles <;>
        simp [roleAuth, TOKENS, includesRole, hr, hm, hlen]
    · by_cases h3 : token = "Bearer admin-token"
      · subst h3
        by_cases hr : requiredRoles = [] <;> by_cases hm : "Admin" ∈ requiredRoles <;>
          simp [roleAuth, TOKENS, includesRole, hr, hm, hlen]
      · by_cases h0 : token = ""
        · simp [roleAuth, h0]
        · simp [roleAuth, TOKENS, h0, h1, h2, h3, h]

/-! ## The range scan of `GetAllAssets`, entry by entry -/

theorem assetExists_iff_stored (ctx : Ledger) (hvalues : ∀ k v, getState ctx k = some v → v ≠ "")
    (k : String) : AssetExists ctx k = true ↔ ∃ v, getState ctx k = some v := by
  constructor
  · intro h
    cases hg : getState ctx k with
    | none => simp [AssetExists, hg] at h
    | some v => exact ⟨v, rfl⟩
  · rintro ⟨v, hv⟩
    exact AssetExists_of_present ctx k v hv (hvalues k v hv)

theorem decodeRecord_cases (v : String) :
    (∃ record, JSON.parse v = .ok record ∧ decodeRecord v = record) ∨
      ((∃ e, JSON.parse v = .error e) ∧ decodeRecord v = .string v) := by
  cases h : JSON.parse v with
  | ok r => exact Or.inl ⟨r, rfl, decodeRecord_of_ok v r h⟩
  | error e => exact Or.inr ⟨⟨e, rfl⟩, decodeRecord_of_error v e h⟩

/-- Every value a reachable ledger holds is not empty. -/
theorem reachable_values_not_empty (ctx : Ledger) (h : Reachable ctx) (k v : String)
    (hv : getState ctx k = some v) : v ≠ "" :=
  (storedRecord_parse k v (recordsKeyed_of_reachable ctx h k v hv)).1

/-- C4: on every ledger in which no key stores the empty value (a peer keeps none: writing
the empty value deletes the key, and every ledger the contract reaches is such),
`GetAllAssets` succeeds and its entries stand one for one, in order, against the list of
the keys that are PRESENT for `AssetExists`, which is strictly ascending and so names each
present key once and no other key; the entry of a key is the decoded value that
`ReadAsset` returns for it, or that value as a raw string when it does not decode, the
entries of the other keys being returned all the same. -/
theorem getAllAssets_lists_present_keys (ctx : Ledger)
    (hvalues : ∀ k v, getState ctx k = some v → v ≠ "") :
    ∃ keys : List String,
      keys.Pairwise (fun a b => a < b) ∧ keys.Nodup ∧
      (∀ k, k ∈ keys ↔ AssetExists ctx k = true) ∧
      (∃ text, GetAllAssets ctx = (.ok text, ctx) ∧
        JSON.stringify (.array (allResults ctx)) = some text) ∧
      List.Forall₂ (fun k entry => ∃ v, ReadAsset ctx k = (.ok v, ctx) ∧
          ((∃ record, JSON.parse v = .ok record ∧ entry = record) ∨
            ((∃ e, JSON.parse v = .error e) ∧ entry = .string v)))
        keys (allResults ctx) := by
  have hsorted : ((getStateByRange ctx).map Prod.fst).Pairwise (fun a b => a < b) := by
    rw [List.pairwise_map]
    exact ctx.sorted
  refine ⟨(getStateByRange ctx).map Prod.fst, hsorted, ?_, ?_,
    ⟨_, GetAllAssets_eq ctx, stringify_array _⟩, ?_⟩
  · exact List.Pairwise.imp (fun {a b} (hab : a < b) => ne_of_lt hab) hsorted
  · intro k
    rw [assetExists_iff_stored ctx hvalues k, List.mem_map]
    constructor
    · rintro ⟨⟨k', v⟩, hm, rfl⟩
      exact ⟨v, (mem_entries_iff ctx k' v).1 hm⟩
    · rintro ⟨v, hv⟩
      exact ⟨(k, v), (mem_entries_iff ctx k v).2 hv, rfl⟩
  · unfold allResults
    rw [List.forall₂_map_left_iff, List.forall₂_map_right_iff, List.forall₂_same]
    rintro ⟨k, v⟩ hm
    have hg := (mem_entries_iff ctx k v).1 hm
    exact ⟨v, ReadAsset_of_getState ctx k v hg (hvalues k v hg), decodeRecord_cases v⟩

theorem getAllAssets_lists_present_keys_witness :
    (∀ k v, getState (putState (putState Ledger.empty "b" "\x7bbad") "a" "7") k = some v →
      v ≠ "") ∧
    allResults (putState (putState Ledger.empty "b" "\x7bbad") "a" "7") =
      [.number (.fin 7), .string "\x7bbad"] ∧
    ∃ keys : List String,
      keys.Pairwise (fun a b => a < b) ∧ keys.Nodup ∧
      (∀ k, k ∈ keys ↔
        AssetExists (putState (putState Ledger.empty "b" "\x7bbad") "a" "7") k = true) ∧
      (∃ text, GetAllAssets (putState (putState Ledger.empty "b" "\x7bbad") "a" "7") =
          (.ok text, putState (putState Ledger.empty "b" "\x7bbad") "a" "7") ∧
        JSON.stringify (.array (allResults (putState (putState Ledger.empty "b" "\x7bbad") "a" "7"))) =
          some text) ∧
      List.Forall₂ (fun k entry => ∃ v,
          ReadAsset (putState (putState Ledger.empty "b" "\x7bbad") "a" "7") k =
            (.ok v, putState (putState Ledger.empty "b" "\x7bbad") "a" "7") ∧
          ((∃ record, JSON.parse v = .ok record ∧ entry = record) ∨
            ((∃ e, JSON.parse v = .error e) ∧ entry = .string v)))
        keys (allResults (putState (putState Ledger.empty "b" "\x7bbad") "a" "7")) := by
  have hv : ∀ k v, getState (putState (putState Ledger.empty "b" "\x7bbad") "a" "7") k = some v →
      v ≠ "" := by
    intro k v h
    rw [getState_putState, getState_putState] at h
    split_ifs at h with h1 h2
    · cases h
      decide
    · cases h
      decide
    · cases h
  have hscan : getStateByRange (putState (putState Ledger.empty "b" "\x7bbad") "a" "7") =
      [("a", "7"), ("b", "\x7bbad")] := by
    simp [getStateByRange, putState, Ledger.empty, insertKey, String.lt_iff]
    decide
  have hall : allResults (putState (putState Ledger.empty "b" "\x7bbad") "a" "7") =
      [.number (.fin 7), .string "\x7bbad"] := by
    unfold allResults
    rw [hscan]
    rfl
  exact ⟨hv, hall, getAllAssets_lists_present_keys _ hv⟩

end CarbonPasture
